import Mathlib

/-!
# StarResonanceDamageCounter: frame decoding and combat-delta classification

A shallow embedding of `src/algo/packet.js` (`BinaryReader`, `PacketProcessor`).

* A Node.js `Buffer` is a list of bytes; a `subarray` is a fresh list (a view never
  changes, so sharing is not observable).
* An exception is a result of its own: bounds-checked reads return `none`, and the
  functions that may raise return an `Outcome` that keeps the state reached.
* The statistics store (`userDataManager`) is external: the model records the calls
  made to it, in order.  Logger calls return nothing and steer nothing; they are left out.
* `long.js` values (`Long`) are a 64-bit pattern plus the `unsigned` flag.
* The generated protobuf module `./blueprotobuf`, the `protobufjs` reader and `zlib`
  are not part of the sources: decoders, the two enum constants and the zstd routine are
  fields of `Env`.
-/

namespace PacketJs

/-! ## Buffers (Node.js `Buffer`) -/

abbrev Byte := Fin 256

abbrev Buffer := List Byte

/-- Expression `buffer.subarray(start, end)` for `0 ≤ start ≤ end`: both ends are clamped
to the length of the buffer. -/
def Buffer.subarray (b : Buffer) (start stop : Nat) : Buffer :=
  (b.drop start).take (stop - start)

/-- Big-endian value of a list of bytes. -/
def beValue : List Byte → Nat
  | [] => 0
  | x :: xs => x.val * 256 ^ xs.length + beValue xs

/-- Shared shape of `readUInt16BE`, `readUInt32BE`, `readBigUInt64BE`: the big-endian value
of the `n` bytes at `offset`; raises (`none`) when they are not all inside the buffer. -/
def Buffer.readBE (b : Buffer) (n offset : Nat) : Option Nat :=
  if offset + n ≤ b.length then some (beValue ((b.drop offset).take n)) else none

def Buffer.readUInt16BE (b : Buffer) (offset : Nat) : Option Nat := b.readBE 2 offset

def Buffer.readUInt32BE (b : Buffer) (offset : Nat) : Option Nat := b.readBE 4 offset

def Buffer.readBigUInt64BE (b : Buffer) (offset : Nat) : Option Nat := b.readBE 8 offset

/-! ## `BinaryReader` -/

structure BinaryReader where
  buffer : Buffer
  offset : Nat := 0
  deriving DecidableEq, Repr

namespace BinaryReader

def readUInt64 (r : BinaryReader) : Option (Nat × BinaryReader) :=
  match r.buffer.readBigUInt64BE r.offset with
  | none => none
  | some value => some (value, { r with offset := r.offset + 8 })

def peekUInt64 (r : BinaryReader) : Option Nat :=
  r.buffer.readBigUInt64BE r.offset

def readUInt32 (r : BinaryReader) : Option (Nat × BinaryReader) :=
  match r.buffer.readUInt32BE r.offset with
  | none => none
  | some value => some (value, { r with offset := r.offset + 4 })

def peekUInt32 (r : BinaryReader) : Option Nat :=
  r.buffer.readUInt32BE r.offset

def readUInt16 (r : BinaryReader) : Option (Nat × BinaryReader) :=
  match r.buffer.readUInt16BE r.offset with
  | none => none
  | some value => some (value, { r with offset := r.offset + 2 })

def peekUInt16 (r : BinaryReader) : Option Nat :=
  r.buffer.readUInt16BE r.offset

def readBytes (r : BinaryReader) (length : Nat) : Buffer × BinaryReader :=
  (r.buffer.subarray r.offset (r.offset + length), { r with offset := r.offset + length })

def peekBytes (r : BinaryReader) (length : Nat) : Buffer :=
  r.buffer.subarray r.offset (r.offset + length)

/-- Expression `buffer.length - offset`; negative once the offset has passed the end. -/
def remaining (r : BinaryReader) : Int :=
  (r.buffer.length : Int) - (r.offset : Int)

def readRemaining (r : BinaryReader) : Buffer × BinaryReader :=
  (r.buffer.drop r.offset, { r with offset := r.buffer.length })

end BinaryReader

/-! ## Constant tables -/

namespace MessageType
def None : Nat := 0
def Call : Nat := 1
def Notify : Nat := 2
def Return : Nat := 3
def Echo : Nat := 4
def FrameUp : Nat := 5
def FrameDown : Nat := 6
end MessageType

namespace NotifyMethod
def SyncNearEntities : Nat := 0x00000006
def SyncNearDeltaInfo : Nat := 0x0000002d
def SyncToMeDeltaInfo : Nat := 0x0000002e
end NotifyMethod

namespace AttrType
def AttrName : Int := 0x01
def AttrProfessionId : Int := 0xdc
def AttrFightPoint : Int := 0x272e
end AttrType

/-- The table `ProfessionType` read through `getProfessionNameFromId`. -/
def getProfessionNameFromId (professionId : Int) : String :=
  if professionId = 1 then "雷影剑士"
  else if professionId = 2 then "冰魔导师"
  else if professionId = 3 then "涤罪恶火·战斧"
  else if professionId = 4 then "青岚骑士"
  else if professionId = 5 then "森语者"
  else if professionId = 8 then "雷霆一闪·手炮"
  else if professionId = 9 then "巨刃守护者"
  else if professionId = 10 then "暗灵祈舞·仪刀/仪仗"
  else if professionId = 11 then "神射手"
  else if professionId = 12 then "神盾骑士"
  else if professionId = 13 then "灵魂乐手"
  else "未知职业(" ++ toString professionId ++ ")"

def SKILL_TO_ROLE_MAP : List (Int × String) :=
  [ (1241, "射线"), (55302, "协奏"), (20301, "愈合"), (1518, "惩戒"), (2306, "狂音"),
    (120902, "冰矛"), (1714, "居合"), (44701, "月刃"), (220112, "鹰弓"), (2203622, "鹰弓"),
    (1700827, "狼弓"), (1419, "空枪"), (1418, "重装"), (2405, "防盾"), (2406, "光盾"),
    (199902, "岩盾") ]

/-- Expression `SKILL_TO_ROLE_MAP[skillId] || null`. -/
def getRoleFromSkill (skillId : Int) : Option String :=
  SKILL_TO_ROLE_MAP.lookup skillId

/-! ## `Long` (long.js) -/

/-- A long.js value: the 64-bit two's complement pattern `bits` (`low + 2^32 * high`) and
the `unsigned` flag. -/
structure Long where
  bits : Nat
  unsigned : Bool := false
  deriving DecidableEq, Repr

namespace Long

def ZERO : Long := { bits := 0, unsigned := false }

/-- Method `toBigInt()`: the value the pattern stands for, signed or unsigned by the flag. -/
def toBigInt (x : Long) : Int :=
  if x.unsigned then (x.bits : Int)
  else if x.bits < 2 ^ 63 then (x.bits : Int) else (x.bits : Int) - 2 ^ 64

/-- Method `shiftRight(numBits)`: long.js shifts arithmetically, the sign bit (bit 63) is
replicated into the vacated bits whatever the `unsigned` flag says (the logical shift is
`shiftRightUnsigned`, which `packet.js` never calls). -/
def shiftRight (x : Long) (numBits : Nat) : Long :=
  let n := numBits % 64
  if x.bits < 2 ^ 63 then { x with bits := x.bits / 2 ^ n }
  else { x with bits := x.bits / 2 ^ n + (2 ^ 64 - 2 ^ (64 - n)) }

/-- Method `isZero()`: `high === 0 && low === 0`. -/
def isZero (x : Long) : Bool := x.bits == 0

/-- Method `eq(other)`: two values of different signedness that both have bit 63 set are
different; otherwise the patterns are compared. -/
def eq (x other : Long) : Bool :=
  if x.unsigned != other.unsigned && decide (2 ^ 63 ≤ x.bits) && decide (2 ^ 63 ≤ other.bits)
  then false
  else x.bits == other.bits

/-- Number of binary digits of a natural number below `2^64`. -/
def bitLength (n : Nat) : Nat :=
  ((List.range 64).filter (fun k => decide (2 ^ k ≤ n))).length

/-- Nearest IEEE-754 double (ties to even) of a natural number below `2^64`. -/
def roundToDouble (n : Nat) : Nat :=
  if n < 2 ^ 53 then n
  else
    let e := bitLength n - 53
    let q := n / 2 ^ e
    let r := n % 2 ^ e
    let half := 2 ^ (e - 1)
    let q' := if half < r ∨ (r = half ∧ q % 2 = 1) then q + 1 else q
    q' * 2 ^ e

/-- Method `toNumber()`: the value as a JavaScript number; exact up to `2^53` in magnitude. -/
def toNumber (x : Long) : Int :=
  let v := x.toBigInt
  if 0 ≤ v then (roundToDouble v.toNat : Int) else - (roundToDouble (-v).toNat : Int)

end Long

/-- Function `isUuidPlayer`: `(uuid.toBigInt() & 0xffffn) === 640n`; on a BigInt `& 0xffffn`
keeps the low 16 bits of the two's complement form, which is the remainder modulo `2^16`. -/
def isUuidPlayer (uuid : Long) : Bool :=
  uuid.toBigInt % 65536 == 640

/-! ## Decoded protobuf messages (`./blueprotobuf`)

An optional field is `none` when the decoded object holds `null`/`undefined` for it. -/

structure SyncDamageInfo where
  OwnerId : Option Int := none
  TopSummonerId : Option Long := none
  AttackerUuid : Option Long := none
  Value : Option Long := none
  LuckyValue : Option Long := none
  TypeFlag : Option Int := none
  IsCrit : Option Bool := none
  IsMiss : Option Bool := none
  IsDead : Option Bool := none
  /-- The field `Type` of the message. -/
  Type_ : Option Int := none
  HpLessenValue : Option Long := none
  deriving DecidableEq, Repr

structure SkillEffect where
  Damages : Option (List SyncDamageInfo) := none
  deriving DecidableEq, Repr

structure AoiSyncDelta where
  Uuid : Option Long := none
  SkillEffects : Option SkillEffect := none
  deriving DecidableEq, Repr

structure SyncNearDeltaInfo where
  DeltaInfos : Option (List AoiSyncDelta) := none
  deriving DecidableEq, Repr

structure AoiSyncToMeDelta where
  Uuid : Option Long := none
  BaseDelta : Option AoiSyncDelta := none
  deriving DecidableEq, Repr

structure SyncToMeDeltaInfo where
  DeltaInfo : Option AoiSyncToMeDelta := none
  deriving DecidableEq, Repr

structure Attr where
  Id : Option Int := none
  RawData : Option Buffer := none
  deriving DecidableEq, Repr

structure AttrCollection where
  Attrs : Option (List Attr) := none
  deriving DecidableEq, Repr

structure Entity where
  EntType : Option Int := none
  Uuid : Option Long := none
  Attrs : Option AttrCollection := none
  deriving DecidableEq, Repr

structure SyncNearEntities where
  Appear : Option (List Entity) := none
  deriving DecidableEq, Repr

/-- What `packet.js` takes from modules outside the sources.  A decoder or the zstd routine
returns `none` when it raises.  A payload is `none` when it is `undefined` (what
`_decompressPayload` returns when the zstd routine is missing). -/
structure Env where
  /-- Whether `zlib.zstdDecompressSync` is defined. -/
  zstdAvailable : Bool
  zstdDecompressSync : Buffer → Option Buffer
  decodeSyncNearDeltaInfo : Option Buffer → Option SyncNearDeltaInfo
  decodeSyncToMeDeltaInfo : Option Buffer → Option SyncToMeDeltaInfo
  decodeSyncNearEntities : Option Buffer → Option SyncNearEntities
  /-- The call `pbjs.Reader.create(raw).string()`. -/
  readerString : Buffer → Option String
  /-- The call `pbjs.Reader.create(raw).int32()`. -/
  readerInt32 : Buffer → Option Int
  /-- The constant `pb.EDamageType.Heal`. -/
  EDamageType_Heal : Int
  /-- The constant `pb.EEntityType.EntChar`. -/
  EEntityType_EntChar : Int

/-! ## State and outcomes -/

/-- A call made to the statistics store (`userDataManager`). -/
inductive StoreCall where
  | addDamage (actorId skillId amount : Int) (crit lucky : Bool) (hpLessen : Int)
  | addHealing (actorId amount : Int) (crit lucky : Bool)
  | addTakenDamage (targetId amount : Int)
  | setProfession (id : Int) (name : String)
  | setName (id : Int) (name : String)
  | setFightPoint (id : Int) (value : Int)
  | getUser (id : Int)
  deriving DecidableEq, Repr

/-- The store calls made so far, oldest first, and the module variable `currentUserUuid`. -/
structure State where
  calls : List StoreCall := []
  currentUserUuid : Long := Long.ZERO
  deriving DecidableEq, Repr

def State.call (s : State) (c : StoreCall) : State :=
  { s with calls := s.calls ++ [c] }

/-- How a piece of code ends: it returns, or it raises; either way with the state reached. -/
inductive Outcome (σ : Type) where
  | returned (s : σ)
  | threw (s : σ)
  deriving DecidableEq, Repr

def Outcome.state {σ : Type} : Outcome σ → σ
  | .returned s => s
  | .threw s => s

/-! ## `PacketProcessor` -/

/-- Function `_decompressPayload`: `undefined` (`some none`) when the zstd routine is missing,
else what `zlib.zstdDecompressSync` returns; `none` when that call raises. -/
def decompressPayload (env : Env) (buffer : Buffer) : Option (Option Buffer) :=
  if !env.zstdAvailable then some none
  else
    match env.zstdDecompressSync buffer with
    | none => none
    | some out => some (some out)

/-- The record routing of `_processAoiSyncDelta` (the nested `if` on `isTargetPlayer`,
`isHeal`, `isAttackerPlayer`): the store calls it makes for one event. -/
def routeEvent (isTargetPlayer isHeal isAttackerPlayer : Bool) (targetUuid attackerUuid : Long)
    (skillId : Int) (damage : Long) (isCrit isLucky : Bool) (hpLessenValue : Long) :
    List StoreCall :=
  if isTargetPlayer then
    if isHeal then
      if isAttackerPlayer then
        StoreCall.addHealing attackerUuid.toNumber damage.toNumber isCrit isLucky ::
          (match getRoleFromSkill skillId with
           | some roleName => [StoreCall.setProfession attackerUuid.toNumber roleName]
           | none => [])
      else []
    else [StoreCall.addTakenDamage targetUuid.toNumber damage.toNumber]
  else
    if isHeal then []
    else
      if isAttackerPlayer then
        StoreCall.addDamage attackerUuid.toNumber skillId damage.toNumber isCrit isLucky
            hpLessenValue.toNumber ::
          (match getRoleFromSkill skillId with
           | some roleName => [StoreCall.setProfession attackerUuid.toNumber roleName]
           | none => [])
      else []

/-- The `getUser` look-ups made while the log line of one event is built. -/
def logLookups (isTargetPlayer isAttackerPlayer : Bool) (targetUuid attackerUuid : Long) :
    List StoreCall :=
  (if isAttackerPlayer then [StoreCall.getUser attackerUuid.toNumber] else []) ++
  (if isTargetPlayer then [StoreCall.getUser targetUuid.toNumber] else [])

/-- Expression `value ?? luckyValue ?? Long.ZERO`. -/
def damageOf (syncDamageInfo : SyncDamageInfo) : Long :=
  match syncDamageInfo.Value with
  | some value => value
  | none =>
    match syncDamageInfo.LuckyValue with
    | some luckyValue => luckyValue
    | none => Long.ZERO

/-- Expression `syncDamageInfo.TopSummonerId || syncDamageInfo.AttackerUuid` (a `Long` object is
truthy). -/
def attackerOf (syncDamageInfo : SyncDamageInfo) : Option Long :=
  match syncDamageInfo.TopSummonerId with
  | some u => some u
  | none => syncDamageInfo.AttackerUuid

/-- Expression `TypeFlag != null ? (TypeFlag & 1) === 1 : false`. -/
def isCritOf (syncDamageInfo : SyncDamageInfo) : Bool :=
  match syncDamageInfo.TypeFlag with
  | some typeFlag => typeFlag % 2 == 1
  | none => false

/-- Expression `syncDamageInfo.Type === pb.EDamageType.Heal`. -/
def isHealOf (env : Env) (syncDamageInfo : SyncDamageInfo) : Bool :=
  decide (syncDamageInfo.Type_ = some env.EDamageType_Heal)

/-- Expression `HpLessenValue != null ? HpLessenValue : Long.ZERO`. -/
def hpLessenOf (syncDamageInfo : SyncDamageInfo) : Long :=
  match syncDamageInfo.HpLessenValue with
  | some v => v
  | none => Long.ZERO

/-- One turn of the loop over `skillEffect.Damages`: the store calls made for one damage
sub-record (`continue` makes none). -/
def damageCalls (env : Env) (isTargetPlayer : Bool) (targetUuid : Long)
    (syncDamageInfo : SyncDamageInfo) : List StoreCall :=
  match syncDamageInfo.OwnerId with
  | none => []
  | some skillId =>
    if skillId = 0 then []
    else
      match attackerOf syncDamageInfo with
      | none => []
      | some attackerRaw =>
        let isAttackerPlayer := isUuidPlayer attackerRaw
        let attackerUuid := attackerRaw.shiftRight 16
        let damage := damageOf syncDamageInfo
        if damage.isZero then []
        else
          let isCrit := isCritOf syncDamageInfo
          let isHeal := isHealOf env syncDamageInfo
          let isLucky := syncDamageInfo.LuckyValue.isSome
          let hpLessenValue := hpLessenOf syncDamageInfo
          routeEvent isTargetPlayer isHeal isAttackerPlayer targetUuid attackerUuid skillId
              damage isCrit isLucky hpLessenValue ++
            logLookups isTargetPlayer isAttackerPlayer targetUuid attackerUuid

/-- The store calls `_processAoiSyncDelta` makes for one delta record. -/
def aoiSyncDeltaCalls (env : Env) (aoiSyncDelta : Option AoiSyncDelta) : List StoreCall :=
  match aoiSyncDelta with
  | none => []
  | some delta =>
    match delta.Uuid with
    | none => []
    | some targetRaw =>
      let isTargetPlayer := isUuidPlayer targetRaw
      let targetUuid := targetRaw.shiftRight 16
      match delta.SkillEffects with
      | none => []
      | some skillEffect =>
        match skillEffect.Damages with
        | none => []
        | some damages =>
          (damages.map (damageCalls env isTargetPlayer targetUuid)).flatten

/-- Function `_processAoiSyncDelta`: it never raises. -/
def processAoiSyncDelta (env : Env) (aoiSyncDelta : Option AoiSyncDelta) (s : State) : State :=
  { s with calls := s.calls ++ aoiSyncDeltaCalls env aoiSyncDelta }

/-- Function `_processSyncNearDeltaInfo`. -/
def processSyncNearDeltaInfo (env : Env) (payloadBuffer : Option Buffer) (s : State) :
    Outcome State :=
  match env.decodeSyncNearDeltaInfo payloadBuffer with
  | none => .threw s
  | some syncNearDeltaInfo =>
    match syncNearDeltaInfo.DeltaInfos with
    | none => .returned s
    | some deltaInfos =>
      .returned (deltaInfos.foldl
        (fun st aoiSyncDelta => processAoiSyncDelta env (some aoiSyncDelta) st) s)

/-- Function `_processSyncToMeDeltaInfo`; reading `Uuid` of an absent `DeltaInfo` raises. -/
def processSyncToMeDeltaInfo (env : Env) (payloadBuffer : Option Buffer) (s : State) :
    Outcome State :=
  match env.decodeSyncToMeDeltaInfo payloadBuffer with
  | none => .threw s
  | some syncToMeDeltaInfo =>
    match syncToMeDeltaInfo.DeltaInfo with
    | none => .threw s
    | some aoiSyncToMeDelta =>
      let s1 : State :=
        match aoiSyncToMeDelta.Uuid with
        | some uuid => if !s.currentUserUuid.eq uuid then { s with currentUserUuid := uuid } else s
        | none => s
      match aoiSyncToMeDelta.BaseDelta with
      | none => .returned s1
      | some aoiSyncDelta => .returned (processAoiSyncDelta env (some aoiSyncDelta) s1)

/-- The `switch (attr.Id)` of `_processSyncNearEntities` for one attribute: the store call
made (if any), or `none` when the protobuf reader raises. -/
def attrCall (env : Env) (playerUuid : Long) (attr : Attr) : Option (List StoreCall) :=
  match attr.Id, attr.RawData with
  | some id, some rawData =>
    if id = 0 then some []
    else if id = AttrType.AttrName then
      match env.readerString rawData with
      | none => none
      | some playerName => some [StoreCall.setName playerUuid.toNumber playerName]
    else if id = AttrType.AttrProfessionId then
      match env.readerInt32 rawData with
      | none => none
      | some professionId =>
        some [StoreCall.setProfession playerUuid.toNumber (getProfessionNameFromId professionId)]
    else if id = AttrType.AttrFightPoint then
      match env.readerInt32 rawData with
      | none => none
      | some playerFightPoint => some [StoreCall.setFightPoint playerUuid.toNumber playerFightPoint]
    else some []
  | _, _ => some []

/-- A loop whose turns may raise: the turns run in order until one raises. -/
def forEach {α : Type} (turn : α → State → Outcome State) : List α → State → Outcome State
  | [], s => .returned s
  | x :: xs, s =>
    match turn x s with
    | .returned s' => forEach turn xs s'
    | .threw s' => .threw s'

/-- One turn of the loop over `attrCollection.Attrs`. -/
def processAttr (env : Env) (playerUuid : Long) (attr : Attr) (s : State) : Outcome State :=
  match attrCall env playerUuid attr with
  | none => .threw s
  | some calls => .returned { s with calls := s.calls ++ calls }

/-- One turn of the loop over `syncNearEntities.Appear`. -/
def processEntity (env : Env) (entity : Entity) (s : State) : Outcome State :=
  if entity.EntType ≠ some env.EEntityType_EntChar then .returned s
  else
    match entity.Uuid with
    | none => .returned s
    | some playerRaw =>
      let playerUuid := playerRaw.shiftRight 16
      match entity.Attrs with
      | none => .returned s
      | some attrCollection =>
        match attrCollection.Attrs with
        | none => .returned s
        | some attrs => forEach (processAttr env playerUuid) attrs s

/-- Function `_processSyncNearEntities`. -/
def processSyncNearEntities (env : Env) (payloadBuffer : Option Buffer) (s : State) :
    Outcome State :=
  match env.decodeSyncNearEntities payloadBuffer with
  | none => .threw s
  | some syncNearEntities =>
    match syncNearEntities.Appear with
    | none => .returned s
    | some appear => forEach (processEntity env) appear s

/-- Function `_processNotifyMsg`. -/
def processNotifyMsg (env : Env) (reader : BinaryReader) (isZstdCompressed : Nat) (s : State) :
    Outcome State :=
  match reader.readUInt64 with
  | none => .threw s
  | some (serviceUuid, r1) =>
    match r1.readUInt32 with
    | none => .threw s
    | some (_stubId, r2) =>
      match r2.readUInt32 with
      | none => .threw s
      | some (methodId, r3) =>
        if serviceUuid ≠ 0x0000000063335342 then .returned s
        else
          let msgPayload := r3.readRemaining.1
          let decompressed : Option (Option Buffer) :=
            if isZstdCompressed ≠ 0 then decompressPayload env msgPayload
            else some (some msgPayload)
          match decompressed with
          | none => .threw s
          | some payload =>
            if methodId = NotifyMethod.SyncNearEntities then processSyncNearEntities env payload s
            else if methodId = NotifyMethod.SyncToMeDeltaInfo then
              processSyncToMeDeltaInfo env payload s
            else if methodId = NotifyMethod.SyncNearDeltaInfo then
              processSyncNearDeltaInfo env payload s
            else .returned s

/-- Function `_processReturnMsg`: it only logs. -/
def processReturnMsg (_reader : BinaryReader) (_isZstdCompressed : Nat) (s : State) : State := s

/-- The `switch (msgTypeId)` of `processPacket`.  `recurse` is the nested call
`this.processPacket(nestedPacket)`; it gives `none` when the nesting budget is used up. -/
def dispatch (env : Env) (recurse : Option Buffer → State → Option State)
    (_packetSize msgTypeId isZstdCompressed : Nat) (packetReader : BinaryReader) (s : State) :
    Option (Outcome State) :=
  if msgTypeId = MessageType.Notify then
    some (processNotifyMsg env packetReader isZstdCompressed s)
  else if msgTypeId = MessageType.Return then
    some (.returned (processReturnMsg packetReader isZstdCompressed s))
  else if msgTypeId = MessageType.FrameDown then
    match packetReader.readUInt32 with
    | none => some (.threw s)
    | some (_serverSequenceId, r) =>
      if r.remaining = 0 then some (.returned s)
      else
        let nestedPacket := r.readRemaining.1
        let decompressed : Option (Option Buffer) :=
          if isZstdCompressed ≠ 0 then decompressPayload env nestedPacket
          else some (some nestedPacket)
        match decompressed with
        | none => some (.threw s)
        | some nested =>
          match recurse nested s with
          | none => none
          | some s' => some (.returned s')
  else some (.returned s)

/-- The `do ... while (packetsReader.remaining() > 0)` loop of `processPacket`, entered with
the cursor of `packetsReader` at `offset`.  `body` is the `switch`, given the variables in
scope there (`packetSize` as read again from the frame, `msgTypeId`, `isZstdCompressed`,
`packetReader`); `fuel` bounds the number of turns (`none` when it is used up, or when
`body` gives `none`). -/
def frameLoop {σ : Type} (body : Nat → Nat → Nat → BinaryReader → σ → Option (Outcome σ)) :
    Nat → Buffer → Nat → σ → Option (Outcome σ)
  | 0, _, _, _ => none
  | fuel + 1, packets, offset, s =>
    let packetsReader : BinaryReader := { buffer := packets, offset := offset }
    match packetsReader.peekUInt32 with
    | none => some (.threw s)
    | some packetSize =>
      if packetSize < 6 then some (.returned s)
      else
        let (frame, packetsReader') := packetsReader.readBytes packetSize
        let packetReader : BinaryReader := { buffer := frame, offset := 0 }
        match packetReader.readUInt32 with
        | none => some (.threw s)
        | some (packetSize', packetReader1) =>
          match packetReader1.readUInt16 with
          | none => some (.threw s)
          | some (packetType, packetReader2) =>
            let isZstdCompressed := packetType &&& 0x8000
            let msgTypeId := packetType &&& 0x7fff
            match body packetSize' msgTypeId isZstdCompressed packetReader2 s with
            | none => none
            | some (.threw s') => some (.threw s')
            | some (.returned s') =>
              if packetsReader'.remaining > 0 then
                frameLoop body fuel packets packetsReader'.offset s'
              else some (.returned s')

/-- Function `processPacket(packets)`: the frame loop inside `try`/`catch`, so a raise ends
the call normally.  `depth` bounds the nesting of `processPacket` calls (`none` when it is used up);
the loop takes at most one turn per 6 bytes, so `packets.length + 1` turns are enough.
`packets` is `none` for `undefined`, on which the first read raises. -/
def processPacket (env : Env) : Nat → Option Buffer → State → Option State
  | 0, _, _ => none
  | depth + 1, packets, s =>
    match packets with
    | none => some s
    | some buf =>
      match frameLoop (dispatch env (processPacket env depth)) (buf.length + 1) buf 0 s with
      | none => none
      | some out => some out.state

/-! ## The specification's side: frames on the wire, the routing table, sample data -/

/-- The `width` big-endian bytes of `n` (taken modulo `256 ^ width`). -/
def beBytes : Nat → Nat → List Byte
  | 0, _ => []
  | width + 1, n => ⟨n / 256 ^ width % 256, Nat.mod_lt _ (by decide)⟩ :: beBytes width n

/-- A frame as the specification describes it: message kind, compression flag, body. -/
structure Frame where
  kind : Nat
  compressed : Bool
  body : Buffer
  deriving DecidableEq, Repr

/-- The 2-byte kind field of a frame: `(c ? 0x8000 : 0) | k`. -/
def Frame.kindField (f : Frame) : Nat :=
  (if f.compressed then 0x8000 else 0) ||| f.kind

/-- The compression flag as `processPacket` computes it (`packetType & 0x8000`). -/
def Frame.flagBits (f : Frame) : Nat :=
  if f.compressed then 0x8000 else 0

/-- Wire format of the specification:
`[4-byte length 6+|b|][2-byte (c ? 0x8000 : 0) | k][b]`, big-endian. -/
def encodeFrame (f : Frame) : Buffer :=
  beBytes 4 (6 + f.body.length) ++ beBytes 2 f.kindField ++ f.body

/-- The encodings of the frames, one after the other. -/
def encodeFrames (fs : List Frame) : Buffer :=
  (fs.map encodeFrame).flatten

/-- A frame is valid when kind and length fit their fields. -/
def Frame.Valid (f : Frame) : Prop :=
  f.kind < 2 ^ 15 ∧ 6 + f.body.length < 2 ^ 32

/-- What decoding a list of frames means: `body` is run on each frame in order, with the
length, kind and flag of the frame and a reader standing at byte 6 of its encoding, until a
run does not return. -/
def runFrames {σ : Type} (body : Nat → Nat → Nat → BinaryReader → σ → Option (Outcome σ)) :
    List Frame → σ → Option (Outcome σ)
  | [], s => some (.returned s)
  | f :: fs, s =>
    match body (6 + f.body.length) f.kind f.flagBits
        { buffer := encodeFrame f, offset := 6 } s with
    | none => none
    | some (.threw s') => some (.threw s')
    | some (.returned s') => runFrames body fs s'

/-- A loop body that only notes what the loop hands it: the length read from the frame, the
kind, whether the flag is set, and the bytes the frame reader has left. -/
def recordFrame (packetSize msgTypeId isZstdCompressed : Nat) (packetReader : BinaryReader)
    (seen : List (Nat × Nat × Bool × Buffer)) : Option (Outcome (List (Nat × Nat × Bool × Buffer))) :=
  some (.returned
    (seen ++ [(packetSize, msgTypeId, decide (isZstdCompressed ≠ 0), packetReader.readRemaining.1)]))

/-- The five branches of the routing table as the specification lists them. -/
inductive RouteBranch where
  | healing
  | takenDamage
  | nonPlayerHeal
  | damage
  | nonPlayerCombat
  deriving DecidableEq, Repr

/-- When a branch of the table applies (target is player, event is heal, actor is player). -/
def RouteBranch.applies : RouteBranch → Bool → Bool → Bool → Bool
  | .healing, isTargetPlayer, isHeal, isAttackerPlayer =>
    isTargetPlayer && isHeal && isAttackerPlayer
  | .takenDamage, isTargetPlayer, isHeal, _ => isTargetPlayer && !isHeal
  | .nonPlayerHeal, isTargetPlayer, isHeal, _ => !isTargetPlayer && isHeal
  | .damage, isTargetPlayer, isHeal, isAttackerPlayer =>
    !isTargetPlayer && !isHeal && isAttackerPlayer
  | .nonPlayerCombat, isTargetPlayer, isHeal, isAttackerPlayer =>
    !isTargetPlayer && !isHeal && !isAttackerPlayer

/-- The role update that goes with a recorded heal or hit. -/
def roleCalls (actorId skillId : Int) : List StoreCall :=
  match getRoleFromSkill skillId with
  | some roleName => [StoreCall.setProfession actorId roleName]
  | none => []

/-- What a branch of the table records, by the specification. -/
def RouteBranch.calls : RouteBranch → (targetId actorId skillId amount : Int) →
    (crit lucky : Bool) → (hpLessen : Int) → List StoreCall
  | .healing, _, actorId, skillId, amount, crit, lucky, _ =>
    StoreCall.addHealing actorId amount crit lucky :: roleCalls actorId skillId
  | .takenDamage, targetId, _, _, amount, _, _, _ => [StoreCall.addTakenDamage targetId amount]
  | .nonPlayerHeal, _, _, _, _, _, _, _ => []
  | .damage, _, actorId, skillId, amount, crit, lucky, hpLessen =>
    StoreCall.addDamage actorId skillId amount crit lucky hpLessen :: roleCalls actorId skillId
  | .nonPlayerCombat, _, _, _, _, _, _, _ => []

/-- Whether a store call is a record of a combat event. -/
def StoreCall.isRecord : StoreCall → Bool
  | .addDamage .. => true
  | .addHealing .. => true
  | .addTakenDamage .. => true
  | _ => false

/-- The entity id a store call carries. -/
def StoreCall.id : StoreCall → Int
  | .addDamage actorId .. => actorId
  | .addHealing actorId .. => actorId
  | .addTakenDamage targetId _ => targetId
  | .setProfession id _ => id
  | .setName id _ => id
  | .setFightPoint id _ => id
  | .getUser id => id

/-- A sample environment: no zstd routine, decoders that raise on every payload,
`Heal = 2`, `EntChar = 10`. -/
def sampleEnv : Env where
  zstdAvailable := false
  zstdDecompressSync := fun _ => none
  decodeSyncNearDeltaInfo := fun _ => none
  decodeSyncToMeDeltaInfo := fun _ => none
  decodeSyncNearEntities := fun _ => none
  readerString := fun _ => none
  readerInt32 := fun _ => none
  EDamageType_Heal := 2
  EEntityType_EntChar := 10

/-- A heal of 1000 by skill 1241 whose actor (raw identity `3 * 2^16 + 1`) is not a player. -/
def healByMonster : SyncDamageInfo :=
  { OwnerId := some 1241, AttackerUuid := some { bits := 196609 }, Value := some { bits := 1000 },
    Type_ := some 2 }

/-- A delta whose target (raw identity `7 * 2^16 + 640`) is a player, holding `healByMonster`. -/
def playerHealedByMonster : AoiSyncDelta :=
  { Uuid := some { bits := 459392 }, SkillEffects := some { Damages := some [healByMonster] } }

/-- A record whose primary value is present and zero, with a lucky value of 5. -/
def zeroValueHit : SyncDamageInfo :=
  { OwnerId := some 1241, AttackerUuid := some { bits := 196608 + 640 },
    Value := some { bits := 0 }, LuckyValue := some { bits := 5 } }

/-- A hit of 300 by skill 1241 from a player (raw identity `3 * 2^16 + 640`), with only the
lucky value set. -/
def luckyHit : SyncDamageInfo :=
  { OwnerId := some 1241, AttackerUuid := some { bits := 196608 + 640 },
    LuckyValue := some { bits := 300 } }

/-- A hit of 1000 by skill 7 from a non-player (raw identity `3 * 2^16 + 1`). -/
def monsterHit : SyncDamageInfo :=
  { OwnerId := some 7, AttackerUuid := some { bits := 196609 }, Value := some { bits := 1000 } }

/-- A delta whose target is a player with bit 63 of the raw identity set
(`2^63 + 640`), hit by `monsterHit`; `unsigned` is the signedness of the decoded field. -/
def highBitPlayerHit (unsigned : Bool) : AoiSyncDelta :=
  { Uuid := some { bits := 2 ^ 63 + 640, unsigned := unsigned },
    SkillEffects := some { Damages := some [monsterHit] } }

/-- A character entity (type 10) with raw identity `2^63 + 640` and a fight-point
attribute whose raw data is the varint 5. -/
def highBitEntity (unsigned : Bool) : Entity :=
  { EntType := some 10, Uuid := some { bits := 2 ^ 63 + 640, unsigned := unsigned },
    Attrs := some { Attrs := some [{ Id := some 0x272e, RawData := some [5] }] } }

/-- The sample environment with a protobuf reader for one-byte varints: bytes that start
with a byte below 128 read as that byte's value; on empty bytes the reader raises, as
`pbjs.Reader.create(raw).int32()` does.  Longer varints are outside this sample (it
raises on them as well). -/
def readerEnv : Env :=
  { sampleEnv with
    readerInt32 := fun raw =>
      match raw with
      | [] => none
      | b :: _ => if b.val < 128 then some (b.val : Int) else none }

/-- What decoding a frame should give back: length, kind, compression flag, body. -/
def Frame.decoded (f : Frame) : Nat × Nat × Bool × Buffer :=
  (6 + f.body.length, f.kind, f.compressed, f.body)

/-- Two sample frames: a compressed Notify frame with a 2-byte body and an empty
FrameDown frame. -/
def sampleFrames : List Frame :=
  [{ kind := 2, compressed := true, body := [1, 2] }, { kind := 6, compressed := false, body := [] }]

/-- A buffer of 8 bytes whose only frame declares a length of 100. -/
def truncatedFrame : Buffer := [0, 0, 0, 100, 0, 2, 1, 2]

/-- A delta whose target is a player (raw identity `7 * 2^16 + 640`), healed by 1000 by a
player (raw identity `3 * 2^16 + 640`) with skill 7. -/
def healByPlayer : SyncDamageInfo :=
  { OwnerId := some 7, AttackerUuid := some { bits := 196608 + 640 },
    Value := some { bits := 1000 }, Type_ := some 2 }

/-- The delta that holds `healByPlayer`. -/
def playerHeal : AoiSyncDelta :=
  { Uuid := some { bits := 459392 }, SkillEffects := some { Damages := some [healByPlayer] } }

/-- The sample environment with a sync-near decoder that reads `playerHeal` from any
payload. -/
def decodingEnv : Env :=
  { sampleEnv with decodeSyncNearDeltaInfo := fun _ => some { DeltaInfos := some [playerHeal] } }

/-- A Notify body: service id `0x0000000063335342`, stub id 0, method id `0x2d` (sync near),
empty payload. -/
def syncNearBody : Buffer :=
  [0, 0, 0, 0, 0x63, 0x33, 0x53, 0x42, 0, 0, 0, 0, 0, 0, 0, 0x2d]

/-- A critical hit of 500 (HP reduction 450) by skill 1241 from a player (raw identity
`3 * 2^16 + 640`); its `IsCrit` field says `false`. -/
def critHit : SyncDamageInfo :=
  { OwnerId := some 1241, AttackerUuid := some { bits := 196608 + 640 },
    Value := some { bits := 500 }, TypeFlag := some 1, IsCrit := some false,
    HpLessenValue := some { bits := 450 } }

/-- A delta whose target (raw identity `9 * 2^16 + 1`) is not a player, holding `critHit`. -/
def monsterHitByPlayer : AoiSyncDelta :=
  { Uuid := some { bits := 589825 }, SkillEffects := some { Damages := some [critHit] } }

/-- The sample environment with a sync-near decoder that reads `monsterHitByPlayer` from any
payload. -/
def damageEnv : Env :=
  { sampleEnv with
    decodeSyncNearDeltaInfo := fun _ => some { DeltaInfos := some [monsterHitByPlayer] } }

/-- A delta record with target `targetRaw` and the one damage sub-record `d`. -/
def singleDelta (targetRaw : Long) (d : SyncDamageInfo) : AoiSyncDelta :=
  { Uuid := some targetRaw, SkillEffects := some { Damages := some [d] } }

/-- A sync-near message with the one delta record `singleDelta targetRaw d`. -/
def singleRecord (targetRaw : Long) (d : SyncDamageInfo) : SyncNearDeltaInfo :=
  { DeltaInfos := some [singleDelta targetRaw d] }

/-- The sample environment with a sync-to-me decoder that reads, from any payload, a wrapper
with the identity `7 * 2^16 + 640` and no base delta. -/
def syncToMeEnv : Env :=
  { sampleEnv with
    decodeSyncToMeDeltaInfo := fun _ =>
      some { DeltaInfo := some { Uuid := some { bits := 459392 } } } }

/-- An uncompressed FrameDown frame: the sequence number `seq` (4 bytes), then `nested`. -/
def frameDown (seq nested : Buffer) : Frame :=
  { kind := 6, compressed := false, body := seq ++ nested }

/-- A Notify body: 8-byte service id, 4-byte stub id, 4-byte method id, payload. -/
def notifyBody (serviceId stubId methodId : Nat) (payload : Buffer) : Buffer :=
  beBytes 8 serviceId ++ (beBytes 4 stubId ++ (beBytes 4 methodId ++ payload))

/-- The sync-near Notify frame with the body `syncNearBody`. -/
def syncNearFrame : Frame :=
  { kind := 2, compressed := false, body := syncNearBody }

/-- A Notify frame whose body is too short for the service id. -/
def shortNotifyFrame : Frame :=
  { kind := 2, compressed := false, body := [1, 2, 3] }

/-- The decoding environment with a zstd routine that is there and raises on every input
(as the real one does on bytes that are no zstd stream). -/
def zstdFailingEnv : Env :=
  { decodingEnv with zstdAvailable := true }

/-- A compressed Notify frame for the fixed service with the unknown method id `0x99` and a
payload that is no zstd stream. -/
def unknownMethodFrame : Frame :=
  { kind := 2, compressed := true, body := notifyBody 0x0000000063335342 0 0x99 [1, 2, 3] }

/-- Some FrameDown frame of the buffer, from byte `offset` on, has its compression flag
set.  The frames of a buffer are told by their declared lengths: the frame at `offset` is
the `L` bytes from there, with `L` the 4-byte number at `offset` (`6 ≤ L`), and the next
frame starts at `offset + L` if that is inside the buffer.  The frame is a FrameDown frame
when bits 0-14 of its kind field are 6, and its flag is bit 15 of that field; the frames
nested in a FrameDown frame are the frames of its bytes from byte 10 on. -/
inductive HasCompressedFrameDown : Buffer → Nat → Prop
  | here (packets : Buffer) (offset L packetType : Nat)
      (hL : Buffer.readUInt32BE packets offset = some L) (h6 : 6 ≤ L)
      (h16 : Buffer.readUInt16BE (packets.subarray offset (offset + L)) 4 = some packetType)
      (hkind : packetType &&& 0x7fff = MessageType.FrameDown)
      (hflag : packetType &&& 0x8000 ≠ 0) :
      HasCompressedFrameDown packets offset
  | nested (packets : Buffer) (offset L packetType : Nat)
      (hL : Buffer.readUInt32BE packets offset = some L) (h6 : 6 ≤ L)
      (h16 : Buffer.readUInt16BE (packets.subarray offset (offset + L)) 4 = some packetType)
      (hkind : packetType &&& 0x7fff = MessageType.FrameDown)
      (hlen : 10 < (packets.subarray offset (offset + L)).length)
      (h : HasCompressedFrameDown ((packets.subarray offset (offset + L)).drop 10) 0) :
      HasCompressedFrameDown packets offset
  | later (packets : Buffer) (offset L : Nat)
      (hL : Buffer.readUInt32BE packets offset = some L) (h6 : 6 ≤ L)
      (hlt : offset + L < packets.length)
      (h : HasCompressedFrameDown packets (offset + L)) :
      HasCompressedFrameDown packets offset

/-- A compressed FrameDown frame with a sequence number and 3 nested bytes. -/
def compressedFrameDown : Frame :=
  { kind := 6, compressed := true, body := [0, 0, 0, 7, 1, 2, 3] }

/-- The heal `healByPlayer` with the skill id 0: the field is there, its value is zero. -/
def zeroSkillHeal : SyncDamageInfo :=
  { healByPlayer with OwnerId := some 0 }

/-- The sample environment with a sync-near decoder that reads, from any payload, the one
delta record with a player target (raw identity `7 * 2^16 + 640`) and `zeroSkillHeal`. -/
def zeroSkillHealEnv : Env :=
  { sampleEnv with
    decodeSyncNearDeltaInfo := fun _ => some (singleRecord { bits := 459392 } zeroSkillHeal) }

/-- The hit `critHit` with the skill id 0: the field is there, its value is zero. -/
def zeroSkillHit : SyncDamageInfo :=
  { critHit with OwnerId := some 0 }

/-- The sample environment with a sync-near decoder that reads, from any payload, the one
delta record with a non-player target (raw identity `9 * 2^16 + 1`) and `zeroSkillHit`. -/
def zeroSkillHitEnv : Env :=
  { sampleEnv with
    decodeSyncNearDeltaInfo := fun _ => some (singleRecord { bits := 589825 } zeroSkillHit) }

/-- The switch of `processPacket` with a note of every frame it is handed: the length read
from the frame, the kind, whether the flag is set, and the bytes the frame reader has
left.  The note is made whether the switch returns or raises. -/
def tracedDispatch (env : Env) (recurse : Option Buffer → State → Option State)
    (packetSize msgTypeId isZstdCompressed : Nat) (packetReader : BinaryReader)
    (st : List (Nat × Nat × Bool × Buffer) × State) :
    Option (Outcome (List (Nat × Nat × Bool × Buffer) × State)) :=
  match dispatch env recurse packetSize msgTypeId isZstdCompressed packetReader st.2 with
  | none => none
  | some (.threw s') =>
    some (.threw (st.1 ++ [(packetSize, msgTypeId, decide (isZstdCompressed ≠ 0),
      packetReader.readRemaining.1)], s'))
  | some (.returned s') =>
    some (.returned (st.1 ++ [(packetSize, msgTypeId, decide (isZstdCompressed ≠ 0),
      packetReader.readRemaining.1)], s'))

/-- The nesting of FrameDown frames in the buffer, from byte `offset` on, is finite: every
frame (told by its declared length, as for `HasCompressedFrameDown`) that is a FrameDown
frame of more than 10 bytes holds, from byte 10 on, bytes that are again finitely nested,
after decompression when the flag of the frame is set and the zstd routine returns bytes.
Nothing is asked of frames whose nested bytes are not handed on (the routine is missing or
raises). -/
inductive FiniteNesting (env : Env) : Buffer → Nat → Prop
  | stop (packets : Buffer) (offset : Nat)
      (h : ∀ L, Buffer.readUInt32BE packets offset = some L → L < 6) :
      FiniteNesting env packets offset
  | frame (packets : Buffer) (offset L : Nat)
      (hL : Buffer.readUInt32BE packets offset = some L) (h6 : 6 ≤ L)
      (hnested : ∀ packetType nested,
        Buffer.readUInt16BE (packets.subarray offset (offset + L)) 4 = some packetType →
        packetType &&& 0x7fff = MessageType.FrameDown →
        10 < (packets.subarray offset (offset + L)).length →
        (if packetType &&& 0x8000 ≠ 0 then
            decompressPayload env ((packets.subarray offset (offset + L)).drop 10)
          else some (some ((packets.subarray offset (offset + L)).drop 10))) =
          some (some nested) →
        FiniteNesting env nested 0)
      (hrest : offset + L < packets.length → FiniteNesting env packets (offset + L)) :
      FiniteNesting env packets offset

/-- A zstd stream of 10 bytes: a single-segment frame of content size 20 with one RLE block,
the byte 0 repeated 20 times. -/
def rleStream : Buffer := [0x28, 0xB5, 0x2F, 0xFD, 0x20, 0x14, 0xA3, 0x00, 0x00, 0x00]

/-- A zstd stream of 31 bytes: a single-segment frame of content size 22 with one raw block,
the encoding of `syncNearFrame`. -/
def rawStream : Buffer :=
  [0x28, 0xB5, 0x2F, 0xFD, 0x20, 0x16, 0xB1, 0x00, 0x00] ++ encodeFrame syncNearFrame

/-- The decoding environment with a zstd routine that decompresses the two sample streams
and raises on all other bytes. -/
def zstdSampleEnv : Env :=
  { decodingEnv with
    zstdAvailable := true
    zstdDecompressSync := fun b =>
      if b = rleStream then some (List.replicate 20 0)
      else if b = rawStream then some (encodeFrame syncNearFrame)
      else none }

/-- A compressed FrameDown frame with the sequence number 7 and the bytes `stream`. -/
def compressedFrameDownOf (stream : Buffer) : Frame :=
  { kind := 6, compressed := true, body := [0, 0, 0, 7] ++ stream }

/-! ## Routing of combat events -/

theorem RouteBranch.applies_unique (t h a : Bool) (br br' : RouteBranch)
    (h1 : br.applies t h a = true) (h2 : br'.applies t h a = true) : br = br' := by
  cases br <;> cases br' <;> cases t <;> cases h <;> cases a <;> simp_all [RouteBranch.applies]

theorem RouteBranch.applies_exists (t h a : Bool) :
    (∃ br : RouteBranch, br.applies t h a = true) ↔ ¬ (t = true ∧ h = true ∧ a = false) := by
  constructor
  · rintro ⟨br, hbr⟩
    cases br <;> cases t <;> cases h <;> cases a <;> simp_all [RouteBranch.applies]
  · intro hn
    cases t <;> cases h <;> cases a
    · exact ⟨.nonPlayerCombat, rfl⟩
    · exact ⟨.damage, rfl⟩
    · exact ⟨.nonPlayerHeal, rfl⟩
    · exact ⟨.nonPlayerHeal, rfl⟩
    · exact ⟨.takenDamage, rfl⟩
    · exact ⟨.takenDamage, rfl⟩
    · exact absurd ⟨rfl, rfl, rfl⟩ hn
    · exact ⟨.healing, rfl⟩

theorem routeEvent_of_applies (br : RouteBranch) (t h a : Bool) (targetUuid attackerUuid : Long)
    (skillId : Int) (damage : Long) (isCrit isLucky : Bool) (hp : Long)
    (hbr : br.applies t h a = true) :
    routeEvent t h a targetUuid attackerUuid skillId damage isCrit isLucky hp =
      br.calls targetUuid.toNumber attackerUuid.toNumber skillId damage.toNumber isCrit isLucky
        hp.toNumber := by
  cases br <;> cases t <;> cases h <;> cases a <;>
    simp_all [RouteBranch.applies, routeEvent, RouteBranch.calls, roleCalls]

theorem damageCalls_of_classified (env : Env) (t : Bool) (targetUuid : Long) (d : SyncDamageInfo)
    (skillId : Int) (attackerRaw : Long) (hskill : d.OwnerId = some skillId) (hne : skillId ≠ 0)
    (hatt : attackerOf d = some attackerRaw) (hdmg : (damageOf d).isZero = false) :
    damageCalls env t targetUuid d =
      routeEvent t (isHealOf env d) (isUuidPlayer attackerRaw) targetUuid
          (attackerRaw.shiftRight 16) skillId (damageOf d) (isCritOf d) d.LuckyValue.isSome
          (hpLessenOf d) ++
        logLookups t (isUuidPlayer attackerRaw) targetUuid (attackerRaw.shiftRight 16) := by
  simp [damageCalls, hskill, hne, hatt, hdmg]

/-- C1 (as amended): for an event that reaches classification, the five branches of the
routing table exclude one another and each, where it applies, makes the calls the table
names; one applies for every combination except (player target, heal, non-player actor),
for which none applies and nothing is recorded. -/
theorem routing_table (env : Env) (t : Bool) (targetUuid : Long) (d : SyncDamageInfo)
    (skillId : Int) (attackerRaw : Long) (hskill : d.OwnerId = some skillId) (hne : skillId ≠ 0)
    (hatt : attackerOf d = some attackerRaw) (hdmg : (damageOf d).isZero = false) :
    (∀ br br' : RouteBranch,
      br.applies t (isHealOf env d) (isUuidPlayer attackerRaw) = true →
      br'.applies t (isHealOf env d) (isUuidPlayer attackerRaw) = true → br = br') ∧
    (∀ br : RouteBranch, br.applies t (isHealOf env d) (isUuidPlayer attackerRaw) = true →
      damageCalls env t targetUuid d =
        br.calls targetUuid.toNumber (attackerRaw.shiftRight 16).toNumber skillId
            (damageOf d).toNumber (isCritOf d) d.LuckyValue.isSome (hpLessenOf d).toNumber ++
          logLookups t (isUuidPlayer attackerRaw) targetUuid (attackerRaw.shiftRight 16)) ∧
    ((∃ br : RouteBranch, br.applies t (isHealOf env d) (isUuidPlayer attackerRaw) = true) ↔
      ¬ (t = true ∧ isHealOf env d = true ∧ isUuidPlayer attackerRaw = false)) ∧
    (t = true ∧ isHealOf env d = true ∧ isUuidPlayer attackerRaw = false →
      damageCalls env t targetUuid d =
        logLookups t (isUuidPlayer attackerRaw) targetUuid (attackerRaw.shiftRight 16)) := by
  refine ⟨fun br br' => RouteBranch.applies_unique _ _ _ br br', ?_,
    RouteBranch.applies_exists _ _ _, ?_⟩
  · intro br hbr
    rw [damageCalls_of_classified env t targetUuid d skillId attackerRaw hskill hne hatt hdmg,
      routeEvent_of_applies br _ _ _ _ _ _ _ _ _ _ hbr]
  · rintro ⟨ht, hh, ha⟩
    rw [damageCalls_of_classified env t targetUuid d skillId attackerRaw hskill hne hatt hdmg,
      ht, hh, ha]
    simp [routeEvent]

theorem routing_table_witness :
    damageCalls sampleEnv true { bits := 7 } healByMonster =
      logLookups true (isUuidPlayer { bits := 196609 }) { bits := 7 }
        (Long.shiftRight { bits := 196609 } 16) :=
  (routing_table sampleEnv true { bits := 7 } healByMonster 1241 { bits := 196609 } rfl
    (by decide) rfl (by decide)).2.2.2 ⟨rfl, by decide, by decide⟩

/-- C1 (as stated, refuted): a heal of a player by a non-player reaches classification, yet
none of the five branches applies to it; the code records nothing and only looks the
target up for the log line. -/
theorem routing_not_exhaustive :
    (¬ ∃ br : RouteBranch,
        br.applies (isUuidPlayer { bits := 459392 }) (isHealOf sampleEnv healByMonster)
          (isUuidPlayer { bits := 196609 }) = true) ∧
    healByMonster.OwnerId = some 1241 ∧
    attackerOf healByMonster = some { bits := 196609 } ∧
    (damageOf healByMonster).isZero = false ∧
    aoiSyncDeltaCalls sampleEnv (some playerHealedByMonster) = [StoreCall.getUser 7] := by
  refine ⟨?_, rfl, rfl, by decide, by decide⟩
  rw [RouteBranch.applies_exists]
  decide

/-! ## Magnitude, amount and the lucky flag -/

theorem mem_routeEvent {c : StoreCall} {t h a : Bool} {targetUuid attackerUuid : Long}
    {skillId : Int} {damage : Long} {isCrit isLucky : Bool} {hp : Long}
    (hc : c ∈ routeEvent t h a targetUuid attackerUuid skillId damage isCrit isLucky hp) :
    (c = .addHealing attackerUuid.toNumber damage.toNumber isCrit isLucky ∧
        t = true ∧ h = true ∧ a = true) ∨
    (c = .addTakenDamage targetUuid.toNumber damage.toNumber ∧ t = true ∧ h = false) ∨
    (c = .addDamage attackerUuid.toNumber skillId damage.toNumber isCrit isLucky hp.toNumber ∧
        t = false ∧ h = false ∧ a = true) ∨
    (∃ roleName, getRoleFromSkill skillId = some roleName ∧
        c = .setProfession attackerUuid.toNumber roleName ∧ a = true ∧ t = h) := by
  cases t <;> cases h <;> cases a <;> simp [routeEvent] at hc
  · rcases hc with hc | hc
    · exact Or.inr (Or.inr (Or.inl ⟨hc, rfl, rfl, rfl⟩))
    · cases hr : getRoleFromSkill skillId with
      | none => simp [hr] at hc
      | some roleName =>
        simp [hr] at hc
        exact Or.inr (Or.inr (Or.inr ⟨roleName, rfl, hc, rfl, rfl⟩))
  · exact Or.inr (Or.inl ⟨hc, rfl, rfl⟩)
  · exact Or.inr (Or.inl ⟨hc, rfl, rfl⟩)
  · rcases hc with hc | hc
    · exact Or.inl ⟨hc, rfl, rfl, rfl⟩
    · cases hr : getRoleFromSkill skillId with
      | none => simp [hr] at hc
      | some roleName =>
        simp [hr] at hc
        exact Or.inr (Or.inr (Or.inr ⟨roleName, rfl, hc, rfl, rfl⟩))

theorem mem_logLookups {c : StoreCall} {t a : Bool} {targetUuid attackerUuid : Long}
    (hc : c ∈ logLookups t a targetUuid attackerUuid) :
    (c = .getUser attackerUuid.toNumber ∧ a = true) ∨
    (c = .getUser targetUuid.toNumber ∧ t = true) := by
  cases t <;> cases a <;> simp [logLookups] at hc
  · exact Or.inl ⟨hc, rfl⟩
  · exact Or.inr ⟨hc, rfl⟩
  · rcases hc with hc | hc
    · exact Or.inl ⟨hc, rfl⟩
    · exact Or.inr ⟨hc, rfl⟩

/-- A sub-record that makes a store call reached classification. -/
theorem damageCalls_ne_nil {env : Env} {t : Bool} {targetUuid : Long} {d : SyncDamageInfo}
    (h : damageCalls env t targetUuid d ≠ []) :
    ∃ skillId attackerRaw, d.OwnerId = some skillId ∧ skillId ≠ 0 ∧
      attackerOf d = some attackerRaw ∧ (damageOf d).isZero = false := by
  unfold damageCalls at h
  cases hs : d.OwnerId with
  | none => simp [hs] at h
  | some skillId =>
    by_cases hz : skillId = 0
    · simp [hs, hz] at h
    · cases ha : attackerOf d with
      | none => simp [hs, hz, ha] at h
      | some attackerRaw =>
        cases hd : (damageOf d).isZero with
        | true => simp [hs, hz, ha, hd] at h
        | false => exact ⟨skillId, attackerRaw, rfl, hz, rfl, rfl⟩

theorem damageOf_value {d : SyncDamageInfo} {v : Long} (h : d.Value = some v) :
    damageOf d = v := by
  simp [damageOf, h]

theorem damageOf_lucky {d : SyncDamageInfo} (h : d.Value = none) (hz : (damageOf d).isZero = false) :
    ∃ l, d.LuckyValue = some l ∧ damageOf d = l := by
  cases hl : d.LuckyValue with
  | none => simp [damageOf, h, hl, Long.isZero, Long.ZERO] at hz
  | some l => exact ⟨l, rfl, by simp [damageOf, h, hl]⟩

/-- C9: a damage sub-record whose magnitude (`Value`, else `LuckyValue`, else zero) is zero
makes `_processAoiSyncDelta` call the store not at all: the record contributes no call, and
the delta makes the very calls it makes without that record. -/
theorem zero_magnitude_no_store_call (env : Env) (t : Bool) (targetUuid : Long)
    (d : SyncDamageInfo) (uuid : Option Long) (before after : List SyncDamageInfo) (s : State)
    (hz : (damageOf d).isZero = true) :
    damageCalls env t targetUuid d = [] ∧
    aoiSyncDeltaCalls env
        (some { Uuid := uuid, SkillEffects := some { Damages := some (before ++ d :: after) } }) =
      aoiSyncDeltaCalls env
        (some { Uuid := uuid, SkillEffects := some { Damages := some (before ++ after) } }) ∧
    processAoiSyncDelta env
        (some { Uuid := uuid, SkillEffects := some { Damages := some (before ++ d :: after) } }) s =
      processAoiSyncDelta env
        (some { Uuid := uuid, SkillEffects := some { Damages := some (before ++ after) } }) s := by
  have h1 : ∀ t' T', damageCalls env t' T' d = [] := by
    intro t' T'
    unfold damageCalls
    cases d.OwnerId with
    | none => rfl
    | some skillId =>
      by_cases hs : skillId = 0
      · simp [hs]
      · cases attackerOf d with
        | none => simp [hs]
        | some a => simp [hs, hz]
  have h2 : aoiSyncDeltaCalls env
        (some { Uuid := uuid, SkillEffects := some { Damages := some (before ++ d :: after) } }) =
      aoiSyncDeltaCalls env
        (some { Uuid := uuid, SkillEffects := some { Damages := some (before ++ after) } }) := by
    cases uuid with
    | none => rfl
    | some T => simp [aoiSyncDeltaCalls, h1]
  exact ⟨h1 t targetUuid, h2, by simp [processAoiSyncDelta, h2]⟩

theorem zero_magnitude_no_store_call_witness :
    damageCalls sampleEnv false { bits := 7 } zeroValueHit = [] :=
  (zero_magnitude_no_store_call sampleEnv false { bits := 7 } zeroValueHit none [] []
    {} (by decide)).1

/-- C10: in a call of `addHealing` or `addDamage` the amount is the primary `Value` when it
is present, else `LuckyValue` (which is then present), both as JavaScript numbers, and the
lucky argument tells whether `LuckyValue` is present, whichever field gave the amount. -/
theorem amount_and_lucky (env : Env) (t : Bool) (targetUuid : Long) (d : SyncDamageInfo)
    (c : StoreCall) (actorId skillId amount hpLessen : Int) (crit lucky : Bool)
    (hc : c ∈ damageCalls env t targetUuid d)
    (hrec : c = .addHealing actorId amount crit lucky ∨
      c = .addDamage actorId skillId amount crit lucky hpLessen) :
    (∀ v, d.Value = some v → amount = v.toNumber) ∧
    (d.Value = none → ∃ l, d.LuckyValue = some l ∧ amount = l.toNumber) ∧
    lucky = d.LuckyValue.isSome := by
  obtain ⟨sk, aRaw, hs, hne, ha, hz⟩ := damageCalls_ne_nil (List.ne_nil_of_mem hc)
  rw [damageCalls_of_classified env t targetUuid d sk aRaw hs hne ha hz, List.mem_append] at hc
  have key : amount = (damageOf d).toNumber ∧ lucky = d.LuckyValue.isSome := by
    rcases hc with hc | hc
    · rcases mem_routeEvent hc with ⟨h1, -⟩ | ⟨h1, -⟩ | ⟨h1, -⟩ | ⟨r, -, h1, -⟩ <;>
        rcases hrec with h2 | h2 <;> rw [h2] at h1 <;> simp at h1
      · exact ⟨h1.2.1, h1.2.2.2⟩
      · exact ⟨h1.2.2.1, h1.2.2.2.2.1⟩
    · rcases mem_logLookups hc with ⟨h1, -⟩ | ⟨h1, -⟩ <;>
        rcases hrec with h2 | h2 <;> rw [h2] at h1 <;> simp at h1
  refine ⟨fun v hv => ?_, fun hnone => ?_, key.2⟩
  · rw [key.1, damageOf_value hv]
  · obtain ⟨l, hl, hd⟩ := damageOf_lucky hnone hz
    exact ⟨l, hl, by rw [key.1, hd]⟩

theorem amount_and_lucky_witness :
    (∃ l, luckyHit.LuckyValue = some l ∧ (300 : Int) = l.toNumber) ∧
    true = luckyHit.LuckyValue.isSome :=
  have h := amount_and_lucky sampleEnv false { bits := 7 } luckyHit
    (.addDamage 3 1241 300 false true 0) 3 1241 300 0 false true (by decide) (Or.inr rfl)
  ⟨h.2.1 rfl, h.2.2⟩

/-! ## Identities: classification and the durable id -/

theorem isUuidPlayer_eq (u : Long) : isUuidPlayer u = decide (u.bits % 2 ^ 16 = 640) := by
  unfold isUuidPlayer Long.toBigInt
  by_cases h : u.bits % 2 ^ 16 = 640
  · simp only [h, decide_True, beq_iff_eq]
    split_ifs <;> omega
  · simp only [h, decide_False, beq_eq_false_iff_ne, ne_eq]
    split_ifs <;> omega

theorem Long.roundToDouble_small {n : Nat} (h : n < 2 ^ 53) : Long.roundToDouble n = n := by
  unfold Long.roundToDouble
  rw [if_pos h]

theorem Long.shiftRight_toNumber {u : Long} (h : u.bits < 2 ^ 63) :
    (u.shiftRight 16).toNumber = ((u.bits / 2 ^ 16 : Nat) : Int) := by
  have hb : u.bits / 2 ^ 16 < 2 ^ 47 := by omega
  have hv : (u.shiftRight 16).toBigInt = ((u.bits / 2 ^ 16 : Nat) : Int) := by
    simp only [Long.shiftRight, Long.toBigInt, h, if_true]
    norm_num
    intro _
    omega
  unfold Long.toNumber
  simp only [hv]
  rw [if_pos (Int.natCast_nonneg _), Int.toNat_natCast,
    Long.roundToDouble_small (by omega)]

theorem aoiSyncDeltaCalls_eq (env : Env) (u : Long) (ds : List SyncDamageInfo) :
    aoiSyncDeltaCalls env
        (some { Uuid := some u, SkillEffects := some { Damages := some ds } }) =
      (ds.map (damageCalls env (decide (u.bits % 2 ^ 16 = 640)) (u.shiftRight 16))).flatten := by
  simp [aoiSyncDeltaCalls, isUuidPlayer_eq]

/-- C8: `isUuidPlayer` depends on the low 16 bits of the raw identity only (player iff they
are 640), and `_processAoiSyncDelta` classifies target and actor by the low 16 bits of the
raw values, the shifted values serving as ids only. -/
theorem classification_by_low_bits (u v : Long) (env : Env) (ds : List SyncDamageInfo)
    (t : Bool) (targetUuid : Long) (d : SyncDamageInfo) (skillId : Int) (attackerRaw : Long)
    (hlow : u.bits % 2 ^ 16 = v.bits % 2 ^ 16)
    (hskill : d.OwnerId = some skillId) (hne : skillId ≠ 0)
    (hatt : attackerOf d = some attackerRaw) (hdmg : (damageOf d).isZero = false) :
    isUuidPlayer u = isUuidPlayer v ∧
    (isUuidPlayer u = true ↔ u.bits % 2 ^ 16 = 640) ∧
    aoiSyncDeltaCalls env
        (some { Uuid := some u, SkillEffects := some { Damages := some ds } }) =
      (ds.map (damageCalls env (decide (u.bits % 2 ^ 16 = 640)) (u.shiftRight 16))).flatten ∧
    damageCalls env t targetUuid d =
      routeEvent t (isHealOf env d) (decide (attackerRaw.bits % 2 ^ 16 = 640)) targetUuid
          (attackerRaw.shiftRight 16) skillId (damageOf d) (isCritOf d) d.LuckyValue.isSome
          (hpLessenOf d) ++
        logLookups t (decide (attackerRaw.bits % 2 ^ 16 = 640)) targetUuid
          (attackerRaw.shiftRight 16) := by
  refine ⟨?_, ?_, aoiSyncDeltaCalls_eq env u ds, ?_⟩
  · rw [isUuidPlayer_eq, isUuidPlayer_eq, hlow]
  · rw [isUuidPlayer_eq, decide_eq_true_iff]
  · rw [damageCalls_of_classified env t targetUuid d skillId attackerRaw hskill hne hatt hdmg,
      isUuidPlayer_eq]

theorem classification_by_low_bits_witness :
    isUuidPlayer { bits := 640 } = isUuidPlayer { bits := 2 ^ 63 + 640, unsigned := true } ∧
    (isUuidPlayer { bits := 640 } = true ↔ 640 % 2 ^ 16 = 640) :=
  have h := classification_by_low_bits { bits := 640 } { bits := 2 ^ 63 + 640, unsigned := true }
    sampleEnv [] false { bits := 7 } luckyHit 1241 { bits := 196608 + 640 } (by decide) rfl
    (by decide) rfl (by decide)
  ⟨h.1, h.2.1⟩

theorem forEach_processAttr_calls (env : Env) (playerUuid : Long) (attrs : List Attr) (s : State)
    (c : StoreCall) (hc : c ∈ (forEach (processAttr env playerUuid) attrs s).state.calls) :
    c ∈ s.calls ∨ c.id = playerUuid.toNumber := by
  induction attrs generalizing s with
  | nil => exact Or.inl hc
  | cons attr rest ih =>
    have hcall : ∀ calls, attrCall env playerUuid attr = some calls →
        ∀ x ∈ calls, x.id = playerUuid.toNumber := by
      intro calls hcalls x hx
      unfold attrCall at hcalls
      split at hcalls
      · split_ifs at hcalls
        · simp at hcalls; subst hcalls; simp at hx
        · split at hcalls
          · simp at hcalls
          · simp at hcalls; subst hcalls; simp at hx; subst hx; rfl
        · split at hcalls
          · simp at hcalls
          · simp at hcalls; subst hcalls; simp at hx; subst hx; rfl
        · split at hcalls
          · simp at hcalls
          · simp at hcalls; subst hcalls; simp at hx; subst hx; rfl
        · simp at hcalls; subst hcalls; simp at hx
      · simp at hcalls; subst hcalls; simp at hx
    unfold forEach at hc
    cases hturn : attrCall env playerUuid attr with
    | none =>
      simp [processAttr, hturn, Outcome.state] at hc
      exact Or.inl hc
    | some calls =>
      simp only [processAttr, hturn] at hc
      rcases ih _ hc with h | h
      · simp at h
        rcases h with h | h
        · exact Or.inl h
        · exact Or.inr (hcall calls hturn c h)
      · exact Or.inr h

theorem processEntity_calls (env : Env) (entity : Entity) (playerRaw : Long) (s : State)
    (hu : entity.Uuid = some playerRaw) (c : StoreCall)
    (hc : c ∈ (processEntity env entity s).state.calls) :
    c ∈ s.calls ∨ c.id = (playerRaw.shiftRight 16).toNumber := by
  unfold processEntity at hc
  split_ifs at hc
  · exact Or.inl hc
  · rw [hu] at hc
    simp only at hc
    split at hc
    · exact Or.inl hc
    · split at hc
      · exact Or.inl hc
      · exact forEach_processAttr_calls env _ _ s c hc

theorem damageCalls_id (env : Env) (t : Bool) (targetUuid : Long) (d : SyncDamageInfo)
    (c : StoreCall) (hc : c ∈ damageCalls env t targetUuid d) :
    c.id = targetUuid.toNumber ∨
      ∃ a, attackerOf d = some a ∧ c.id = (a.shiftRight 16).toNumber := by
  obtain ⟨sk, aRaw, hs, hne, ha, hz⟩ := damageCalls_ne_nil (List.ne_nil_of_mem hc)
  rw [damageCalls_of_classified env t targetUuid d sk aRaw hs hne ha hz, List.mem_append] at hc
  rcases hc with hc | hc
  · rcases mem_routeEvent hc with ⟨h1, -⟩ | ⟨h1, -⟩ | ⟨h1, -⟩ | ⟨r, -, h1, -⟩
    · exact Or.inr ⟨aRaw, ha, by rw [h1]; rfl⟩
    · exact Or.inl (by rw [h1]; rfl)
    · exact Or.inr ⟨aRaw, ha, by rw [h1]; rfl⟩
    · exact Or.inr ⟨aRaw, ha, by rw [h1]; rfl⟩
  · rcases mem_logLookups hc with ⟨h1, -⟩ | ⟨h1, -⟩
    · exact Or.inr ⟨aRaw, ha, by rw [h1]; rfl⟩
    · exact Or.inl (by rw [h1]; rfl)

/-- C7 (as amended): for a raw identity whose bit 63 is clear, every id that
`_processAoiSyncDelta` and `_processSyncNearEntities` pass to the store is the raw value
divided by `2^16` (rounded down), of the target, of an actor, or of the entity, and lies in
`[0, 2^48)`. -/
theorem store_id_is_high_bits (env : Env) (targetRaw : Long) (ds : List SyncDamageInfo)
    (entity : Entity) (s : State) (hT : targetRaw.bits < 2 ^ 63)
    (hA : ∀ d ∈ ds, ∀ a, attackerOf d = some a → a.bits < 2 ^ 63)
    (hE : entity.Uuid = some targetRaw) :
    (∀ c ∈ aoiSyncDeltaCalls env
        (some { Uuid := some targetRaw, SkillEffects := some { Damages := some ds } }),
      (c.id = ((targetRaw.bits / 2 ^ 16 : Nat) : Int) ∨
        ∃ d ∈ ds, ∃ a, attackerOf d = some a ∧ c.id = ((a.bits / 2 ^ 16 : Nat) : Int)) ∧
      0 ≤ c.id ∧ c.id < 2 ^ 48) ∧
    (∀ c ∈ (processEntity env entity s).state.calls,
      c ∈ s.calls ∨
        (c.id = ((targetRaw.bits / 2 ^ 16 : Nat) : Int) ∧ 0 ≤ c.id ∧ c.id < 2 ^ 48)) := by
  have bound : ∀ (u : Long), u.bits < 2 ^ 63 → ∀ x : Int,
      x = ((u.bits / 2 ^ 16 : Nat) : Int) → 0 ≤ x ∧ x < 2 ^ 48 := by
    intro u hu x hx
    have : u.bits / 2 ^ 16 < 2 ^ 47 := by omega
    omega
  constructor
  · intro c hc
    rw [aoiSyncDeltaCalls_eq, List.mem_flatten] at hc
    obtain ⟨l, hl, hcl⟩ := hc
    rw [List.mem_map] at hl
    obtain ⟨d, hd, rfl⟩ := hl
    rcases damageCalls_id env _ _ d c hcl with h | ⟨a, ha, h⟩
    · rw [Long.shiftRight_toNumber hT] at h
      exact ⟨Or.inl h, bound targetRaw hT _ h⟩
    · rw [Long.shiftRight_toNumber (hA d hd a ha)] at h
      exact ⟨Or.inr ⟨d, hd, a, ha, h⟩, bound a (hA d hd a ha) _ h⟩
  · intro c hc
    rcases processEntity_calls env entity targetRaw s hE c hc with h | h
    · exact Or.inl h
    · rw [Long.shiftRight_toNumber hT] at h
      exact Or.inr ⟨h, bound targetRaw hT _ h⟩

theorem store_id_is_high_bits_witness :
    StoreCall.getUser 7 ∈ aoiSyncDeltaCalls sampleEnv (some playerHealedByMonster) ∧
    0 ≤ (StoreCall.getUser 7).id ∧ (StoreCall.getUser 7).id < 2 ^ 48 :=
  ⟨by decide,
    ((store_id_is_high_bits sampleEnv { bits := 459392 } [healByMonster]
      { Uuid := some { bits := 459392 } } {} (by decide)
      (by
        intro d hd a ha
        rw [List.mem_singleton] at hd
        subst hd
        simp only [attackerOf, healByMonster, Option.some.injEq] at ha
        subst ha
        decide)
      rfl).1 (.getUser 7) (by decide)).2⟩

/-- C7 (as stated, refuted): for the raw identity `2^63 + 640`, whose bit 63 is set, the id
passed to the store is not `floor(u / 2^16) = 2^47`: the shift is arithmetic, so a signed
field gives `-2^47` and an unsigned field gives `2^64 - 2^47`, both outside `[0, 2^48)`;
this at both call sites, `_processAoiSyncDelta` and `_processSyncNearEntities`. -/
theorem store_id_high_bit_set :
    aoiSyncDeltaCalls sampleEnv (some (highBitPlayerHit false)) =
      [.addTakenDamage (-140737488355328) 1000, .getUser (-140737488355328)] ∧
    aoiSyncDeltaCalls sampleEnv (some (highBitPlayerHit true)) =
      [.addTakenDamage 18446603336221196288 1000, .getUser 18446603336221196288] ∧
    (processEntity readerEnv (highBitEntity false) {}).state.calls =
      [.setFightPoint (-140737488355328) 5] ∧
    (processEntity readerEnv (highBitEntity true) {}).state.calls =
      [.setFightPoint 18446603336221196288 5] ∧
    (2 ^ 63 + 640) / 2 ^ 16 = 140737488355328 ∧
    (2 : Int) ^ 48 ≤ 18446603336221196288 := by
  refine ⟨by decide, by decide, by decide, by decide, by decide, by decide⟩

/-! ## The frame loop -/

theorem beBytes_length (w n : Nat) : (beBytes w n).length = w := by
  induction w with
  | zero => rfl
  | succ w ih => simp [beBytes, ih]

theorem beValue_beBytes (w n : Nat) : beValue (beBytes w n) = n % 256 ^ w := by
  induction w with
  | zero => simp [beBytes, beValue, Nat.mod_one]
  | succ w ih =>
    simp only [beBytes, beValue, beBytes_length, ih]
    rw [pow_succ, Nat.mod_mul]
    ring

theorem readBE_append (pre xs rest : Buffer) :
    Buffer.readBE (pre ++ (xs ++ rest)) xs.length pre.length = some (beValue xs) := by
  simp [Buffer.readBE]

theorem Frame.kindField_land (f : Frame) (hk : f.kind < 2 ^ 15) :
    f.kindField &&& 0x7fff = f.kind ∧ f.kindField &&& 0x8000 = f.flagBits ∧
      f.kindField < 2 ^ 16 := by
  have e1 : (0x7fff : Nat) = 2 ^ 15 - 1 := by norm_num
  have e2 : (0x8000 : Nat) = 2 ^ 15 := by norm_num
  unfold Frame.kindField Frame.flagBits
  cases f.compressed
  · simp only [Bool.false_eq_true, if_false, Nat.zero_or]
    rw [e1, e2, Nat.and_pow_two_sub_one_eq_mod, Nat.and_two_pow, Nat.testBit_lt_two_pow hk]
    exact ⟨Nat.mod_eq_of_lt hk, by simp, by omega⟩
  · simp only [if_true]
    have h3 : 0x8000 ||| f.kind = 2 ^ 15 + f.kind := by
      have := Nat.mul_add_lt_is_or hk 1
      simp only [mul_one] at this
      rw [e2, this]
    rw [h3, e1, e2, Nat.and_pow_two_sub_one_eq_mod, Nat.and_two_pow, Nat.testBit_two_pow_add_eq,
      Nat.testBit_lt_two_pow hk]
    exact ⟨by omega, by simp, by omega⟩

theorem encodeFrame_length (f : Frame) : (encodeFrame f).length = 6 + f.body.length := by
  simp [encodeFrame, beBytes_length]
  omega

theorem encodeFrames_cons (f : Frame) (fs : List Frame) :
    encodeFrames (f :: fs) = encodeFrame f ++ encodeFrames fs := by
  simp [encodeFrames]

theorem encodeFrames_length (fs : List Frame) :
    (encodeFrames fs).length = (fs.map (fun f => 6 + f.body.length)).sum := by
  induction fs with
  | nil => rfl
  | cons f fs ih => simp [encodeFrames_cons, encodeFrame_length, ih]

theorem encodeFrames_eq_nil {fs : List Frame} : encodeFrames fs = [] ↔ fs = [] := by
  cases fs with
  | nil => simp [encodeFrames]
  | cons f fs =>
    simp only [encodeFrames_cons, List.append_eq_nil, reduceCtorEq, iff_false, not_and]
    intro h
    have := encodeFrame_length f
    rw [h] at this
    simp at this
    omega

/-- The length field of an encoded frame, as `peekUInt32` and `readUInt32` read it. -/
theorem readUInt32BE_encodeFrame (pre rest : Buffer) (f : Frame) (hv : f.Valid) :
    Buffer.readUInt32BE (pre ++ (encodeFrame f ++ rest)) pre.length =
      some (6 + f.body.length) := by
  have h := readBE_append pre (beBytes 4 (6 + f.body.length))
    (beBytes 2 f.kindField ++ f.body ++ rest)
  rw [beBytes_length, beValue_beBytes] at h
  have hlt : 6 + f.body.length < 256 ^ 4 := by have := hv.2; omega
  rw [Nat.mod_eq_of_lt hlt] at h
  simpa [Buffer.readUInt32BE, encodeFrame, List.append_assoc] using h

/-- The kind field of an encoded frame, as `readUInt16` reads it. -/
theorem readUInt16BE_encodeFrame (rest : Buffer) (f : Frame) (hv : f.Valid) :
    Buffer.readUInt16BE (encodeFrame f ++ rest) 4 = some f.kindField := by
  have h := readBE_append (beBytes 4 (6 + f.body.length)) (beBytes 2 f.kindField)
    (f.body ++ rest)
  rw [beBytes_length, beBytes_length, beValue_beBytes] at h
  have hlt : f.kindField < 256 ^ 2 := by have := (f.kindField_land hv.1).2.2; omega
  rw [Nat.mod_eq_of_lt hlt] at h
  simpa [Buffer.readUInt16BE, encodeFrame, List.append_assoc] using h

theorem subarray_append (pre xs rest : Buffer) :
    Buffer.subarray (pre ++ (xs ++ rest)) pre.length (pre.length + xs.length) = xs := by
  simp [Buffer.subarray]

/-- One turn of the loop on an encoded frame: `body` gets the fields of the frame and a
reader at byte 6 of it; the loop goes on iff bytes are left after the frame. -/
theorem frameLoop_encodeFrame {σ : Type}
    (body : Nat → Nat → Nat → BinaryReader → σ → Option (Outcome σ)) (fuel : Nat)
    (pre rest : Buffer) (f : Frame) (hv : f.Valid) (s : σ) :
    frameLoop body (fuel + 1) (pre ++ (encodeFrame f ++ rest)) pre.length s =
      match body (6 + f.body.length) f.kind f.flagBits
          { buffer := encodeFrame f, offset := 6 } s with
      | none => none
      | some (.threw s') => some (.threw s')
      | some (.returned s') =>
        if rest = [] then some (.returned s')
        else frameLoop body fuel (pre ++ (encodeFrame f ++ rest))
          (pre.length + (encodeFrame f).length) s' := by
  have hsub := subarray_append pre (encodeFrame f) rest
  rw [encodeFrame_length] at hsub
  have h32 := readUInt32BE_encodeFrame [] [] f hv
  have h16 := readUInt16BE_encodeFrame [] f hv
  simp only [List.nil_append, List.append_nil, List.length_nil] at h32 h16
  obtain ⟨hk1, hk2, -⟩ := f.kindField_land hv.1
  have hrem : (0 < BinaryReader.remaining
      { buffer := pre ++ (encodeFrame f ++ rest), offset := pre.length + (6 + f.body.length) }) ↔
      rest ≠ [] := by
    simp only [BinaryReader.remaining, List.length_append, encodeFrame_length]
    rw [← List.length_pos]
    push_cast
    omega
  rw [frameLoop]
  simp only [BinaryReader.peekUInt32, readUInt32BE_encodeFrame pre rest f hv,
    BinaryReader.readBytes, hsub, BinaryReader.readUInt32, BinaryReader.readUInt16, h32, h16,
    hk1, hk2, encodeFrame_length]
  have h6 : ¬ (6 + f.body.length < 6) := by omega
  simp only [h6, if_false, gt_iff_lt, hrem]
  cases body (6 + f.body.length) f.kind f.flagBits { buffer := encodeFrame f, offset := 6 } s with
  | none => rfl
  | some out =>
    cases out with
    | threw s' => rfl
    | returned s' =>
      by_cases hr : rest = []
      · simp [hr]
      · simp [hr]

/-- The loop on encoded frames followed by `tail`: the frames are run in order, and the loop
goes on behind them iff `tail` is not empty. -/
theorem frameLoop_frames_append {σ : Type}
    (body : Nat → Nat → Nat → BinaryReader → σ → Option (Outcome σ)) (fs : List Frame)
    (hv : ∀ f ∈ fs, f.Valid) (hne : fs ≠ []) (pre tail : Buffer) (fuel : Nat) (s : σ) :
    frameLoop body (fs.length + fuel) (pre ++ (encodeFrames fs ++ tail)) pre.length s =
      match runFrames body fs s with
      | some (.returned s') =>
        if tail = [] then some (.returned s')
        else frameLoop body fuel (pre ++ (encodeFrames fs ++ tail))
          (pre.length + (encodeFrames fs).length) s'
      | other => other := by
  induction fs generalizing pre s with
  | nil => exact absurd rfl hne
  | cons f fs ih =>
    have hvf : f.Valid := hv f (List.mem_cons_self _ _)
    have hvs : ∀ g ∈ fs, g.Valid := fun g hg => hv g (List.mem_cons_of_mem _ hg)
    have hfuel : (f :: fs).length + fuel = (fs.length + fuel) + 1 := by
      simp only [List.length_cons]; omega
    rw [hfuel, encodeFrames_cons, List.append_assoc, frameLoop_encodeFrame body _ pre _ f hvf s]
    simp only [runFrames]
    cases body (6 + f.body.length) f.kind f.flagBits { buffer := encodeFrame f, offset := 6 } s with
    | none => rfl
    | some out =>
      cases out with
      | threw s' => rfl
      | returned s' =>
        simp only
        by_cases hfs : fs = []
        · subst hfs
          simp [encodeFrames, runFrames]
        · have hrest : encodeFrames fs ++ tail ≠ [] := by
            simp [encodeFrames_eq_nil, hfs]
          rw [if_neg hrest]
          have hih := ih hvs hfs (pre ++ encodeFrame f) s'
          simp only [List.append_assoc, List.length_append] at hih
          rw [hih]
          cases runFrames body fs s' with
          | none => rfl
          | some out' =>
            cases out' with
            | threw s'' => rfl
            | returned s'' =>
              simp only [List.length_append, Nat.add_assoc]

theorem readRemaining_encodeFrame (f : Frame) :
    (BinaryReader.readRemaining { buffer := encodeFrame f, offset := 6 }).1 = f.body := by
  have h : encodeFrame f = (beBytes 4 (6 + f.body.length) ++ beBytes 2 f.kindField) ++ f.body := by
    simp [encodeFrame]
  have hl : (beBytes 4 (6 + f.body.length) ++ beBytes 2 f.kindField).length = 6 := by
    simp [beBytes_length]
  simp only [BinaryReader.readRemaining]
  rw [h]
  exact List.drop_left' hl

theorem runFrames_recordFrame (fs : List Frame) (seen : List (Nat × Nat × Bool × Buffer)) :
    runFrames recordFrame fs seen = some (.returned (seen ++ fs.map Frame.decoded)) := by
  induction fs generalizing seen with
  | nil => simp [runFrames]
  | cons f fs ih =>
    have hflag : decide (f.flagBits ≠ 0) = f.compressed := by
      unfold Frame.flagBits
      cases f.compressed <;> simp
    simp only [runFrames, recordFrame, readRemaining_encodeFrame, hflag]
    rw [ih]
    simp [Frame.decoded]

theorem length_le_encodeFrames (fs : List Frame) : fs.length ≤ (encodeFrames fs).length := by
  induction fs with
  | nil => simp
  | cons f fs ih =>
    rw [encodeFrames_cons, List.length_append, encodeFrame_length, List.length_cons]
    omega

/-- Fuel beyond the number of frames changes nothing on a buffer of encoded frames. -/
theorem frameLoop_encodeFrames {σ : Type}
    (body : Nat → Nat → Nat → BinaryReader → σ → Option (Outcome σ)) (fs : List Frame)
    (hv : ∀ f ∈ fs, f.Valid) (hne : fs ≠ []) (fuel : Nat) (hfuel : fs.length ≤ fuel) (s : σ) :
    frameLoop body fuel (encodeFrames fs) 0 s = runFrames body fs s := by
  obtain ⟨k, rfl⟩ := Nat.exists_eq_add_of_le hfuel
  have h := frameLoop_frames_append body fs hv hne [] [] k s
  simp only [List.nil_append, List.append_nil, List.length_nil, if_true] at h
  rw [h]
  cases runFrames body fs s with
  | none => rfl
  | some out => cases out <;> rfl

theorem frameLoop_nil {σ : Type}
    (body : Nat → Nat → Nat → BinaryReader → σ → Option (Outcome σ)) (fuel : Nat) (s : σ) :
    frameLoop body (fuel + 1) [] 0 s = some (.threw s) := by
  simp [frameLoop, BinaryReader.peekUInt32, Buffer.readUInt32BE, Buffer.readBE]

theorem processPacket_encodeFrames (env : Env) (d : Nat) (fs : List Frame)
    (hv : ∀ f ∈ fs, f.Valid) (s : State) :
    processPacket env (d + 1) (some (encodeFrames fs)) s =
      (runFrames (dispatch env (processPacket env d)) fs s).map Outcome.state := by
  by_cases hne : fs = []
  · subst hne
    simp [processPacket, encodeFrames, frameLoop_nil, runFrames, Outcome.state]
  · simp only [processPacket]
    rw [frameLoop_encodeFrames _ fs hv hne _
      (Nat.le_succ_of_le (length_le_encodeFrames fs))]
    cases runFrames (dispatch env (processPacket env d)) fs s <;> rfl

theorem runFrames_append {σ : Type}
    (body : Nat → Nat → Nat → BinaryReader → σ → Option (Outcome σ)) (xs ys : List Frame)
    (s : σ) :
    runFrames body (xs ++ ys) s =
      match runFrames body xs s with
      | some (.returned s') => runFrames body ys s'
      | other => other := by
  induction xs generalizing s with
  | nil => simp [runFrames]
  | cons f xs ih =>
    simp only [List.cons_append, runFrames]
    cases body (6 + f.body.length) f.kind f.flagBits { buffer := encodeFrame f, offset := 6 } s with
    | none => rfl
    | some out =>
      cases out with
      | threw s' => rfl
      | returned s' => exact ih s'

theorem Frame.decide_flagBits (f : Frame) : decide (f.flagBits ≠ 0) = f.compressed := by
  unfold Frame.flagBits
  cases f.compressed <;> simp

/-- When the switch returns for every frame, the traced switch has noted every frame. -/
theorem runFrames_traced_returned (env : Env) (recurse : Option Buffer → State → Option State)
    (fs : List Frame) (seen : List (Nat × Nat × Bool × Buffer)) (s s' : State)
    (h : runFrames (dispatch env recurse) fs s = some (.returned s')) :
    runFrames (tracedDispatch env recurse) fs (seen, s) =
      some (.returned (seen ++ fs.map Frame.decoded, s')) := by
  induction fs generalizing seen s with
  | nil =>
    simp only [runFrames, Option.some.injEq, Outcome.returned.injEq] at h
    simp [runFrames, h]
  | cons f fs ih =>
    simp only [runFrames] at h ⊢
    simp only [tracedDispatch, readRemaining_encodeFrame, Frame.decide_flagBits]
    revert h
    cases dispatch env recurse (6 + f.body.length) f.kind f.flagBits
        { buffer := encodeFrame f, offset := 6 } s with
    | none => intro h; cases h
    | some out =>
      cases out with
      | threw s1 => intro h; cases h
      | returned s1 =>
        intro h
        simp only []
        rw [ih _ _ h]
        simp [Frame.decoded]

/-- When the switch raises on a frame, the traced switch has noted the frames up to and
including that one, and none after it. -/
theorem runFrames_traced_threw (env : Env) (recurse : Option Buffer → State → Option State)
    (before after : List Frame) (f : Frame) (seen : List (Nat × Nat × Bool × Buffer))
    (s s1 s2 : State)
    (hb : runFrames (dispatch env recurse) before s = some (.returned s1))
    (hf : dispatch env recurse (6 + f.body.length) f.kind f.flagBits
      { buffer := encodeFrame f, offset := 6 } s1 = some (.threw s2)) :
    runFrames (tracedDispatch env recurse) (before ++ f :: after) (seen, s) =
      some (.threw (seen ++ (before ++ [f]).map Frame.decoded, s2)) := by
  rw [runFrames_append, runFrames_traced_returned env recurse before seen s s1 hb]
  simp only [runFrames, tracedDispatch, hf, readRemaining_encodeFrame, Frame.decide_flagBits]
  simp [Frame.decoded]

theorem runFrames_threw (env : Env) (recurse : Option Buffer → State → Option State)
    (before after : List Frame) (f : Frame) (s s1 s2 : State)
    (hb : runFrames (dispatch env recurse) before s = some (.returned s1))
    (hf : dispatch env recurse (6 + f.body.length) f.kind f.flagBits
      { buffer := encodeFrame f, offset := 6 } s1 = some (.threw s2)) :
    runFrames (dispatch env recurse) (before ++ f :: after) s = some (.threw s2) := by
  rw [runFrames_append, hb]
  simp only [runFrames, hf]

/-- The traced switch and the switch reach the same state. -/
theorem runFrames_traced_state (env : Env) (recurse : Option Buffer → State → Option State)
    (fs : List Frame) (seen : List (Nat × Nat × Bool × Buffer)) (s : State) :
    (runFrames (tracedDispatch env recurse) fs (seen, s)).map (fun out => out.state.2) =
      (runFrames (dispatch env recurse) fs s).map Outcome.state := by
  induction fs generalizing seen s with
  | nil => simp [runFrames, Outcome.state]
  | cons f fs ih =>
    simp only [runFrames, tracedDispatch]
    cases dispatch env recurse (6 + f.body.length) f.kind f.flagBits
        { buffer := encodeFrame f, offset := 6 } s with
    | none => rfl
    | some out =>
      cases out with
      | threw s1 => rfl
      | returned s1 => exact ih _ s1

/-- C2 (as amended): on a buffer made of the encodings of valid frames, the frame loop of
`processPacket` takes these frames in order, each decoded to the same length, kind,
compression flag and body, up to and including the first frame on which the switch
raises; the frames after that one are not taken.  When the switch returns for every frame
the loop takes all of them and ends exactly at the end of the buffer. -/
theorem frames_taken_until_raise (fs : List Frame) (env : Env) (d : Nat) (s : State)
    (hv : ∀ f ∈ fs, f.Valid) :
    (∀ f ∈ fs, Buffer.readUInt32BE (encodeFrame f) 0 = some (6 + f.body.length) ∧
      (∃ packetType, Buffer.readUInt16BE (encodeFrame f) 4 = some packetType ∧
        packetType &&& 0x7fff = f.kind ∧ packetType &&& 0x8000 = f.flagBits) ∧
      (BinaryReader.readRemaining { buffer := encodeFrame f, offset := 6 }).1 = f.body ∧
      (encodeFrame f).length = 6 + f.body.length) ∧
    (encodeFrames fs).length = (fs.map (fun f => f.decoded.1)).sum ∧
    processPacket env (d + 1) (some (encodeFrames fs)) s =
      (runFrames (dispatch env (processPacket env d)) fs s).map Outcome.state ∧
    (∀ fuel, fs.length < fuel →
      (frameLoop (tracedDispatch env (processPacket env d)) fuel (encodeFrames fs) 0
          ([], s)).map (fun out => out.state.2) =
        processPacket env (d + 1) (some (encodeFrames fs)) s) ∧
    (∀ fuel s', fs.length < fuel → fs ≠ [] →
      runFrames (dispatch env (processPacket env d)) fs s = some (.returned s') →
      frameLoop (tracedDispatch env (processPacket env d)) fuel (encodeFrames fs) 0 ([], s) =
          some (.returned (fs.map Frame.decoded, s')) ∧
        processPacket env (d + 1) (some (encodeFrames fs)) s = some s') ∧
    (∀ fuel before f after s1 s2, fs.length < fuel → fs = before ++ f :: after →
      runFrames (dispatch env (processPacket env d)) before s = some (.returned s1) →
      dispatch env (processPacket env d) (6 + f.body.length) f.kind f.flagBits
        { buffer := encodeFrame f, offset := 6 } s1 = some (.threw s2) →
      frameLoop (tracedDispatch env (processPacket env d)) fuel (encodeFrames fs) 0 ([], s) =
          some (.threw ((before ++ [f]).map Frame.decoded, s2)) ∧
        processPacket env (d + 1) (some (encodeFrames fs)) s = some s2) := by
  have hpp := processPacket_encodeFrames env d fs hv s
  refine ⟨?_, ?_, hpp, ?_, ?_, ?_⟩
  · intro f hf
    have h32 := readUInt32BE_encodeFrame [] [] f (hv f hf)
    have h16 := readUInt16BE_encodeFrame [] f (hv f hf)
    simp only [List.nil_append, List.append_nil, List.length_nil] at h32 h16
    obtain ⟨hk1, hk2, -⟩ := f.kindField_land (hv f hf).1
    exact ⟨h32, ⟨f.kindField, h16, hk1, hk2⟩, readRemaining_encodeFrame f, encodeFrame_length f⟩
  · rw [encodeFrames_length]
    rfl
  · intro fuel hfuel
    by_cases hne : fs = []
    · subst hne
      obtain ⟨k, rfl⟩ : ∃ k, fuel = k + 1 := ⟨fuel - 1, by omega⟩
      simp [encodeFrames, frameLoop_nil, Outcome.state, processPacket]
    · rw [frameLoop_encodeFrames _ fs hv hne fuel (Nat.le_of_lt hfuel), hpp]
      exact runFrames_traced_state env _ fs [] s
  · intro fuel s' hfuel hne hret
    refine ⟨?_, ?_⟩
    · rw [frameLoop_encodeFrames _ fs hv hne fuel (Nat.le_of_lt hfuel),
        runFrames_traced_returned env _ fs [] s s' hret, List.nil_append]
    · rw [hpp, hret]
      rfl
  · intro fuel before f after s1 s2 hfuel hfs hb hf
    have hne : fs ≠ [] := by
      rw [hfs]
      simp
    refine ⟨?_, ?_⟩
    · rw [frameLoop_encodeFrames _ fs hv hne fuel (Nat.le_of_lt hfuel), hfs,
        runFrames_traced_threw env _ before after f [] s s1 s2 hb hf, List.nil_append]
    · rw [hpp, hfs, runFrames_threw env _ before after f s s1 s2 hb hf]
      rfl

theorem frames_taken_until_raise_witness :
    frameLoop (tracedDispatch decodingEnv (processPacket decodingEnv 0)) 3
        (encodeFrames [syncNearFrame, shortNotifyFrame]) 0 ([], {}) =
      some (.threw ([(22, 2, false, syncNearBody), (9, 2, false, [1, 2, 3])],
        { calls := [.addHealing 3 1000 false false, .getUser 3, .getUser 7] })) ∧
    processPacket decodingEnv 1 (some (encodeFrames [syncNearFrame, shortNotifyFrame])) {} =
      some { calls := [.addHealing 3 1000 false false, .getUser 3, .getUser 7] } :=
  (frames_taken_until_raise [syncNearFrame, shortNotifyFrame] decodingEnv 0 {}
    (by
      intro f hf
      simp only [List.mem_cons, List.mem_singleton, List.not_mem_nil, or_false] at hf
      rcases hf with rfl | rfl <;> exact ⟨by decide, by decide⟩)).2.2.2.2.2 3 [syncNearFrame]
    shortNotifyFrame [] { calls := [.addHealing 3 1000 false false, .getUser 3, .getUser 7] }
    { calls := [.addHealing 3 1000 false false, .getUser 3, .getUser 7] }
    (by decide) rfl (by rfl) (by rfl)

/-- C2 (as stated, refuted): the buffer of the two valid frames `shortNotifyFrame` and
`syncNearFrame` is not split into these two frames: the switch raises on the first one
(its body is too short for the service id), the raise ends the loop, and the second frame is
never taken: the loop has noted one frame and no heal is recorded, while the second frame
alone, or in front, is taken and records a heal. -/
theorem second_frame_not_taken :
    shortNotifyFrame.Valid ∧ syncNearFrame.Valid ∧
    frameLoop (tracedDispatch decodingEnv (processPacket decodingEnv 0)) 3
        (encodeFrames [shortNotifyFrame, syncNearFrame]) 0 ([], {}) =
      some (.threw ([(9, 2, false, [1, 2, 3])], {})) ∧
    processPacket decodingEnv 1 (some (encodeFrames [shortNotifyFrame, syncNearFrame])) {} =
      some {} ∧
    processPacket decodingEnv 1 (some (encodeFrames [syncNearFrame])) {} =
      some { calls := [.addHealing 3 1000 false false, .getUser 3, .getUser 7] } ∧
    [shortNotifyFrame, syncNearFrame].map Frame.decoded =
      [(9, 2, false, [1, 2, 3]), (22, 2, false, syncNearBody)] := by
  refine ⟨⟨by decide, by decide⟩, ⟨by decide, by decide⟩, by rfl, by rfl, by rfl, by rfl⟩

/-! ## Corrupt lengths -/

theorem readUInt32BE_append_left (pre b : Buffer) :
    Buffer.readUInt32BE (pre ++ b) pre.length = Buffer.readUInt32BE b 0 := by
  simp [Buffer.readUInt32BE, Buffer.readBE]

/-- A declared length below 6 ends the loop at once: `body` is not run and the state the
loop arrived with is returned. -/
theorem frameLoop_short_length {σ : Type}
    (body : Nat → Nat → Nat → BinaryReader → σ → Option (Outcome σ)) (fuel : Nat)
    (packets : Buffer) (offset L : Nat) (s : σ)
    (hL : Buffer.readUInt32BE packets offset = some L) (hlt : L < 6) :
    frameLoop body (fuel + 1) packets offset s = some (.returned s) := by
  simp [frameLoop, BinaryReader.peekUInt32, hL, hlt]

/-- C3: a frame that declares a length below 6 stops `processPacket` on that buffer without
a raise.  At any position of any buffer the loop returns the state it arrived with and
does not run the dispatch; the buffer with valid frames before the corrupt one has the
effects of those frames alone; and a buffer processed after a corrupt one is processed as
if the corrupt one had not been there. -/
theorem short_length_stops (env : Env) (d : Nat) (fs : List Frame) (bad : Buffer) (L : Nat)
    (s : State) (hv : ∀ f ∈ fs, f.Valid) (hL : Buffer.readUInt32BE bad 0 = some L)
    (hlt : L < 6) :
    (∀ (body : Nat → Nat → Nat → BinaryReader → State → Option (Outcome State))
        (fuel : Nat) (pre : Buffer) (st : State),
      frameLoop body (fuel + 1) (pre ++ bad) pre.length st = some (.returned st)) ∧
    processPacket env (d + 1) (some (encodeFrames fs ++ bad)) s =
      processPacket env (d + 1) (some (encodeFrames fs)) s ∧
    processPacket env (d + 1) (some bad) s = some s ∧
    (∀ (d' : Nat) (next : Option Buffer),
      (processPacket env (d + 1) (some bad) s).bind (processPacket env d' next) =
        processPacket env d' next s) := by
  have hloop : ∀ (body : Nat → Nat → Nat → BinaryReader → State → Option (Outcome State))
      (fuel : Nat) (pre : Buffer) (st : State),
      frameLoop body (fuel + 1) (pre ++ bad) pre.length st = some (.returned st) := by
    intro body fuel pre st
    exact frameLoop_short_length body fuel _ _ L st
      (by rw [readUInt32BE_append_left]; exact hL) hlt
  have hbad : processPacket env (d + 1) (some bad) s = some s := by
    have h := hloop (dispatch env (processPacket env d)) bad.length [] s
    simp only [List.nil_append, List.length_nil] at h
    simp [processPacket, h, Outcome.state]
  have hbadne : bad ≠ [] := by
    intro h
    subst h
    simp [Buffer.readUInt32BE, Buffer.readBE] at hL
  refine ⟨hloop, ?_, hbad, fun d' next => by rw [hbad]; rfl⟩
  by_cases hne : fs = []
  · subst hne
    simp only [encodeFrames, List.map_nil, List.flatten_nil, List.nil_append, hbad]
    simp [processPacket, frameLoop_nil, Outcome.state]
  · rw [processPacket_encodeFrames env d fs hv s]
    simp only [processPacket]
    have hlen : fs.length ≤ (encodeFrames fs ++ bad).length := by
      rw [List.length_append]
      exact Nat.le_add_right_of_le (length_le_encodeFrames fs)
    obtain ⟨k, hk⟩ := Nat.exists_eq_add_of_le hlen
    have hfuel : (encodeFrames fs ++ bad).length + 1 = fs.length + (k + 1) := by omega
    have h := frameLoop_frames_append (dispatch env (processPacket env d)) fs hv hne [] bad
      (k + 1) s
    simp only [List.nil_append, List.length_nil, Nat.zero_add, if_neg hbadne] at h
    rw [hfuel, h]
    cases runFrames (dispatch env (processPacket env d)) fs s with
    | none => rfl
    | some out =>
      cases out with
      | threw s' => rfl
      | returned s' =>
        simp only
        rw [hloop (dispatch env (processPacket env d)) k (encodeFrames fs) s']
        rfl

theorem short_length_stops_witness :
    processPacket sampleEnv 1 (some (encodeFrames sampleFrames ++ [0, 0, 0, 5, 9, 9])) {} =
      processPacket sampleEnv 1 (some (encodeFrames sampleFrames)) {} :=
  (short_length_stops sampleEnv 0 sampleFrames [0, 0, 0, 5, 9, 9] 5 {}
    (by
      intro f hf
      simp only [sampleFrames, List.mem_cons, List.mem_singleton, List.not_mem_nil,
        or_false] at hf
      rcases hf with rfl | rfl <;> exact ⟨by decide, by decide⟩)
    (by decide) (by decide)).2.1

/-! ## The bytes of a frame -/

theorem subarray_length (b : Buffer) (offset n : Nat) :
    (b.subarray offset (offset + n)).length = min n (b.length - offset) := by
  simp [Buffer.subarray]

theorem readBE_subarray (b : Buffer) (offset L n k : Nat) (hk : k + n ≤ L)
    (hfit : offset + L ≤ b.length) :
    Buffer.readBE (b.subarray offset (offset + L)) n k = Buffer.readBE b n (offset + k) := by
  have hlen : (b.subarray offset (offset + L)).length = L := by
    rw [subarray_length]; omega
  unfold Buffer.readBE
  rw [hlen, if_pos hk, if_pos (by omega)]
  congr 2
  simp only [Buffer.subarray, Nat.add_sub_cancel_left, List.drop_take, List.take_take,
    List.drop_drop]
  rw [min_eq_left (by omega : n ≤ L - k)]

/-- C5 (as amended): the frame the decoder takes for a declared length `L ≥ 6` holds
`min L unread` bytes and the cursor moves on by `L`.  When `L` is within the unread bytes
the frame holds exactly `L` bytes, the cursor stays inside the buffer, and the switch runs
on a reader at byte 6 of these `L` bytes; when `L` is larger, the frame holds the unread
bytes only and the cursor ends past the end of the buffer. -/
theorem frame_takes_declared_length
    (body : Nat → Nat → Nat → BinaryReader → State → Option (Outcome State)) (fuel : Nat)
    (packets : Buffer) (offset L : Nat) (s : State)
    (hL : BinaryReader.peekUInt32 { buffer := packets, offset := offset } = some L)
    (h6 : 6 ≤ L) :
    (BinaryReader.readBytes { buffer := packets, offset := offset } L).2.offset = offset + L ∧
    (BinaryReader.readBytes { buffer := packets, offset := offset } L).1.length =
      min L (packets.length - offset) ∧
    (offset + L ≤ packets.length →
      (BinaryReader.readBytes { buffer := packets, offset := offset } L).1.length = L ∧
      0 ≤ (BinaryReader.readBytes { buffer := packets, offset := offset } L).2.remaining ∧
      ∃ packetType, Buffer.readUInt16BE packets (offset + 4) = some packetType ∧
        frameLoop body (fuel + 1) packets offset s =
          match body L (packetType &&& 0x7fff) (packetType &&& 0x8000)
            { buffer := (BinaryReader.readBytes { buffer := packets, offset := offset } L).1,
              offset := 6 } s with
          | none => none
          | some (.threw s') => some (.threw s')
          | some (.returned s') =>
            if offset + L < packets.length then frameLoop body fuel packets (offset + L) s'
            else some (.returned s')) ∧
    (packets.length < offset + L →
      (BinaryReader.readBytes { buffer := packets, offset := offset } L).1.length < L ∧
      (BinaryReader.readBytes { buffer := packets, offset := offset } L).2.remaining < 0) := by
  have h4 : offset + 4 ≤ packets.length := by
    simp only [BinaryReader.peekUInt32, Buffer.readUInt32BE, Buffer.readBE] at hL
    by_contra hc
    rw [if_neg hc] at hL
    exact Option.noConfusion hL
  refine ⟨rfl, subarray_length packets offset L, ?_, ?_⟩
  · intro hfit
    have hlen : (packets.subarray offset (offset + L)).length = L := by
      rw [subarray_length]; omega
    refine ⟨hlen, ?_, ?_⟩
    · simp only [BinaryReader.readBytes, BinaryReader.remaining]
      omega
    · have h16 : offset + 4 + 2 ≤ packets.length := by omega
      refine ⟨beValue ((packets.drop (offset + 4)).take 2), ?_, ?_⟩
      · simp [Buffer.readUInt16BE, Buffer.readBE, h16]
      · have r32 : Buffer.readUInt32BE (packets.subarray offset (offset + L)) 0 = some L := by
          have := readBE_subarray packets offset L 4 0 (by omega) hfit
          simp only [Nat.add_zero] at this
          simp only [BinaryReader.peekUInt32] at hL
          rw [Buffer.readUInt32BE, this]
          exact hL
        have r16 : Buffer.readUInt16BE (packets.subarray offset (offset + L)) 4 =
            some (beValue ((packets.drop (offset + 4)).take 2)) := by
          rw [Buffer.readUInt16BE, readBE_subarray packets offset L 2 4 (by omega) hfit]
          simp [Buffer.readBE, h16]
        have hn6 : ¬ L < 6 := by omega
        have hrem : (0 < BinaryReader.remaining { buffer := packets, offset := offset + L }) ↔
            offset + L < packets.length := by
          simp only [BinaryReader.remaining]
          omega
        rw [frameLoop]
        simp only [hL, hn6, if_false, BinaryReader.readBytes, BinaryReader.readUInt32,
          BinaryReader.readUInt16, r32, r16, Nat.zero_add, gt_iff_lt, hrem, Nat.reduceAdd]
        cases body L (beValue ((packets.drop (offset + 4)).take 2) &&& 32767)
            (beValue ((packets.drop (offset + 4)).take 2) &&& 32768)
            { buffer := packets.subarray offset (offset + L), offset := 6 } s with
        | none => rfl
        | some out =>
          cases out with
          | threw s' => rfl
          | returned s' => by_cases h : offset + L < packets.length <;> simp [h]
  · intro hover
    constructor
    · simp only [BinaryReader.readBytes]
      rw [subarray_length]
      omega
    · simp only [BinaryReader.readBytes, BinaryReader.remaining]
      omega

theorem frame_takes_declared_length_witness :
    (BinaryReader.readBytes { buffer := encodeFrames sampleFrames, offset := 0 } 8).2.offset =
      0 + 8 ∧
    (BinaryReader.readBytes { buffer := encodeFrames sampleFrames, offset := 0 } 8).1.length =
      min 8 ((encodeFrames sampleFrames).length - 0) :=
  have h := frame_takes_declared_length (dispatch sampleEnv (processPacket sampleEnv 0)) 1 (encodeFrames sampleFrames) 0 8 {}
    (by decide) (by decide)
  ⟨h.1, h.2.1⟩

/-- C5 (as stated, refuted): an 8-byte buffer whose frame declares 100 bytes.  The frame
taken holds 8 bytes, not 100, the cursor moves to 100, past the end of the buffer, and the
loop still hands the frame on. -/
theorem truncated_frame_is_short :
    BinaryReader.peekUInt32 { buffer := truncatedFrame, offset := 0 } = some 100 ∧
    (BinaryReader.readBytes { buffer := truncatedFrame, offset := 0 } 100).1.length = 8 ∧
    (BinaryReader.readBytes { buffer := truncatedFrame, offset := 0 } 100).2.offset = 100 ∧
    (BinaryReader.readBytes { buffer := truncatedFrame, offset := 0 } 100).2.remaining = -92 ∧
    frameLoop recordFrame 2 truncatedFrame 0 [] = some (.returned [(100, 2, false, [1, 2])]) := by
  refine ⟨by decide, by decide, by decide, by decide, by rfl⟩

/-! ## Dispatch by message kind -/

theorem processPacket_encodeFrame (env : Env) (d : Nat) (f : Frame) (hv : f.Valid) (s : State) :
    processPacket env (d + 1) (some (encodeFrame f)) s =
      (dispatch env (processPacket env d) (6 + f.body.length) f.kind f.flagBits
        { buffer := encodeFrame f, offset := 6 } s).map Outcome.state := by
  have h := processPacket_encodeFrames env d [f]
    (by intro g hg; rw [List.mem_singleton] at hg; rw [hg]; exact hv) s
  simp only [encodeFrames, List.map_cons, List.map_nil, List.flatten_cons, List.flatten_nil,
    List.append_nil] at h
  rw [h]
  simp only [runFrames]
  cases dispatch env (processPacket env d) (6 + f.body.length) f.kind f.flagBits
      { buffer := encodeFrame f, offset := 6 } s with
  | none => rfl
  | some out => cases out <;> rfl

/-- C6 (as amended): kind 2 is the Notify kind: such a frame is handed to
`_processNotifyMsg` with the reader behind the kind field (its unread bytes are the body)
and the compression flag.  Kind 3 (Return) has no effect, kind 6 (FrameDown) reads a
sequence number and recurses into what follows, and every other kind, kind 1 (Call)
among them, is ignored. -/
theorem dispatch_by_kind (env : Env) (recurse : Option Buffer → State → Option State)
    (packetSize msgTypeId isZstdCompressed d : Nat) (r : BinaryReader) (s : State) (f : Frame)
    (hv : f.Valid) :
    (msgTypeId = 2 → dispatch env recurse packetSize msgTypeId isZstdCompressed r s =
      some (processNotifyMsg env r isZstdCompressed s)) ∧
    (msgTypeId = 3 → dispatch env recurse packetSize msgTypeId isZstdCompressed r s =
      some (.returned s)) ∧
    (msgTypeId = 6 → dispatch env recurse packetSize msgTypeId isZstdCompressed r s =
      match r.readUInt32 with
      | none => some (.threw s)
      | some (_, r') =>
        if r'.remaining = 0 then some (.returned s)
        else
          match (if isZstdCompressed ≠ 0 then decompressPayload env r'.readRemaining.1
            else some (some r'.readRemaining.1)) with
          | none => some (.threw s)
          | some nested =>
            match recurse nested s with
            | none => none
            | some s' => some (.returned s')) ∧
    (msgTypeId ≠ 2 → msgTypeId ≠ 3 → msgTypeId ≠ 6 →
      dispatch env recurse packetSize msgTypeId isZstdCompressed r s = some (.returned s)) ∧
    (f.kind = 2 → processPacket env (d + 1) (some (encodeFrame f)) s =
        some (processNotifyMsg env { buffer := encodeFrame f, offset := 6 } f.flagBits s).state ∧
      (BinaryReader.readRemaining { buffer := encodeFrame f, offset := 6 }).1 = f.body) ∧
    (f.kind ≠ 2 → f.kind ≠ 3 → f.kind ≠ 6 →
      processPacket env (d + 1) (some (encodeFrame f)) s = some s) := by
  refine ⟨?_, ?_, ?_, ?_, ?_, ?_⟩
  · intro h
    simp [dispatch, h, MessageType.Notify]
  · intro h
    simp [dispatch, h, MessageType.Notify, MessageType.Return, processReturnMsg]
  · intro h
    simp only [dispatch, h, MessageType.Notify, MessageType.Return, MessageType.FrameDown]
    simp only [Nat.reduceEqDiff, if_false, if_true]
  · intro h2 h3 h6
    simp [dispatch, h2, h3, h6, MessageType.Notify, MessageType.Return, MessageType.FrameDown]
  · intro h
    refine ⟨?_, readRemaining_encodeFrame f⟩
    rw [processPacket_encodeFrame env d f hv s]
    simp [dispatch, h, MessageType.Notify]
  · intro h2 h3 h6
    rw [processPacket_encodeFrame env d f hv s]
    simp [dispatch, h2, h3, h6, MessageType.Notify, MessageType.Return, MessageType.FrameDown,
      Outcome.state]

theorem dispatch_by_kind_witness :
    processPacket decodingEnv 1
        (some (encodeFrame { kind := 2, compressed := false, body := syncNearBody })) {} =
      some (processNotifyMsg decodingEnv
        { buffer := encodeFrame { kind := 2, compressed := false, body := syncNearBody },
          offset := 6 } 0 {}).state :=
  ((dispatch_by_kind decodingEnv (processPacket decodingEnv 0) 22 2 0 0
    { buffer := encodeFrame { kind := 2, compressed := false, body := syncNearBody },
      offset := 6 } {} { kind := 2, compressed := false, body := syncNearBody }
    ⟨by decide, by decide⟩).2.2.2.2.1 rfl).1

/-- C6 (as stated, refuted): a frame of kind 1 that carries a well-formed sync-near
notification is ignored, no store call is made; the same bytes in a frame of kind 2 reach
`_processNotifyMsg` and record the heal. -/
theorem kind_one_is_ignored :
    processPacket decodingEnv 1
        (some (encodeFrame { kind := 1, compressed := false, body := syncNearBody })) {} =
      some {} ∧
    processPacket decodingEnv 1
        (some (encodeFrame { kind := 2, compressed := false, body := syncNearBody })) {} =
      some { calls := [.addHealing 3 1000 false false, .getUser 3, .getUser 7] } ∧
    (processNotifyMsg decodingEnv
        { buffer := encodeFrame { kind := 1, compressed := false, body := syncNearBody },
          offset := 6 } 0 {}).state =
      { calls := [.addHealing 3 1000 false false, .getUser 3, .getUser 7] } ∧
    MessageType.Call = 1 ∧ MessageType.Notify = 2 := by
  refine ⟨by decide, by decide, by decide, rfl, rfl⟩

/-! ## `processPacket` returns -/

/-- The loop never runs out of turns when it has one turn per 6 unread bytes (and one at
least): it gives `none` only if a run of `body` does. -/
theorem frameLoop_ne_none {σ : Type}
    (body : Nat → Nat → Nat → BinaryReader → σ → Option (Outcome σ)) (packets : Buffer)
    (hbody : ∀ ps mt z (r : BinaryReader) st, r.offset = 6 →
      r.buffer.length ≤ packets.length → body ps mt z r st ≠ none) :
    ∀ (fuel offset : Nat) (s : σ), 1 ≤ fuel → packets.length ≤ offset + 6 * fuel →
      frameLoop body fuel packets offset s ≠ none := by
  intro fuel
  induction fuel with
  | zero => intro offset s h1; omega
  | succ fuel ih =>
    intro offset s _ hlen
    rw [frameLoop]
    simp only [BinaryReader.peekUInt32, BinaryReader.readBytes, BinaryReader.readUInt32,
      BinaryReader.readUInt16]
    cases h32 : Buffer.readUInt32BE packets offset with
    | none => simp
    | some L =>
      simp only
      by_cases hL : L < 6
      · simp [hL]
      · rw [if_neg hL]
        cases Buffer.readUInt32BE (packets.subarray offset (offset + L)) 0 with
        | none => simp
        | some L' =>
          simp only
          cases Buffer.readUInt16BE (packets.subarray offset (offset + L)) (0 + 4) with
          | none => simp
          | some packetType =>
            simp only
            have hb := hbody L' (packetType &&& 0x7fff) (packetType &&& 0x8000)
              { buffer := packets.subarray offset (offset + L), offset := 0 + 4 + 2 } s rfl
              (by rw [subarray_length]; omega)
            cases hres : body L' (packetType &&& 0x7fff) (packetType &&& 0x8000)
                { buffer := packets.subarray offset (offset + L), offset := 0 + 4 + 2 } s with
            | none => exact absurd hres hb
            | some out =>
              cases out with
              | threw s' => simp
              | returned s' =>
                simp only
                split_ifs with hrem
                · simp only [BinaryReader.remaining] at hrem
                  exact ih (offset + L) s' (by omega) (by omega)
                · simp

/-- The switch gives no result only through the nested call of a FrameDown frame. -/
theorem dispatch_eq_none (env : Env) (recurse : Option Buffer → State → Option State)
    (ps mt z : Nat) (r : BinaryReader) (s : State)
    (h : dispatch env recurse ps mt z r s = none) :
    ∃ v r' nested, r.readUInt32 = some (v, r') ∧
      (if z ≠ 0 then decompressPayload env r'.readRemaining.1
        else some (some r'.readRemaining.1)) = some nested ∧
      recurse nested s = none := by
  unfold dispatch at h
  by_cases h1 : mt = MessageType.Notify
  · simp [h1] at h
  · by_cases h2 : mt = MessageType.Return
    · rw [if_neg h1, if_pos h2] at h
      exact Option.noConfusion h
    · by_cases h3 : mt = MessageType.FrameDown
      · rw [if_neg h1, if_neg h2, if_pos h3] at h
        cases hr : r.readUInt32 with
        | none => simp [hr] at h
        | some p =>
          obtain ⟨v, r'⟩ := p
          simp only [hr] at h
          by_cases hrem : r'.remaining = 0
          · simp [hrem] at h
          · rw [if_neg hrem] at h
            cases hdec : (if z ≠ 0 then decompressPayload env r'.readRemaining.1
                else some (some r'.readRemaining.1)) with
            | none => simp [hdec] at h
            | some nested =>
              simp only [hdec] at h
              cases hn : recurse nested s with
              | none => exact ⟨v, r', nested, rfl, hdec, hn⟩
              | some s' => simp [hn] at h
      · simp [h1, h2, h3] at h

theorem dispatch_ne_none (env : Env) (recurse : Option Buffer → State → Option State)
    (ps mt z : Nat) (r : BinaryReader) (s : State)
    (hrec : ∀ nested st, recurse nested st ≠ none) :
    dispatch env recurse ps mt z r s ≠ none := by
  intro h
  obtain ⟨v, r', nested, -, -, hn⟩ := dispatch_eq_none env recurse ps mt z r s h
  exact hrec nested s hn

/-- With a zstd routine that never gives back more bytes than it took, every buffer handed
to a nested `processPacket` call is at least 10 bytes shorter than the frame it came in. -/
theorem dispatch_ne_none_of_shorter (env : Env)
    (hz : ∀ b out, env.zstdDecompressSync b = some out → out.length ≤ b.length)
    (recurse : Option Buffer → State → Option State) (ps mt z : Nat) (r : BinaryReader)
    (s : State) (hoff : r.offset = 6)
    (hrec : ∀ nested st, 10 ≤ r.buffer.length →
      (∀ b, nested = some b → b.length + 10 ≤ r.buffer.length) → recurse nested st ≠ none) :
    dispatch env recurse ps mt z r s ≠ none := by
  intro h
  obtain ⟨v, r', nested, hr, hdec, hn⟩ := dispatch_eq_none env recurse ps mt z r s h
  simp only [BinaryReader.readUInt32, Buffer.readUInt32BE, Buffer.readBE, hoff] at hr
  by_cases h10 : 6 + 4 ≤ r.buffer.length
  · rw [if_pos h10] at hr
    simp only [Option.some.injEq, Prod.mk.injEq] at hr
    obtain ⟨-, rfl⟩ := hr
    simp only [BinaryReader.readRemaining] at hdec
    have hdrop : (r.buffer.drop (6 + 4)).length + 10 ≤ r.buffer.length := by
      rw [List.length_drop]; omega
    refine hrec nested s (by omega) ?_ hn
    intro b hb
    subst hb
    by_cases hzc : z ≠ 0
    · rw [if_pos hzc] at hdec
      unfold decompressPayload at hdec
      cases hav : env.zstdAvailable with
      | false => simp [hav] at hdec
      | true =>
        simp only [hav, Bool.not_true, Bool.false_eq_true, if_false] at hdec
        cases hd : env.zstdDecompressSync (r.buffer.drop (6 + 4)) with
        | none => simp [hd] at hdec
        | some out =>
          simp only [hd, Option.some.injEq] at hdec
          subst hdec
          have := hz _ _ hd
          omega
    · rw [if_neg hzc] at hdec
      simp only [Option.some.injEq] at hdec
      subst hdec
      exact hdrop
  · rw [if_neg h10] at hr
    exact Option.noConfusion hr

theorem processPacket_ne_none (env : Env)
    (hz : ∀ b out, env.zstdDecompressSync b = some out → out.length ≤ b.length) :
    ∀ (d : Nat) (packets : Option Buffer) (s : State),
      (∀ b, packets = some b → b.length ≤ d) →
      processPacket env (d + 1) packets s ≠ none := by
  intro d
  induction d using Nat.strong_induction_on with
  | _ d ih =>
    intro packets s hd
    cases packets with
    | none => simp [processPacket]
    | some buf =>
      have hlen := hd buf rfl
      simp only [processPacket]
      have hloop := frameLoop_ne_none (dispatch env (processPacket env d)) buf
        (fun ps mt z r st hoff hr =>
          dispatch_ne_none_of_shorter env hz _ ps mt z r st hoff
            (fun nested st' h10 hn => by
              obtain ⟨e, rfl⟩ : ∃ e, d = e + 1 := ⟨d - 1, by omega⟩
              exact ih e (by omega) nested st'
                (by intro b hb; have := hn b hb; omega)))
        (buf.length + 1) 0 s (by omega) (by omega)
      cases h : frameLoop (dispatch env (processPacket env d)) (buf.length + 1) buf 0 s with
      | none => exact absurd h hloop
      | some out => simp

/-! ## The crit flag, the two scenarios, the role table -/

/-- What a store call made for a damage sub-record can be. -/
theorem damageCalls_inv {env : Env} {t : Bool} {targetUuid : Long} {d : SyncDamageInfo}
    {c : StoreCall} (hc : c ∈ damageCalls env t targetUuid d) :
    ∃ skillId aRaw, d.OwnerId = some skillId ∧ skillId ≠ 0 ∧ attackerOf d = some aRaw ∧
      (damageOf d).isZero = false ∧
      ((c = .addHealing (aRaw.shiftRight 16).toNumber (damageOf d).toNumber (isCritOf d)
            d.LuckyValue.isSome ∧
          t = true ∧ isHealOf env d = true ∧ isUuidPlayer aRaw = true) ∨
        (c = .addTakenDamage targetUuid.toNumber (damageOf d).toNumber ∧
          t = true ∧ isHealOf env d = false) ∨
        (c = .addDamage (aRaw.shiftRight 16).toNumber skillId (damageOf d).toNumber (isCritOf d)
            d.LuckyValue.isSome (hpLessenOf d).toNumber ∧
          t = false ∧ isHealOf env d = false ∧ isUuidPlayer aRaw = true) ∨
        (∃ roleName, getRoleFromSkill skillId = some roleName ∧
          c = .setProfession (aRaw.shiftRight 16).toNumber roleName ∧
          isUuidPlayer aRaw = true ∧ t = isHealOf env d) ∨
        (c = .getUser (aRaw.shiftRight 16).toNumber ∧ isUuidPlayer aRaw = true) ∨
        (c = .getUser targetUuid.toNumber ∧ t = true)) := by
  obtain ⟨sk, aRaw, hs, hne, ha, hz⟩ := damageCalls_ne_nil (List.ne_nil_of_mem hc)
  refine ⟨sk, aRaw, hs, hne, ha, hz, ?_⟩
  rw [damageCalls_of_classified env t targetUuid d sk aRaw hs hne ha hz, List.mem_append] at hc
  rcases hc with hc | hc
  · rcases mem_routeEvent hc with h | h | h | ⟨r, h1, h2, h3, h4⟩
    · exact Or.inl h
    · exact Or.inr (Or.inl h)
    · exact Or.inr (Or.inr (Or.inl h))
    · exact Or.inr (Or.inr (Or.inr (Or.inl ⟨r, h1, h2, h3, h4⟩)))
  · rcases mem_logLookups hc with h | h
    · exact Or.inr (Or.inr (Or.inr (Or.inr (Or.inl h))))
    · exact Or.inr (Or.inr (Or.inr (Or.inr (Or.inr h))))

/-- The arguments of a recorded heal or hit. -/
theorem recorded_args {env : Env} {t : Bool} {targetUuid : Long} {d : SyncDamageInfo}
    {c : StoreCall} {actorId skillId amount hpLessen : Int} {crit lucky : Bool}
    (hc : c ∈ damageCalls env t targetUuid d)
    (hrec : c = .addHealing actorId amount crit lucky ∨
      c = .addDamage actorId skillId amount crit lucky hpLessen) :
    amount = (damageOf d).toNumber ∧ crit = isCritOf d ∧ lucky = d.LuckyValue.isSome ∧
      ∃ aRaw, attackerOf d = some aRaw ∧ isUuidPlayer aRaw = true ∧
        actorId = (aRaw.shiftRight 16).toNumber := by
  obtain ⟨sk, aRaw, -, -, ha, -, h⟩ := damageCalls_inv hc
  rcases h with ⟨h1, -, -, hp⟩ | ⟨h1, -⟩ | ⟨h1, -, -, hp⟩ | ⟨r, -, h1, -⟩ | ⟨h1, -⟩ | ⟨h1, -⟩ <;>
    rcases hrec with h2 | h2 <;> rw [h2] at h1 <;> simp at h1
  · exact ⟨h1.2.1, h1.2.2.1, h1.2.2.2, aRaw, ha, hp, h1.1⟩
  · exact ⟨h1.2.2.1, h1.2.2.2.1, h1.2.2.2.2.1, aRaw, ha, hp, h1.1⟩

/-- C11: in a call of `addHealing` or `addDamage` the crit argument is true iff `TypeFlag` is
present and odd (bit 0 set), so it is false when `TypeFlag` is absent; the field `IsCrit`
and the other bits of `TypeFlag` change no store call. -/
theorem crit_from_type_flag (env : Env) (t : Bool) (targetUuid : Long) (d : SyncDamageInfo)
    (c : StoreCall) (actorId skillId amount hpLessen : Int) (crit lucky : Bool)
    (otherIsCrit : Option Bool) (otherFlag : Int)
    (hc : c ∈ damageCalls env t targetUuid d)
    (hrec : c = .addHealing actorId amount crit lucky ∨
      c = .addDamage actorId skillId amount crit lucky hpLessen) :
    (crit = true ↔ ∃ f, d.TypeFlag = some f ∧ f % 2 = 1) ∧
    (d.TypeFlag = none → crit = false) ∧
    damageCalls env t targetUuid { d with IsCrit := otherIsCrit } =
      damageCalls env t targetUuid d ∧
    (∀ f, d.TypeFlag = some f → f % 2 = otherFlag % 2 →
      damageCalls env t targetUuid { d with TypeFlag := some otherFlag } =
        damageCalls env t targetUuid d) := by
  have hcrit : crit = isCritOf d := (recorded_args hc hrec).2.1
  refine ⟨?_, ?_, rfl, ?_⟩
  · rw [hcrit]
    unfold isCritOf
    cases d.TypeFlag with
    | none => simp
    | some f => simp
  · intro hnone
    rw [hcrit]
    simp [isCritOf, hnone]
  · intro f hf hpar
    have h1 : isCritOf { d with TypeFlag := some otherFlag } = isCritOf d := by
      simp [isCritOf, hf, hpar]
    simp only [damageCalls, attackerOf, damageOf, isHealOf, hpLessenOf, h1]

theorem crit_from_type_flag_witness :
    (true = true ↔ ∃ f, critHit.TypeFlag = some f ∧ f % 2 = 1) ∧
    damageCalls sampleEnv false { bits := 9 } { critHit with IsCrit := some true } =
      damageCalls sampleEnv false { bits := 9 } critHit :=
  have h := crit_from_type_flag sampleEnv false { bits := 9 } critHit
    (.addDamage 3 1241 500 true false 450) 3 1241 500 450 true false (some true) 7
    (by decide) (Or.inr rfl)
  ⟨h.1, h.2.2.1⟩

theorem processSyncNearDeltaInfo_single (env : Env) (payload : Option Buffer) (s : State)
    (delta : AoiSyncDelta)
    (hdec : env.decodeSyncNearDeltaInfo payload = some { DeltaInfos := some [delta] }) :
    processSyncNearDeltaInfo env payload s =
      .returned { s with calls := s.calls ++ aoiSyncDeltaCalls env (some delta) } := by
  simp [processSyncNearDeltaInfo, hdec, processAoiSyncDelta]

/-- C12 (as amended): a sync-near payload with one delta record whose target is a player and
whose only damage sub-record is a heal by a player with a skill id that is present and not
zero, a non-zero primary value `v`, no lucky value and no type flag makes exactly one
record call, `addHealing(actor >> 16, v, false, false)`: no `addDamage`, no
`addTakenDamage`.  The other calls are the role update, if the skill has a role, and the
two look-ups for the log line. -/
theorem heal_scenario (env : Env) (payload : Option Buffer) (s : State) (targetRaw : Long)
    (d : SyncDamageInfo) (skillId : Int) (actorRaw v : Long)
    (hdec : env.decodeSyncNearDeltaInfo payload = some (singleRecord targetRaw d))
    (htarget : isUuidPlayer targetRaw = true) (hskill : d.OwnerId = some skillId)
    (hne : skillId ≠ 0) (hactor : attackerOf d = some actorRaw)
    (hplayer : isUuidPlayer actorRaw = true) (hheal : d.Type_ = some env.EDamageType_Heal)
    (hvalue : d.Value = some v) (hv : v.isZero = false) (hlucky : d.LuckyValue = none)
    (hflag : d.TypeFlag = none) :
    processSyncNearDeltaInfo env payload s =
      .returned { s with calls := s.calls ++
        (StoreCall.addHealing (actorRaw.shiftRight 16).toNumber v.toNumber false false ::
          roleCalls (actorRaw.shiftRight 16).toNumber skillId ++
          [.getUser (actorRaw.shiftRight 16).toNumber,
            .getUser (targetRaw.shiftRight 16).toNumber]) } ∧
    ((processSyncNearDeltaInfo env payload s).state.calls.drop s.calls.length).filter
        StoreCall.isRecord =
      [.addHealing (actorRaw.shiftRight 16).toNumber v.toNumber false false] := by
  have hd : damageOf d = v := damageOf_value hvalue
  have hcalls : aoiSyncDeltaCalls env
      (some { Uuid := some targetRaw, SkillEffects := some { Damages := some [d] } }) =
      StoreCall.addHealing (actorRaw.shiftRight 16).toNumber v.toNumber false false ::
        roleCalls (actorRaw.shiftRight 16).toNumber skillId ++
        [.getUser (actorRaw.shiftRight 16).toNumber,
          .getUser (targetRaw.shiftRight 16).toNumber] := by
    simp only [aoiSyncDeltaCalls, List.map_cons, List.map_nil, List.flatten_cons,
      List.flatten_nil, List.append_nil]
    rw [damageCalls_of_classified env _ _ d skillId actorRaw hskill hne hactor (by rw [hd]; exact hv)]
    simp [routeEvent, logLookups, roleCalls, htarget, hplayer, isHealOf, hheal, hd, isCritOf,
      hflag, hlucky]
  rw [processSyncNearDeltaInfo_single env payload s _ hdec, singleDelta, hcalls]
  refine ⟨rfl, ?_⟩
  simp only [Outcome.state, List.drop_left]
  unfold roleCalls
  cases getRoleFromSkill skillId <;> simp [List.filter, StoreCall.isRecord]

theorem heal_scenario_witness :
    processSyncNearDeltaInfo decodingEnv none {} =
      .returned { calls := [.addHealing 3 1000 false false, .getUser 3, .getUser 7] } :=
  (heal_scenario decodingEnv none {} { bits := 459392 } healByPlayer 7
    { bits := 196608 + 640 } { bits := 1000 } rfl (by decide) rfl (by decide) rfl (by decide)
    rfl rfl (by decide) rfl rfl).1

/-- C12 (as stated, refuted): the heal `zeroSkillHeal` has a skill id (0), a player target, a
player actor, the heal type, the non-zero primary value 1000, no lucky value and no type
flag, and no call at all is made for it: `if (!skillId) continue` skips a skill id of 0.
The same record with skill id 7 is recorded by `addHealing`. -/
theorem heal_with_skill_zero_not_recorded :
    zeroSkillHeal.OwnerId = some 0 ∧
    isUuidPlayer { bits := 459392 } = true ∧
    attackerOf zeroSkillHeal = some { bits := 196608 + 640 } ∧
    isUuidPlayer { bits := 196608 + 640 } = true ∧
    zeroSkillHeal.Type_ = some zeroSkillHealEnv.EDamageType_Heal ∧
    zeroSkillHeal.Value = some { bits := 1000 } ∧
    Long.isZero { bits := 1000 } = false ∧
    zeroSkillHeal.LuckyValue = none ∧ zeroSkillHeal.TypeFlag = none ∧
    processSyncNearDeltaInfo zeroSkillHealEnv (some []) {} = .returned {} ∧
    processSyncNearDeltaInfo decodingEnv (some []) {} =
      .returned { calls := [.addHealing 3 1000 false false, .getUser 3, .getUser 7] } := by
  refine ⟨rfl, by decide, rfl, by decide, rfl, rfl, by decide, rfl, rfl, by decide, by decide⟩

/-- C13 (as amended): a sync-near payload with one delta record whose target is not a player
and whose only damage sub-record is a non-heal hit by a player with a skill id `s` that is
present and not zero, a non-zero primary value `v`, no lucky value, an odd type flag and
HP reduction `h` makes exactly one record call, `addDamage(actor >> 16, s, v, true, false,
h)`: no `addHealing`, no `addTakenDamage`.  The other calls are the role update, if the
skill has a role, and the look-up of the actor for the log line. -/
theorem damage_scenario (env : Env) (payload : Option Buffer) (s : State) (targetRaw : Long)
    (d : SyncDamageInfo) (skillId typeFlag : Int) (actorRaw v h : Long)
    (hdec : env.decodeSyncNearDeltaInfo payload = some (singleRecord targetRaw d))
    (htarget : isUuidPlayer targetRaw = false) (hskill : d.OwnerId = some skillId)
    (hne : skillId ≠ 0) (hactor : attackerOf d = some actorRaw)
    (hplayer : isUuidPlayer actorRaw = true) (hheal : d.Type_ ≠ some env.EDamageType_Heal)
    (hvalue : d.Value = some v) (hv : v.isZero = false) (hlucky : d.LuckyValue = none)
    (hflag : d.TypeFlag = some typeFlag) (hbit : typeFlag % 2 = 1)
    (hhp : d.HpLessenValue = some h) :
    processSyncNearDeltaInfo env payload s =
      .returned { s with calls := s.calls ++
        (StoreCall.addDamage (actorRaw.shiftRight 16).toNumber skillId v.toNumber true false
            h.toNumber ::
          roleCalls (actorRaw.shiftRight 16).toNumber skillId ++
          [.getUser (actorRaw.shiftRight 16).toNumber]) } ∧
    ((processSyncNearDeltaInfo env payload s).state.calls.drop s.calls.length).filter
        StoreCall.isRecord =
      [.addDamage (actorRaw.shiftRight 16).toNumber skillId v.toNumber true false
        h.toNumber] := by
  have hd : damageOf d = v := damageOf_value hvalue
  have hcalls : aoiSyncDeltaCalls env
      (some { Uuid := some targetRaw, SkillEffects := some { Damages := some [d] } }) =
      StoreCall.addDamage (actorRaw.shiftRight 16).toNumber skillId v.toNumber true false
          h.toNumber ::
        roleCalls (actorRaw.shiftRight 16).toNumber skillId ++
        [.getUser (actorRaw.shiftRight 16).toNumber] := by
    simp only [aoiSyncDeltaCalls, List.map_cons, List.map_nil, List.flatten_cons,
      List.flatten_nil, List.append_nil]
    rw [damageCalls_of_classified env _ _ d skillId actorRaw hskill hne hactor (by rw [hd]; exact hv)]
    simp [routeEvent, logLookups, roleCalls, htarget, hplayer, isHealOf, hheal, hd, isCritOf,
      hflag, hbit, hlucky, hpLessenOf, hhp]
  rw [processSyncNearDeltaInfo_single env payload s _ hdec, singleDelta, hcalls]
  refine ⟨rfl, ?_⟩
  simp only [Outcome.state, List.drop_left]
  unfold roleCalls
  cases getRoleFromSkill skillId <;> simp [List.filter, StoreCall.isRecord]

theorem damage_scenario_witness :
    processSyncNearDeltaInfo damageEnv none {} =
      .returned { calls := [.addDamage 3 1241 500 true false 450, .setProfession 3 "射线",
        .getUser 3] } :=
  (damage_scenario damageEnv none {} { bits := 589825 } critHit 1241 1
    { bits := 196608 + 640 } { bits := 500 } { bits := 450 } rfl (by decide) rfl (by decide)
    rfl (by decide) (by decide) rfl (by decide) rfl rfl (by decide) rfl).1

/-- C13 (as stated, refuted): the hit `zeroSkillHit` has a skill id (0), a non-player target,
a player actor, a type other than heal, the non-zero primary value 500, no lucky value,
the odd type flag 1 and the HP reduction 450, and no call at all is made for it:
`if (!skillId) continue` skips a skill id of 0.  The same record with skill id 1241 is
recorded by `addDamage`. -/
theorem hit_with_skill_zero_not_recorded :
    zeroSkillHit.OwnerId = some 0 ∧
    isUuidPlayer { bits := 589825 } = false ∧
    attackerOf zeroSkillHit = some { bits := 196608 + 640 } ∧
    isUuidPlayer { bits := 196608 + 640 } = true ∧
    zeroSkillHit.Type_ ≠ some zeroSkillHitEnv.EDamageType_Heal ∧
    zeroSkillHit.Value = some { bits := 500 } ∧
    Long.isZero { bits := 500 } = false ∧
    zeroSkillHit.LuckyValue = none ∧ zeroSkillHit.TypeFlag = some 1 ∧
    zeroSkillHit.HpLessenValue = some { bits := 450 } ∧
    processSyncNearDeltaInfo zeroSkillHitEnv (some []) {} = .returned {} ∧
    processSyncNearDeltaInfo damageEnv (some []) {} =
      .returned { calls := [.addDamage 3 1241 500 true false 450, .setProfession 3 "射线",
        .getUser 3] } := by
  refine ⟨rfl, by decide, rfl, by decide, by decide, rfl, by decide, rfl, rfl, rfl, by decide,
    by decide⟩

/-- C18: `setProfession(actorId, role)` is among the calls made for a damage sub-record iff
the record has a skill id that `SKILL_TO_ROLE_MAP` maps to `role` and the event is
recorded by `addHealing` or `addDamage` with that same `actorId`; so a skill id without a
role gives no `setProfession` call (and nothing raises: the calls are a plain list). -/
theorem role_update_iff (env : Env) (t : Bool) (targetUuid : Long) (d : SyncDamageInfo)
    (actorId : Int) (role : String) :
    (StoreCall.setProfession actorId role ∈ damageCalls env t targetUuid d ↔
      ∃ skillId, d.OwnerId = some skillId ∧ SKILL_TO_ROLE_MAP.lookup skillId = some role ∧
        ((∃ amount crit lucky,
            StoreCall.addHealing actorId amount crit lucky ∈ damageCalls env t targetUuid d) ∨
          (∃ amount crit lucky hpLessen,
            StoreCall.addDamage actorId skillId amount crit lucky hpLessen ∈
              damageCalls env t targetUuid d))) ∧
    (∀ skillId, d.OwnerId = some skillId → SKILL_TO_ROLE_MAP.lookup skillId = none →
      ∀ id name, StoreCall.setProfession id name ∉ damageCalls env t targetUuid d) := by
  constructor
  · constructor
    · intro hc
      obtain ⟨sk, aRaw, hs, hne, ha, hz, h⟩ := damageCalls_inv hc
      rcases h with ⟨h1, -⟩ | ⟨h1, -⟩ | ⟨h1, -⟩ | ⟨r, hr, h1, hp, hth⟩ | ⟨h1, -⟩ | ⟨h1, -⟩ <;>
        simp at h1
      obtain ⟨rfl, rfl⟩ := h1
      refine ⟨sk, hs, hr, ?_⟩
      rw [damageCalls_of_classified env t targetUuid d sk aRaw hs hne ha hz, hp, ← hth]
      cases t
      · exact Or.inr ⟨(damageOf d).toNumber, isCritOf d, d.LuckyValue.isSome,
          (hpLessenOf d).toNumber, by simp [routeEvent]⟩
      · exact Or.inl ⟨(damageOf d).toNumber, isCritOf d, d.LuckyValue.isSome,
          by simp [routeEvent]⟩
    · rintro ⟨skillId, hs, hr, hrec⟩
      have hmem : ∀ (c : StoreCall) (amount hpLessen : Int) (crit lucky : Bool),
          c ∈ damageCalls env t targetUuid d →
          (c = .addHealing actorId amount crit lucky ∨
            c = .addDamage actorId skillId amount crit lucky hpLessen) →
          StoreCall.setProfession actorId role ∈ damageCalls env t targetUuid d := by
        intro c amount hpLessen crit lucky hc hrc
        obtain ⟨sk, aRaw, hs', hne, ha, hz, h⟩ := damageCalls_inv hc
        have hsk : sk = skillId := by rw [hs] at hs'; exact (Option.some.inj hs').symm
        subst hsk
        rw [damageCalls_of_classified env t targetUuid d sk aRaw hs hne ha hz]
        rcases h with ⟨h1, ht, hh, hp⟩ | ⟨h1, -⟩ | ⟨h1, ht, hh, hp⟩ | ⟨r, -, h1, -⟩ |
            ⟨h1, -⟩ | ⟨h1, -⟩ <;>
          rcases hrc with h2 | h2 <;> rw [h2] at h1 <;> simp at h1
        · rw [ht, hh, hp, h1.1]
          simp [routeEvent, getRoleFromSkill, hr]
        · rw [ht, hh, hp, h1.1]
          simp [routeEvent, getRoleFromSkill, hr]
      rcases hrec with ⟨amount, crit, lucky, hc⟩ | ⟨amount, crit, lucky, hpLessen, hc⟩
      · exact hmem _ amount 0 crit lucky hc (Or.inl rfl)
      · exact hmem _ amount hpLessen crit lucky hc (Or.inr rfl)
  · intro skillId hs hnone id name hc
    obtain ⟨sk, aRaw, hs', -, -, -, h⟩ := damageCalls_inv hc
    have hsk : sk = skillId := by rw [hs] at hs'; exact (Option.some.inj hs').symm
    subst hsk
    rcases h with ⟨h1, -⟩ | ⟨h1, -⟩ | ⟨h1, -⟩ | ⟨r, hr, h1, -⟩ | ⟨h1, -⟩ | ⟨h1, -⟩ <;>
      simp at h1
    simp [getRoleFromSkill, hnone] at hr

theorem role_update_iff_witness :
    StoreCall.setProfession 3 "射线" ∈ damageCalls sampleEnv false { bits := 9 } critHit :=
  (role_update_iff sampleEnv false { bits := 9 } critHit 3 "射线").1.2
    ⟨1241, rfl, by decide, Or.inr ⟨500, true, false, 450, by decide⟩⟩

/-! ## Fixed-width reads -/

theorem beValue_lt (xs : List Byte) : beValue xs < 256 ^ xs.length := by
  induction xs with
  | nil => simp [beValue]
  | cons x xs ih =>
    simp only [beValue, List.length_cons, pow_succ]
    have hx := x.isLt
    nlinarith [Nat.zero_le (256 ^ xs.length)]

theorem beBytes_mod (w n : Nat) : beBytes w (n % 256 ^ w) = beBytes w n := by
  induction w generalizing n with
  | zero => rfl
  | succ w ih =>
    simp only [beBytes, List.cons.injEq, Fin.mk.injEq]
    constructor
    · have hpos : 0 < 256 ^ w := by positivity
      rw [pow_succ, Nat.mod_mul, Nat.add_comm, Nat.mul_add_div hpos,
        Nat.div_eq_of_lt (Nat.mod_lt _ hpos), Nat.add_zero, Nat.mod_mod]
    · rw [← ih (n % 256 ^ (w + 1)), ← ih n, pow_succ, Nat.mod_mul_right_mod]

theorem beBytes_beValue (xs : List Byte) : beBytes xs.length (beValue xs) = xs := by
  induction xs with
  | nil => rfl
  | cons x xs ih =>
    have hlt := beValue_lt xs
    have hpos : 0 < 256 ^ xs.length := by positivity
    simp only [beValue, List.length_cons, beBytes, List.cons.injEq]
    constructor
    · apply Fin.ext
      simp only
      rw [Nat.mul_comm, Nat.mul_add_div hpos, Nat.div_eq_of_lt hlt, Nat.add_zero]
      exact Nat.mod_eq_of_lt x.isLt
    · rw [← beBytes_mod, Nat.add_comm, Nat.add_mul_mod_self_right, Nat.mod_eq_of_lt hlt]
      exact ih

/-- C16: with at least `n` unread bytes (`n` = 2, 4, 8 for 16, 32, 64 bits), the peek returns
the big-endian unsigned value of the next `n` bytes (the number below `2^(8n)` whose `n`
big-endian bytes they are) and leaves the reader as it is; the read returns the same value
and a reader whose offset is `n` higher, so that `remaining()` is `n` lower. -/
theorem fixed_width_reads (r : BinaryReader) (n : Nat) (hn : n = 2 ∨ n = 4 ∨ n = 8)
    (hlen : r.offset + n ≤ r.buffer.length) :
    ((r.buffer.drop r.offset).take n).length = n ∧
    beValue ((r.buffer.drop r.offset).take n) < 2 ^ (8 * n) ∧
    beBytes n (beValue ((r.buffer.drop r.offset).take n)) = (r.buffer.drop r.offset).take n ∧
    (n = 2 → r.peekUInt16 = some (beValue ((r.buffer.drop r.offset).take n)) ∧
      r.readUInt16 = some (beValue ((r.buffer.drop r.offset).take n),
        { buffer := r.buffer, offset := r.offset + 2 })) ∧
    (n = 4 → r.peekUInt32 = some (beValue ((r.buffer.drop r.offset).take n)) ∧
      r.readUInt32 = some (beValue ((r.buffer.drop r.offset).take n),
        { buffer := r.buffer, offset := r.offset + 4 })) ∧
    (n = 8 → r.peekUInt64 = some (beValue ((r.buffer.drop r.offset).take n)) ∧
      r.readUInt64 = some (beValue ((r.buffer.drop r.offset).take n),
        { buffer := r.buffer, offset := r.offset + 8 })) ∧
    BinaryReader.remaining { buffer := r.buffer, offset := r.offset + n } = r.remaining - n := by
  have hl : ((r.buffer.drop r.offset).take n).length = n := by
    rw [List.length_take, List.length_drop]
    omega
  have hlt := beValue_lt ((r.buffer.drop r.offset).take n)
  rw [hl] at hlt
  have hpow : (256 : Nat) ^ n = 2 ^ (8 * n) := by
    rw [pow_mul]
    norm_num
  have hbytes := beBytes_beValue ((r.buffer.drop r.offset).take n)
  rw [hl] at hbytes
  refine ⟨hl, by rw [← hpow]; exact hlt, hbytes, ?_, ?_, ?_, ?_⟩
  · intro h2
    subst h2
    simp [BinaryReader.peekUInt16, BinaryReader.readUInt16, Buffer.readUInt16BE, Buffer.readBE,
      hlen]
  · intro h4
    subst h4
    simp [BinaryReader.peekUInt32, BinaryReader.readUInt32, Buffer.readUInt32BE, Buffer.readBE,
      hlen]
  · intro h8
    subst h8
    simp [BinaryReader.peekUInt64, BinaryReader.readUInt64, Buffer.readBigUInt64BE,
      Buffer.readBE, hlen]
  · simp only [BinaryReader.remaining]
    push_cast
    ring

theorem fixed_width_reads_witness :
    BinaryReader.peekUInt16 { buffer := [0x12, 0x34, 0x56, 0x78], offset := 1 } =
        some (beValue (([0x12, 0x34, 0x56, 0x78] : Buffer).drop 1 |>.take 2)) ∧
    BinaryReader.readUInt16 { buffer := [0x12, 0x34, 0x56, 0x78], offset := 1 } =
        some (beValue (([0x12, 0x34, 0x56, 0x78] : Buffer).drop 1 |>.take 2),
          { buffer := [0x12, 0x34, 0x56, 0x78], offset := 1 + 2 }) :=
  (fixed_width_reads { buffer := [0x12, 0x34, 0x56, 0x78], offset := 1 } 2 (Or.inl rfl)
    (by decide)).2.2.2.1 rfl

/-! ## The current player identity -/

theorem Long.eq_iff_toBigInt (x y : Long) (hx : x.bits < 2 ^ 64) (hy : y.bits < 2 ^ 64) :
    x.eq y = true ↔ x.toBigInt = y.toBigInt := by
  unfold Long.eq Long.toBigInt
  by_cases hx63 : x.bits < 2 ^ 63 <;> by_cases hy63 : y.bits < 2 ^ 63 <;>
    cases x.unsigned <;> cases y.unsigned <;>
    simp [hx63, hy63] <;>
    omega

theorem Long.eq_self (x : Long) : x.eq x = true := by
  simp [Long.eq]

theorem processAoiSyncDelta_currentUserUuid (env : Env) (delta : Option AoiSyncDelta)
    (s : State) : (processAoiSyncDelta env delta s).currentUserUuid = s.currentUserUuid := rfl

theorem foldl_processAoiSyncDelta_currentUserUuid (env : Env) (deltas : List AoiSyncDelta)
    (s : State) :
    (deltas.foldl (fun st delta => processAoiSyncDelta env (some delta) st) s).currentUserUuid =
      s.currentUserUuid := by
  induction deltas generalizing s with
  | nil => rfl
  | cons delta rest ih => simp only [List.foldl_cons]; rw [ih]; rfl

theorem processSyncNearDeltaInfo_currentUserUuid (env : Env) (payload : Option Buffer)
    (s : State) :
    (processSyncNearDeltaInfo env payload s).state.currentUserUuid = s.currentUserUuid := by
  unfold processSyncNearDeltaInfo
  cases env.decodeSyncNearDeltaInfo payload with
  | none => rfl
  | some msg =>
    cases h : msg.DeltaInfos with
    | none => simp [h, Outcome.state]
    | some deltas =>
      simp only [h, Outcome.state]
      exact foldl_processAoiSyncDelta_currentUserUuid env deltas s

theorem forEach_currentUserUuid {α : Type} (turn : α → State → Outcome State)
    (hturn : ∀ x st, (turn x st).state.currentUserUuid = st.currentUserUuid) (xs : List α)
    (s : State) : (forEach turn xs s).state.currentUserUuid = s.currentUserUuid := by
  induction xs generalizing s with
  | nil => rfl
  | cons x xs ih =>
    unfold forEach
    have h := hturn x s
    cases hx : turn x s with
    | returned s' =>
      rw [hx] at h
      simp only
      rw [ih s']
      exact h
    | threw s' =>
      rw [hx] at h
      exact h

theorem processEntity_currentUserUuid (env : Env) (entity : Entity) (s : State) :
    (processEntity env entity s).state.currentUserUuid = s.currentUserUuid := by
  unfold processEntity
  split_ifs
  · rfl
  · cases entity.Uuid with
    | none => rfl
    | some playerRaw =>
      simp only
      cases entity.Attrs with
      | none => rfl
      | some attrCollection =>
        simp only
        cases attrCollection.Attrs with
        | none => rfl
        | some attrs =>
          simp only
          apply forEach_currentUserUuid
          intro attr st
          unfold processAttr
          cases attrCall env (playerRaw.shiftRight 16) attr <;> rfl

theorem processSyncNearEntities_currentUserUuid (env : Env) (payload : Option Buffer)
    (s : State) :
    (processSyncNearEntities env payload s).state.currentUserUuid = s.currentUserUuid := by
  unfold processSyncNearEntities
  cases env.decodeSyncNearEntities payload with
  | none => rfl
  | some msg =>
    simp only
    cases msg.Appear with
    | none => rfl
    | some appear =>
      exact forEach_currentUserUuid _ (processEntity_currentUserUuid env) appear s

theorem processNotifyMsg_currentUserUuid (env : Env) (reader : BinaryReader) (z : Nat)
    (s : State)
    (h : (processNotifyMsg env reader z s).state.currentUserUuid ≠ s.currentUserUuid) :
    Buffer.readUInt32BE reader.buffer (reader.offset + 8 + 4) =
      some NotifyMethod.SyncToMeDeltaInfo := by
  unfold processNotifyMsg at h
  simp only [BinaryReader.readUInt64, BinaryReader.readUInt32] at h
  cases h64 : Buffer.readBigUInt64BE reader.buffer reader.offset with
  | none => simp [h64, Outcome.state] at h
  | some svc =>
    simp only [h64] at h
    cases hstub : Buffer.readUInt32BE reader.buffer (reader.offset + 8) with
    | none => simp [hstub, Outcome.state] at h
    | some stub =>
      simp only [hstub] at h
      cases hm : Buffer.readUInt32BE reader.buffer (reader.offset + 8 + 4) with
      | none => simp [hm, Outcome.state] at h
      | some methodId =>
        simp only [hm] at h
        by_cases hsvc : svc = 0x0000000063335342
        · simp only [hsvc, ne_eq, not_true_eq_false, if_false] at h
          cases hdec : (if z ≠ 0 then decompressPayload env
              (BinaryReader.readRemaining
                { buffer := reader.buffer, offset := reader.offset + 8 + 4 + 4 }).1
              else some (some (BinaryReader.readRemaining
                { buffer := reader.buffer, offset := reader.offset + 8 + 4 + 4 }).1)) with
          | none =>
            simp only [hdec] at h
            exact absurd rfl h
          | some payload =>
            simp only [hdec] at h
            by_cases h1 : methodId = NotifyMethod.SyncNearEntities
            · rw [if_pos h1] at h
              exact absurd (processSyncNearEntities_currentUserUuid env payload s) h
            · rw [if_neg h1] at h
              by_cases h2 : methodId = NotifyMethod.SyncToMeDeltaInfo
              · rw [h2]
              · rw [if_neg h2] at h
                by_cases h3 : methodId = NotifyMethod.SyncNearDeltaInfo
                · rw [if_pos h3] at h
                  exact absurd (processSyncNearDeltaInfo_currentUserUuid env payload s) h
                · rw [if_neg h3] at h
                  exact absurd rfl h
        · rw [if_pos hsvc] at h
          exact absurd rfl h

/-- C17: a sync-to-me payload whose wrapper carries the identity `u` leaves
`currentUserUuid` equal to `u` (as `Long.eq` and as a value); the variable is written, with
`u`, only when it was not equal to `u` before.  A wrapper without identity leaves it as it
was, and so do `_processAoiSyncDelta`, `_processSyncNearDeltaInfo`,
`_processSyncNearEntities` and every notification whose method id is not sync-to-me. -/
theorem current_user_uuid_writes (env : Env) (payload : Option Buffer) (s : State)
    (wrapper : AoiSyncToMeDelta) (u : Long)
    (hdec : env.decodeSyncToMeDeltaInfo payload = some { DeltaInfo := some wrapper })
    (hu : u.bits < 2 ^ 64) (hcur : s.currentUserUuid.bits < 2 ^ 64) :
    (wrapper.Uuid = some u →
      (processSyncToMeDeltaInfo env payload s).state.currentUserUuid.eq u = true ∧
      (processSyncToMeDeltaInfo env payload s).state.currentUserUuid.toBigInt = u.toBigInt ∧
      (s.currentUserUuid.eq u = true →
        (processSyncToMeDeltaInfo env payload s).state.currentUserUuid = s.currentUserUuid) ∧
      (s.currentUserUuid.eq u = false →
        (processSyncToMeDeltaInfo env payload s).state.currentUserUuid = u)) ∧
    (wrapper.Uuid = none →
      (processSyncToMeDeltaInfo env payload s).state.currentUserUuid = s.currentUserUuid) ∧
    (∀ (delta : Option AoiSyncDelta) (st : State),
      (processAoiSyncDelta env delta st).currentUserUuid = st.currentUserUuid) ∧
    (∀ (p : Option Buffer) (st : State),
      (processSyncNearDeltaInfo env p st).state.currentUserUuid = st.currentUserUuid) ∧
    (∀ (p : Option Buffer) (st : State),
      (processSyncNearEntities env p st).state.currentUserUuid = st.currentUserUuid) ∧
    (∀ (reader : BinaryReader) (z : Nat) (st : State),
      (processNotifyMsg env reader z st).state.currentUserUuid ≠ st.currentUserUuid →
        Buffer.readUInt32BE reader.buffer (reader.offset + 8 + 4) =
          some NotifyMethod.SyncToMeDeltaInfo) := by
  have hstate : ∀ s1 : State,
      (match wrapper.BaseDelta with
        | none => Outcome.returned s1
        | some aoiSyncDelta =>
          Outcome.returned (processAoiSyncDelta env (some aoiSyncDelta) s1)).state.currentUserUuid =
        s1.currentUserUuid := by
    intro s1
    cases wrapper.BaseDelta <;> rfl
  refine ⟨?_, ?_, processAoiSyncDelta_currentUserUuid env,
    processSyncNearDeltaInfo_currentUserUuid env, processSyncNearEntities_currentUserUuid env,
    processNotifyMsg_currentUserUuid env⟩
  · intro hw
    have hres : (processSyncToMeDeltaInfo env payload s).state.currentUserUuid =
        (if !s.currentUserUuid.eq u then u else s.currentUserUuid) := by
      unfold processSyncToMeDeltaInfo
      simp only [hdec, hw]
      rw [hstate]
      split_ifs <;> rfl
    rw [hres]
    cases heq : s.currentUserUuid.eq u with
    | true =>
      have e : (if (!true) = true then u else s.currentUserUuid) = s.currentUserUuid := rfl
      rw [e]
      exact ⟨heq, (Long.eq_iff_toBigInt _ _ hcur hu).1 heq, fun _ => rfl,
        fun h => Bool.noConfusion h⟩
    | false =>
      have e : (if (!false) = true then u else s.currentUserUuid) = u := rfl
      rw [e]
      exact ⟨Long.eq_self u, rfl, fun h => Bool.noConfusion h, fun _ => rfl⟩
  · intro hw
    unfold processSyncToMeDeltaInfo
    simp only [hdec, hw]
    rw [hstate]

theorem current_user_uuid_writes_witness :
    (processSyncToMeDeltaInfo syncToMeEnv none {}).state.currentUserUuid.eq { bits := 459392 } =
      true ∧
    (processSyncToMeDeltaInfo syncToMeEnv none {}).state.currentUserUuid.toBigInt =
      Long.toBigInt { bits := 459392 } :=
  have h := (current_user_uuid_writes syncToMeEnv none {} { Uuid := some { bits := 459392 } }
    { bits := 459392 } rfl (by decide) (by decide)).1 rfl
  ⟨h.1, h.2.1⟩

/-! ## Nested streams -/

/-- The FrameDown branch of the switch for a frame reader at byte 6 with more than 10
bytes: the bytes from byte 10 on are decompressed if the flag is set and handed to the
nested call; the sequence number is not looked at. -/
theorem dispatch_frameDown (env : Env) (recurse : Option Buffer → State → Option State)
    (ps z : Nat) (r : BinaryReader) (s : State) (hoff : r.offset = 6)
    (hlen : 10 < r.buffer.length) :
    dispatch env recurse ps MessageType.FrameDown z r s =
      match (if z ≠ 0 then decompressPayload env (r.buffer.drop 10)
        else some (some (r.buffer.drop 10))) with
      | none => some (.threw s)
      | some nested =>
        match recurse nested s with
        | none => none
        | some s' => some (.returned s') := by
  have h10 : 6 + 4 ≤ r.buffer.length := by omega
  have hrem : ¬ ((r.buffer.length : Int) - ((6 + 4 : Nat) : Int) = 0) := by omega
  simp only [dispatch, MessageType.FrameDown, MessageType.Notify, MessageType.Return,
    BinaryReader.readUInt32, Buffer.readUInt32BE, Buffer.readBE, hoff, h10, if_true,
    BinaryReader.remaining, BinaryReader.readRemaining, hrem, if_false, Nat.reduceEqDiff,
    Nat.reduceAdd]

theorem encodeFrame_frameDown_drop (seq nested : Buffer) (hseq : seq.length = 4) :
    (encodeFrame (frameDown seq nested)).drop 10 = nested := by
  have h : encodeFrame (frameDown seq nested) =
      (beBytes 4 (6 + (seq ++ nested).length) ++ beBytes 2 (frameDown seq nested).kindField ++
        seq) ++ nested := by
    simp [encodeFrame, frameDown]
  rw [h]
  exact List.drop_left' (by simp [beBytes_length, hseq])

/-- Processing a buffer that holds one uncompressed FrameDown frame is processing the nested
bytes, one level down. -/
theorem processPacket_frameDown (env : Env) (d : Nat) (seq nested : Buffer) (s : State)
    (hseq : seq.length = 4) (hne : nested ≠ []) :
    dispatch env (processPacket env (d + 1)) (6 + (frameDown seq nested).body.length) 6 0
        { buffer := encodeFrame (frameDown seq nested), offset := 6 } s =
      match processPacket env (d + 1) (some nested) s with
      | none => none
      | some s' => some (.returned s') := by
  have hlen : 10 < (encodeFrame (frameDown seq nested)).length := by
    rw [encodeFrame_length]
    have := List.length_pos.2 hne
    simp only [frameDown, List.length_append, hseq]
    omega
  have h := dispatch_frameDown env (processPacket env (d + 1))
    (6 + (frameDown seq nested).body.length) 0
    { buffer := encodeFrame (frameDown seq nested), offset := 6 } s rfl hlen
  simp only [MessageType.FrameDown] at h
  rw [h]
  simp only [ne_eq, not_true_eq_false, if_false, encodeFrame_frameDown_drop seq nested hseq]

/-- C14: a buffer that holds one uncompressed FrameDown frame whose body is a 4-byte sequence
number followed by the complete valid frame `F` is processed exactly as the buffer `F`
alone is (one nesting level down): the switch runs once on `F`, and the result is the
same for every sequence number. -/
theorem frameDown_wrapper (env : Env) (d : Nat) (seq seq' : Buffer) (F : Frame) (s : State)
    (hseq : seq.length = 4) (hseq' : seq'.length = 4) (hF : F.Valid)
    (hv : (frameDown seq (encodeFrame F)).Valid) :
    processPacket env (d + 2) (some (encodeFrame (frameDown seq (encodeFrame F)))) s =
      processPacket env (d + 1) (some (encodeFrame F)) s ∧
    processPacket env (d + 2) (some (encodeFrame (frameDown seq (encodeFrame F)))) s =
      (dispatch env (processPacket env d) (6 + F.body.length) F.kind F.flagBits
        { buffer := encodeFrame F, offset := 6 } s).map Outcome.state ∧
    processPacket env (d + 2) (some (encodeFrame (frameDown seq' (encodeFrame F)))) s =
      processPacket env (d + 2) (some (encodeFrame (frameDown seq (encodeFrame F)))) s := by
  have hne : encodeFrame F ≠ [] := by
    intro h
    have := encodeFrame_length F
    rw [h] at this
    simp at this
    omega
  have key : ∀ q : Buffer, q.length = 4 → (frameDown q (encodeFrame F)).Valid →
      processPacket env (d + 2) (some (encodeFrame (frameDown q (encodeFrame F)))) s =
        processPacket env (d + 1) (some (encodeFrame F)) s := by
    intro q hq hvq
    rw [processPacket_encodeFrame env (d + 1) _ hvq s]
    have hk : (frameDown q (encodeFrame F)).kind = 6 := rfl
    have hz : (frameDown q (encodeFrame F)).flagBits = 0 := rfl
    rw [hk, hz, processPacket_frameDown env d q (encodeFrame F) s hq hne]
    cases processPacket env (d + 1) (some (encodeFrame F)) s <;> rfl
  have hv' : (frameDown seq' (encodeFrame F)).Valid := by
    have h1 := hv.2
    simp only [frameDown, List.length_append, hseq] at h1
    exact ⟨by simp [frameDown], by simp only [frameDown, List.length_append, hseq']; exact h1⟩
  refine ⟨key seq hseq hv, ?_, ?_⟩
  · rw [key seq hseq hv, processPacket_encodeFrame env d F hF s]
  · rw [key seq hseq hv, key seq' hseq' hv']

theorem frameDown_wrapper_witness :
    processPacket decodingEnv 2
        (some (encodeFrame (frameDown [0, 0, 0, 7] (encodeFrame syncNearFrame)))) {} =
      processPacket decodingEnv 1 (some (encodeFrame syncNearFrame)) {} :=
  (frameDown_wrapper decodingEnv 0 [0, 0, 0, 7] [0, 0, 0, 9] syncNearFrame {} rfl rfl
    ⟨by decide, by decide⟩ ⟨by decide, by decide⟩).1

/-- C20: a failure inside the nested stream of a FrameDown frame ends the nested stream
only.  The outer buffer goes on behind the FrameDown frame from the state the nested call
returned: the unchanged state after a nested length below 6, the state at the raise
after a nested raise.  A raise in a Notify frame of the outer buffer ends the outer call
there, whatever frames follow. -/
theorem nested_failure_is_local (env : Env) (d : Nat) (seq nested : Buffer) (rest : List Frame)
    (nf : Frame) (s : State) (hseq : seq.length = 4) (hne : nested ≠ [])
    (hfd : (frameDown seq nested).Valid) (hrest : ∀ f ∈ rest, f.Valid) (hnf : nf.Valid)
    (hk : nf.kind = 2) :
    processPacket env (d + 2) (some (encodeFrames (frameDown seq nested :: rest))) s =
      (processPacket env (d + 1) (some nested) s).bind
        (processPacket env (d + 2) (some (encodeFrames rest))) ∧
    (∀ L, Buffer.readUInt32BE nested 0 = some L → L < 6 →
      processPacket env (d + 2) (some (encodeFrames (frameDown seq nested :: rest))) s =
        processPacket env (d + 2) (some (encodeFrames rest)) s) ∧
    (∀ st, frameLoop (dispatch env (processPacket env d)) (nested.length + 1) nested 0 s =
        some (.threw st) →
      processPacket env (d + 2) (some (encodeFrames (frameDown seq nested :: rest))) s =
        processPacket env (d + 2) (some (encodeFrames rest)) st) ∧
    (∀ st, processNotifyMsg env { buffer := encodeFrame nf, offset := 6 } nf.flagBits s =
        .threw st →
      processPacket env (d + 2) (some (encodeFrames (nf :: rest))) s = some st) := by
  have hA : processPacket env (d + 2) (some (encodeFrames (frameDown seq nested :: rest))) s =
      (processPacket env (d + 1) (some nested) s).bind
        (processPacket env (d + 2) (some (encodeFrames rest))) := by
    have hall : ∀ f ∈ frameDown seq nested :: rest, f.Valid := by
      intro f hf
      rcases List.mem_cons.1 hf with h | h
      · rw [h]; exact hfd
      · exact hrest f h
    rw [processPacket_encodeFrames env (d + 1) _ hall s]
    simp only [runFrames]
    have hk6 : (frameDown seq nested).kind = 6 := rfl
    have hz : (frameDown seq nested).flagBits = 0 := rfl
    rw [hk6, hz, processPacket_frameDown env d seq nested s hseq hne]
    cases processPacket env (d + 1) (some nested) s with
    | none => rfl
    | some s' =>
      simp only [Option.bind]
      rw [processPacket_encodeFrames env (d + 1) rest hrest s']
  refine ⟨hA, ?_, ?_, ?_⟩
  · intro L hL hlt
    have h := frameLoop_short_length (dispatch env (processPacket env d)) nested.length nested 0
      L s hL hlt
    have hn : processPacket env (d + 1) (some nested) s = some s := by
      simp [processPacket, h, Outcome.state]
    rw [hA, hn]
    rfl
  · intro st hthrew
    have hn : processPacket env (d + 1) (some nested) s = some st := by
      simp [processPacket, hthrew, Outcome.state]
    rw [hA, hn]
    rfl
  · intro st hthrew
    have hall : ∀ f ∈ nf :: rest, f.Valid := by
      intro f hf
      rcases List.mem_cons.1 hf with h | h
      · rw [h]; exact hnf
      · exact hrest f h
    rw [processPacket_encodeFrames env (d + 1) _ hall s]
    simp only [runFrames, dispatch, hk, MessageType.Notify, if_true, hthrew]
    rfl

theorem nested_failure_is_local_witness :
    processPacket decodingEnv 2
        (some (encodeFrames [frameDown [0, 0, 0, 7] [0, 0, 0, 5, 9, 9], syncNearFrame])) {} =
      processPacket decodingEnv 2 (some (encodeFrames [syncNearFrame])) {} ∧
    processPacket decodingEnv 2 (some (encodeFrames [shortNotifyFrame, syncNearFrame])) {} =
      some {} :=
  have h := nested_failure_is_local decodingEnv 0 [0, 0, 0, 7] [0, 0, 0, 5, 9, 9]
    [syncNearFrame] shortNotifyFrame {} rfl (by decide) ⟨by decide, by decide⟩
    (by
      intro f hf
      rw [List.mem_singleton] at hf
      rw [hf]
      exact ⟨by decide, by decide⟩)
    ⟨by decide, by decide⟩ rfl
  ⟨h.2.1 5 (by decide) (by decide), h.2.2.2 {} (by decide)⟩

/-! ## Notifications -/

/-- Function `_processNotifyMsg` on a reader that stands at a Notify body. -/
theorem processNotifyMsg_notifyBody (env : Env) (pre payload : Buffer)
    (serviceId stubId methodId z : Nat) (s : State) (hsvc : serviceId < 2 ^ 64)
    (hstub : stubId < 2 ^ 32) (hmethod : methodId < 2 ^ 32) :
    processNotifyMsg env
        { buffer := pre ++ notifyBody serviceId stubId methodId payload, offset := pre.length }
        z s =
      if serviceId ≠ 0x0000000063335342 then .returned s
      else
        match (if z ≠ 0 then decompressPayload env payload else some (some payload)) with
        | none => .threw s
        | some p =>
          if methodId = NotifyMethod.SyncNearEntities then processSyncNearEntities env p s
          else if methodId = NotifyMethod.SyncToMeDeltaInfo then
            processSyncToMeDeltaInfo env p s
          else if methodId = NotifyMethod.SyncNearDeltaInfo then
            processSyncNearDeltaInfo env p s
          else .returned s := by
  have e1 : Buffer.readBigUInt64BE (pre ++ notifyBody serviceId stubId methodId payload)
      pre.length = some serviceId := by
    have h := readBE_append pre (beBytes 8 serviceId)
      (beBytes 4 stubId ++ (beBytes 4 methodId ++ payload))
    rw [beBytes_length, beValue_beBytes, Nat.mod_eq_of_lt (by omega)] at h
    exact h
  have e2 : Buffer.readUInt32BE (pre ++ notifyBody serviceId stubId methodId payload)
      (pre.length + 8) = some stubId := by
    have h := readBE_append (pre ++ beBytes 8 serviceId) (beBytes 4 stubId)
      (beBytes 4 methodId ++ payload)
    rw [beBytes_length, beValue_beBytes, Nat.mod_eq_of_lt (by omega), List.length_append,
      beBytes_length, List.append_assoc] at h
    exact h
  have e3 : Buffer.readUInt32BE (pre ++ notifyBody serviceId stubId methodId payload)
      (pre.length + 8 + 4) = some methodId := by
    have h := readBE_append (pre ++ beBytes 8 serviceId ++ beBytes 4 stubId)
      (beBytes 4 methodId) payload
    rw [beBytes_length, beValue_beBytes, Nat.mod_eq_of_lt (by omega), List.length_append,
      List.length_append, beBytes_length, beBytes_length, List.append_assoc,
      List.append_assoc] at h
    exact h
  have e4 : (pre ++ notifyBody serviceId stubId methodId payload).drop (pre.length + 8 + 4 + 4) =
      payload := by
    have h : pre ++ notifyBody serviceId stubId methodId payload =
        (pre ++ beBytes 8 serviceId ++ beBytes 4 stubId ++ beBytes 4 methodId) ++ payload := by
      simp [notifyBody]
    rw [h]
    exact List.drop_left' (by simp [beBytes_length])
  simp only [processNotifyMsg, BinaryReader.readUInt64, BinaryReader.readUInt32, e1, e2, e3,
    BinaryReader.readRemaining, e4]

/-- C15 (as amended): a Notify body for another service makes `_processNotifyMsg` return
at once, with no store call, whatever the rest.  For the fixed service and a method id
other than `0x06`, `0x2d`, `0x2e` no store call is made either; the call returns unless the
compression flag is set and the zstd routine is there and raises on the payload, in which
case it raises, since the payload is decompressed before the method id is looked at. -/
theorem unknown_notify_is_silent (env : Env) (pre payload : Buffer)
    (serviceId stubId methodId z : Nat) (s : State) (hsvc : serviceId < 2 ^ 64)
    (hstub : stubId < 2 ^ 32) (hmethod : methodId < 2 ^ 32) :
    (serviceId ≠ 0x0000000063335342 →
      processNotifyMsg env
        { buffer := pre ++ notifyBody serviceId stubId methodId payload, offset := pre.length }
        z s = .returned s) ∧
    (serviceId = 0x0000000063335342 → methodId ≠ 0x06 → methodId ≠ 0x2d → methodId ≠ 0x2e →
      (processNotifyMsg env
        { buffer := pre ++ notifyBody serviceId stubId methodId payload, offset := pre.length }
        z s).state = s ∧
      (z = 0 ∨ env.zstdAvailable = false ∨ env.zstdDecompressSync payload ≠ none →
        processNotifyMsg env
          { buffer := pre ++ notifyBody serviceId stubId methodId payload, offset := pre.length }
          z s = .returned s) ∧
      (z ≠ 0 → env.zstdAvailable = true → env.zstdDecompressSync payload = none →
        processNotifyMsg env
          { buffer := pre ++ notifyBody serviceId stubId methodId payload, offset := pre.length }
          z s = .threw s)) := by
  rw [processNotifyMsg_notifyBody env pre payload serviceId stubId methodId z s hsvc hstub
    hmethod]
  constructor
  · intro h
    rw [if_pos h]
  · intro h h1 h2 h3
    have hn : ¬ serviceId ≠ 0x0000000063335342 := fun hc => hc h
    rw [if_neg hn]
    simp only [NotifyMethod.SyncNearEntities, NotifyMethod.SyncToMeDeltaInfo,
      NotifyMethod.SyncNearDeltaInfo, h1, h2, h3, if_false]
    by_cases hz : z = 0
    · simp [hz, Outcome.state]
    · simp only [ne_eq, hz, not_false_eq_true, if_true, false_or]
      unfold decompressPayload
      cases hav : env.zstdAvailable with
      | false => simp [Outcome.state]
      | true =>
        cases hd : env.zstdDecompressSync payload with
        | none => simp [Outcome.state]
        | some out => simp [Outcome.state]

theorem unknown_notify_is_silent_witness :
    processNotifyMsg sampleEnv
        { buffer := [] ++ notifyBody 0x0000000063335342 0 0x99 [1, 2, 3],
          offset := ([] : Buffer).length } 0x8000 {} = .returned {} :=
  ((unknown_notify_is_silent sampleEnv [] [1, 2, 3] 0x0000000063335342 0 0x99 0x8000 {}
    (by decide) (by decide) (by decide)).2 rfl (by decide) (by decide) (by decide)).2.1
    (Or.inr (Or.inl rfl))

/-- C15 (as stated, refuted): a compressed Notify frame for the fixed service with the
unknown method id `0x99` and a payload on which the zstd routine raises.
`_processNotifyMsg` raises (no store call is made), and the raise ends `processPacket` on
the buffer: the sync-near frame behind it, which alone records a heal, is not decoded. -/
theorem unknown_method_raises :
    processNotifyMsg zstdFailingEnv { buffer := encodeFrame unknownMethodFrame, offset := 6 }
        0x8000 {} = .threw {} ∧
    processPacket zstdFailingEnv 1
        (some (encodeFrames [unknownMethodFrame, syncNearFrame])) {} = some {} ∧
    processPacket zstdFailingEnv 1 (some (encodeFrames [syncNearFrame])) {} =
      some { calls := [.addHealing 3 1000 false false, .getUser 3, .getUser 7] } := by
  refine ⟨by decide, by decide, by decide⟩

/-! ## Termination without compressed FrameDown frames -/

/-- One turn of the frame loop gives a result when the switch does on the frame at the
cursor and the loop does from the next frame on. -/
theorem frameLoop_step_ne_none {σ : Type}
    (body : Nat → Nat → Nat → BinaryReader → σ → Option (Outcome σ)) (fuel : Nat)
    (packets : Buffer) (offset : Nat) (s : σ)
    (hbody : ∀ L L' packetType, Buffer.readUInt32BE packets offset = some L → 6 ≤ L →
      Buffer.readUInt16BE (packets.subarray offset (offset + L)) 4 = some packetType →
      body L' (packetType &&& 0x7fff) (packetType &&& 0x8000)
        { buffer := packets.subarray offset (offset + L), offset := 6 } s ≠ none)
    (hrest : ∀ L s', Buffer.readUInt32BE packets offset = some L → 6 ≤ L →
      offset + L < packets.length → frameLoop body fuel packets (offset + L) s' ≠ none) :
    frameLoop body (fuel + 1) packets offset s ≠ none := by
  rw [frameLoop]
  simp only [BinaryReader.peekUInt32, BinaryReader.readBytes, BinaryReader.readUInt32,
    BinaryReader.readUInt16]
  cases h32 : Buffer.readUInt32BE packets offset with
  | none => simp
  | some L =>
    simp only
    by_cases hL : L < 6
    · simp [hL]
    · rw [if_neg hL]
      cases Buffer.readUInt32BE (packets.subarray offset (offset + L)) 0 with
      | none => simp
      | some L' =>
        simp only
        cases h16 : Buffer.readUInt16BE (packets.subarray offset (offset + L)) (0 + 4) with
        | none => simp
        | some packetType =>
          simp only
          have hb := hbody L L' packetType h32 (by omega) h16
          cases hres : body L' (packetType &&& 0x7fff) (packetType &&& 0x8000)
              { buffer := packets.subarray offset (offset + L), offset := 0 + 4 + 2 } s with
          | none => exact absurd hres hb
          | some out =>
            cases out with
            | threw s' => simp
            | returned s' =>
              simp only
              split_ifs with hrem
              · simp only [BinaryReader.remaining] at hrem
                exact hrest L s' h32 (by omega) (by omega)
              · simp

/-- The switch gives a result when the nested call of a FrameDown frame does; the nested
call is made for frames of more than 10 bytes only, on the bytes from byte 10 on (as they
are, or decompressed). -/
theorem dispatch_ne_none_of_nested (env : Env)
    (recurse : Option Buffer → State → Option State) (ps mt z : Nat) (r : BinaryReader)
    (s : State) (hoff : r.offset = 6)
    (hrec : mt = MessageType.FrameDown → 10 < r.buffer.length → ∀ nested,
      (if z ≠ 0 then decompressPayload env (r.buffer.drop 10)
        else some (some (r.buffer.drop 10))) = some nested → recurse nested s ≠ none) :
    dispatch env recurse ps mt z r s ≠ none := by
  intro hd
  by_cases hmt : mt = MessageType.FrameDown
  · subst hmt
    by_cases hlen : 10 < r.buffer.length
    · rw [dispatch_frameDown env recurse ps z r s hoff hlen] at hd
      cases hdec : (if z ≠ 0 then decompressPayload env (r.buffer.drop 10)
          else some (some (r.buffer.drop 10))) with
      | none => simp [hdec] at hd
      | some nested =>
        have hn := hrec rfl hlen nested hdec
        simp only [hdec] at hd
        cases hr : recurse nested s with
        | none => exact hn hr
        | some s' => simp [hr] at hd
    · by_cases h10 : 6 + 4 ≤ r.buffer.length
      · have hlen10 : r.buffer.length = 10 := by omega
        simp [dispatch, MessageType.FrameDown, MessageType.Notify, MessageType.Return,
          BinaryReader.readUInt32, Buffer.readUInt32BE, Buffer.readBE, hoff, hlen10,
          BinaryReader.remaining] at hd
      · simp [dispatch, MessageType.FrameDown, MessageType.Notify, MessageType.Return,
          BinaryReader.readUInt32, Buffer.readUInt32BE, Buffer.readBE, hoff, h10] at hd
  · unfold dispatch at hd
    by_cases h1 : mt = MessageType.Notify
    · rw [if_pos h1] at hd
      exact Option.noConfusion hd
    · by_cases h2 : mt = MessageType.Return
      · rw [if_neg h1, if_pos h2] at hd
        exact Option.noConfusion hd
      · rw [if_neg h1, if_neg h2, if_neg hmt] at hd
        exact Option.noConfusion hd

/-- The frame loop of `processPacket` on a buffer without a compressed FrameDown frame: it
gives a result when the nested call does on every shorter buffer without one. -/
theorem frameLoop_ne_none_of_not_compressed (env : Env)
    (recurse : Option Buffer → State → Option State) (packets : Buffer)
    (hrec : ∀ b, b.length + 10 ≤ packets.length → ¬ HasCompressedFrameDown b 0 →
      ∀ st, recurse (some b) st ≠ none) :
    ∀ (fuel offset : Nat) (s : State), ¬ HasCompressedFrameDown packets offset → 1 ≤ fuel →
      packets.length ≤ offset + 6 * fuel →
      frameLoop (dispatch env recurse) fuel packets offset s ≠ none := by
  intro fuel
  induction fuel with
  | zero => intro offset s _ h1; omega
  | succ fuel ih =>
    intro offset s hno _ hlen
    apply frameLoop_step_ne_none
    · intro L L' packetType hL h6 h16
      apply dispatch_ne_none_of_nested env recurse L' _ _ _ s rfl
      intro hmt hlen10 nested hdec
      have hz : packetType &&& 0x8000 = 0 := by
        by_contra hz
        exact hno (.here packets offset L packetType hL h6 h16 hmt hz)
      rw [if_neg (by simp [hz])] at hdec
      simp only [Option.some.injEq] at hdec
      subst hdec
      refine hrec _ ?_ (fun hn => hno (.nested packets offset L packetType hL h6 h16 hmt hlen10 hn)) s
      have hsub := subarray_length packets offset L
      have hlen10' : 10 < (packets.subarray offset (offset + L)).length := hlen10
      show ((packets.subarray offset (offset + L)).drop 10).length + 10 ≤ packets.length
      rw [List.length_drop]
      omega
    · intro L s' hL h6 hlt
      exact ih (offset + L) s' (fun hn => hno (.later packets offset L hL h6 hlt hn))
        (by omega) (by omega)

/-- Without a compressed FrameDown frame `processPacket` gives a result with every nesting
budget above the length of the buffer. -/
theorem processPacket_ne_none_of_not_compressed (env : Env) :
    ∀ (d : Nat) (buf : Buffer) (s : State), ¬ HasCompressedFrameDown buf 0 → buf.length < d →
      processPacket env d (some buf) s ≠ none := by
  intro d
  induction d with
  | zero => intro buf s _ h; omega
  | succ d ih =>
    intro buf s hno hlen
    have hloop := frameLoop_ne_none_of_not_compressed env (processPacket env d) buf
      (fun b hb hnb st => ih b st hnb (by omega)) (buf.length + 1) 0 s hno (by omega) (by omega)
    simp only [processPacket]
    cases hl : frameLoop (dispatch env (processPacket env d)) (buf.length + 1) buf 0 s with
    | none => exact absurd hl hloop
    | some out => simp

/-- A switch that gives every result of another one gives every result of the loop. -/
theorem frameLoop_mono {σ : Type}
    (b1 b2 : Nat → Nat → Nat → BinaryReader → σ → Option (Outcome σ)) (packets : Buffer)
    (h : ∀ ps mt z r st out, b1 ps mt z r st = some out → b2 ps mt z r st = some out) :
    ∀ (fuel offset : Nat) (s : σ) (out : Outcome σ),
      frameLoop b1 fuel packets offset s = some out →
      frameLoop b2 fuel packets offset s = some out := by
  intro fuel
  induction fuel with
  | zero =>
    intro offset s out h1
    simp [frameLoop] at h1
  | succ fuel ih =>
    intro offset s out h1
    rw [frameLoop] at h1 ⊢
    simp only [BinaryReader.peekUInt32, BinaryReader.readBytes, BinaryReader.readUInt32,
      BinaryReader.readUInt16] at h1 ⊢
    cases h32 : Buffer.readUInt32BE packets offset with
    | none =>
      simp only [h32] at h1 ⊢
      exact h1
    | some L =>
      simp only [h32] at h1 ⊢
      by_cases hL : L < 6
      · rw [if_pos hL] at h1 ⊢
        exact h1
      · rw [if_neg hL] at h1 ⊢
        cases hr32 : Buffer.readUInt32BE (packets.subarray offset (offset + L)) 0 with
        | none =>
          simp only [hr32] at h1 ⊢
          exact h1
        | some L' =>
          simp only [hr32] at h1 ⊢
          cases hr16 : Buffer.readUInt16BE (packets.subarray offset (offset + L)) (0 + 4) with
          | none =>
            simp only [hr16] at h1 ⊢
            exact h1
          | some packetType =>
            simp only [hr16] at h1 ⊢
            cases hb1 : b1 L' (packetType &&& 0x7fff) (packetType &&& 0x8000)
                { buffer := packets.subarray offset (offset + L), offset := 0 + 4 + 2 } s with
            | none => simp [hb1] at h1
            | some o =>
              have hb2 := h _ _ _ _ _ _ hb1
              rw [hb1] at h1
              rw [hb2]
              cases o with
              | threw s' => exact h1
              | returned s' =>
                simp only at h1 ⊢
                by_cases hrem : BinaryReader.remaining
                    { buffer := packets, offset := offset + L } > 0
                · rw [if_pos hrem] at h1 ⊢
                  exact ih (offset + L) s' out h1
                · rw [if_neg hrem] at h1 ⊢
                  exact h1

/-- A nested call that gives every result of another one gives every result of the
switch. -/
theorem dispatch_mono (env : Env) (rec1 rec2 : Option Buffer → State → Option State)
    (h : ∀ nested st s', rec1 nested st = some s' → rec2 nested st = some s')
    (ps mt z : Nat) (r : BinaryReader) (s : State) (out : Outcome State)
    (hd : dispatch env rec1 ps mt z r s = some out) :
    dispatch env rec2 ps mt z r s = some out := by
  unfold dispatch at hd ⊢
  by_cases h1 : mt = MessageType.Notify
  · rw [if_pos h1] at hd ⊢
    exact hd
  · by_cases h2 : mt = MessageType.Return
    · rw [if_neg h1, if_pos h2] at hd ⊢
      exact hd
    · by_cases h3 : mt = MessageType.FrameDown
      · rw [if_neg h1, if_neg h2, if_pos h3] at hd ⊢
        cases hr : r.readUInt32 with
        | none =>
          simp only [hr] at hd ⊢
          exact hd
        | some p =>
          obtain ⟨v, r'⟩ := p
          simp only [hr] at hd ⊢
          by_cases hrem : r'.remaining = 0
          · rw [if_pos hrem] at hd ⊢
            exact hd
          · rw [if_neg hrem] at hd ⊢
            cases hdec : (if z ≠ 0 then decompressPayload env r'.readRemaining.1
                else some (some r'.readRemaining.1)) with
            | none =>
              simp only [hdec] at hd ⊢
              exact hd
            | some nested =>
              simp only [hdec] at hd ⊢
              cases hn : rec1 nested s with
              | none => simp [hn] at hd
              | some s' =>
                rw [hn] at hd
                rw [h nested s s' hn]
                exact hd
      · rw [if_neg h1, if_neg h2, if_neg h3] at hd ⊢
        exact hd

theorem processPacket_succ_some (env : Env) (d : Nat) (buf : Buffer) (s : State) :
    processPacket env (d + 1) (some buf) s =
      match frameLoop (dispatch env (processPacket env d)) (buf.length + 1) buf 0 s with
      | none => none
      | some out => some out.state := rfl

/-- A larger nesting budget changes no result of `processPacket`. -/
theorem processPacket_mono (env : Env) :
    ∀ (d : Nat) (packets : Option Buffer) (s s' : State),
      processPacket env d packets s = some s' → processPacket env (d + 1) packets s = some s' := by
  intro d
  induction d with
  | zero =>
    intro packets s s' h
    simp [processPacket] at h
  | succ d ih =>
    intro packets s s' h
    cases packets with
    | none =>
      simp only [processPacket] at h ⊢
      exact h
    | some buf =>
      rw [processPacket_succ_some] at h ⊢
      cases hl : frameLoop (dispatch env (processPacket env d)) (buf.length + 1) buf 0 s with
      | none => simp [hl] at h
      | some out =>
        have hl2 := frameLoop_mono _ (dispatch env (processPacket env (d + 1))) buf
          (fun ps mt z r st o ho =>
            dispatch_mono env _ _ (fun n st0 s0 hn => ih n st0 s0 hn) ps mt z r st o ho)
          _ _ _ _ hl
        rw [hl] at h
        rw [hl2]
        exact h

theorem processPacket_mono_le (env : Env) (d d' : Nat) (hle : d ≤ d') (packets : Option Buffer)
    (s s' : State) (h : processPacket env d packets s = some s') :
    processPacket env d' packets s = some s' := by
  induction d', hle using Nat.le_induction with
  | base => exact h
  | succ n _ ih => exact processPacket_mono env n packets s s' ih

theorem encodeFrame_drop (f : Frame) : (encodeFrame f).drop 10 = f.body.drop 4 := by
  have h : encodeFrame f = (beBytes 4 (6 + f.body.length) ++ beBytes 2 f.kindField) ++ f.body := by
    simp [encodeFrame]
  have hl : (beBytes 4 (6 + f.body.length) ++ beBytes 2 f.kindField).length = 6 := by
    simp [beBytes_length]
  have h6 : (encodeFrame f).drop 6 = f.body := by
    rw [h]
    exact List.drop_left' hl
  have h10 : (encodeFrame f).drop 10 = ((encodeFrame f).drop 6).drop 4 := by
    rw [List.drop_drop]
  rw [h10, h6]

/-- A buffer of encoded frames has no compressed FrameDown frame when none of the frames is
one and the bytes nested in its FrameDown frames have none. -/
theorem not_compressed_encodeFrames (fs : List Frame) (hv : ∀ f ∈ fs, f.Valid)
    (hf : ∀ f ∈ fs, f.kind = MessageType.FrameDown →
      f.compressed = false ∧ ¬ HasCompressedFrameDown (f.body.drop 4) 0) :
    ∀ pre : Buffer, ¬ HasCompressedFrameDown (pre ++ encodeFrames fs) pre.length := by
  induction fs with
  | nil =>
    intro pre h
    have hread : Buffer.readUInt32BE (pre ++ encodeFrames []) pre.length = none := by
      simp [encodeFrames, Buffer.readUInt32BE, Buffer.readBE]
    cases h with
    | here _ _ L pt hL => rw [hread] at hL; exact Option.noConfusion hL
    | nested _ _ L pt hL => rw [hread] at hL; exact Option.noConfusion hL
    | later _ _ L hL => rw [hread] at hL; exact Option.noConfusion hL
  | cons f fs ih =>
    intro pre h
    have hvf := hv f (List.mem_cons_self _ _)
    have hread := readUInt32BE_encodeFrame pre (encodeFrames fs) f hvf
    have hsub := subarray_append pre (encodeFrame f) (encodeFrames fs)
    rw [encodeFrame_length] at hsub
    have h16f := readUInt16BE_encodeFrame [] f hvf
    simp only [List.nil_append, List.append_nil, List.length_nil] at h16f
    obtain ⟨hk1, hk2, -⟩ := f.kindField_land hvf.1
    rw [encodeFrames_cons] at h
    cases h with
    | here _ _ L pt hL h6 h16 hkind hflag =>
      rw [hread] at hL
      obtain rfl := Option.some.inj hL
      rw [hsub, h16f] at h16
      obtain rfl := Option.some.inj h16
      rw [hk1] at hkind
      rw [hk2] at hflag
      have hc := (hf f (List.mem_cons_self _ _) hkind).1
      simp [Frame.flagBits, hc] at hflag
    | nested _ _ L pt hL h6 h16 hkind hlen hn =>
      rw [hread] at hL
      obtain rfl := Option.some.inj hL
      rw [hsub, h16f] at h16
      obtain rfl := Option.some.inj h16
      rw [hk1] at hkind
      rw [hsub, encodeFrame_drop] at hn
      exact (hf f (List.mem_cons_self _ _) hkind).2 hn
    | later _ _ L hL h6 hlt hn =>
      rw [hread] at hL
      obtain rfl := Option.some.inj hL
      have hih := ih (fun g hg => hv g (List.mem_cons_of_mem _ hg))
        (fun g hg => hf g (List.mem_cons_of_mem _ hg)) (pre ++ encodeFrame f)
      rw [List.length_append, encodeFrame_length, List.append_assoc] at hih
      exact hih hn

/-- C19: on a buffer in which no FrameDown frame has its compression flag set,
`processPacket` terminates: it gives the same result with every nesting budget above the
length of the buffer, whatever the decoders and the zstd routine do.  The reasons: the
frame loop, given a switch that returns, ends within one turn per 6 unread bytes, each
turn moving the cursor by the declared length; and the nested call of an uncompressed
FrameDown frame gets the bytes from byte 10 of the frame on, 10 bytes fewer than the frame
has. -/
theorem terminates_without_compressed_frameDown (env : Env) (buf : Buffer) (s : State)
    (h : ¬ HasCompressedFrameDown buf 0) :
    (∃ s', ∀ d, buf.length < d → processPacket env d (some buf) s = some s') ∧
    (∀ (fuel offset : Nat) (st : State), ¬ HasCompressedFrameDown buf offset → 1 ≤ fuel →
      buf.length ≤ offset + 6 * fuel → ∀ d, buf.length ≤ d →
      frameLoop (dispatch env (processPacket env d)) fuel buf offset st ≠ none) ∧
    (∀ (body : Nat → Nat → Nat → BinaryReader → State → Option (Outcome State))
        (fuel offset : Nat) (st : State),
      (∀ ps mt z r st', body ps mt z r st' ≠ none) → 1 ≤ fuel →
        buf.length ≤ offset + 6 * fuel → frameLoop body fuel buf offset st ≠ none) ∧
    (∀ (body : Nat → Nat → Nat → BinaryReader → State → Option (Outcome State))
        (fuel offset L L' packetType : Nat) (st st' : State),
      Buffer.readUInt32BE buf offset = some L → 6 ≤ L →
      Buffer.readUInt32BE (buf.subarray offset (offset + L)) 0 = some L' →
      Buffer.readUInt16BE (buf.subarray offset (offset + L)) 4 = some packetType →
      body L' (packetType &&& 0x7fff) (packetType &&& 0x8000)
        { buffer := buf.subarray offset (offset + L), offset := 6 } st = some (.returned st') →
      offset + L < buf.length →
        (BinaryReader.readBytes { buffer := buf, offset := offset } L).2.offset = offset + L ∧
        frameLoop body (fuel + 1) buf offset st = frameLoop body fuel buf (offset + L) st') ∧
    (∀ (recurse : Option Buffer → State → Option State) (ps : Nat) (r : BinaryReader)
        (st : State), r.offset = 6 → 10 < r.buffer.length →
      dispatch env recurse ps MessageType.FrameDown 0 r st =
          (match recurse (some (r.buffer.drop 10)) st with
            | none => none
            | some s' => some (.returned s')) ∧
        (r.buffer.drop 10).length + 10 = r.buffer.length) := by
  refine ⟨?_, ?_, ?_, ?_, ?_⟩
  · cases hp : processPacket env (buf.length + 1) (some buf) s with
    | none =>
      exact absurd hp (processPacket_ne_none_of_not_compressed env _ buf s h
        (Nat.lt_succ_self _))
    | some s' =>
      exact ⟨s', fun d hd => processPacket_mono_le env _ d hd _ _ _ hp⟩
  · intro fuel offset st hno h1 hlen d hd
    exact frameLoop_ne_none_of_not_compressed env (processPacket env d) buf
      (fun b hb hnb st0 =>
        processPacket_ne_none_of_not_compressed env d b st0 hnb (by omega))
      fuel offset st hno h1 hlen
  · intro body fuel offset st hbody h1 hlen
    exact frameLoop_ne_none body buf (fun ps mt z r st' _ _ => hbody ps mt z r st') fuel offset
      st h1 hlen
  · intro body fuel offset L L' packetType st st' hL h6 h32 h16 hb hlt
    refine ⟨rfl, ?_⟩
    have hrem : BinaryReader.remaining { buffer := buf, offset := offset + L } > 0 := by
      simp only [BinaryReader.remaining]
      omega
    rw [frameLoop]
    simp only [BinaryReader.peekUInt32, BinaryReader.readBytes, BinaryReader.readUInt32,
      BinaryReader.readUInt16, hL, Nat.zero_add, Nat.reduceAdd, h32, h16, hb]
    rw [if_neg (by omega), if_pos hrem]
  · intro recurse ps r st hoff hlen
    constructor
    · rw [dispatch_frameDown env recurse ps 0 r st hoff hlen]
      simp
    · rw [List.length_drop]
      omega

theorem terminates_without_compressed_frameDown_witness :
    (∃ s', ∀ d,
      (encodeFrames [frameDown [0, 0, 0, 7] (encodeFrames [syncNearFrame])]).length < d →
      processPacket decodingEnv d
        (some (encodeFrames [frameDown [0, 0, 0, 7] (encodeFrames [syncNearFrame])])) {} =
      some s') ∧
    processPacket decodingEnv 2
        (some (encodeFrames [frameDown [0, 0, 0, 7] (encodeFrames [syncNearFrame])])) {} =
      some { calls := [.addHealing 3 1000 false false, .getUser 3, .getUser 7] } ∧
    HasCompressedFrameDown (encodeFrame compressedFrameDown) 0 :=
  ⟨(terminates_without_compressed_frameDown decodingEnv
      (encodeFrames [frameDown [0, 0, 0, 7] (encodeFrames [syncNearFrame])]) {}
      (not_compressed_encodeFrames [frameDown [0, 0, 0, 7] (encodeFrames [syncNearFrame])]
        (by
          intro f hf
          simp only [List.mem_singleton] at hf
          subst hf
          exact ⟨by decide, by decide⟩)
        (by
          intro f hf _
          simp only [List.mem_singleton] at hf
          subst hf
          refine ⟨rfl, ?_⟩
          exact not_compressed_encodeFrames [syncNearFrame]
            (by
              intro g hg
              simp only [List.mem_singleton] at hg
              subst hg
              exact ⟨by decide, by decide⟩)
            (by
              intro g hg hk
              simp only [List.mem_singleton] at hg
              subst hg
              exact absurd hk (by decide)) [])
        [])).1,
    by rfl,
    .here _ 0 13 0x8006 (by rfl) (by decide) (by rfl) (by decide) (by decide)⟩

/-! ## `processPacket` returns on finitely nested buffers -/

/-- On finitely nested bytes the frame loop of `processPacket` gives a result with every
nesting budget from some budget on. -/
theorem frameLoop_ne_none_of_finiteNesting (env : Env) (packets : Buffer) (offset : Nat)
    (h : FiniteNesting env packets offset) :
    ∃ d, ∀ d', d ≤ d' → ∀ (fuel : Nat) (s : State), 1 ≤ fuel →
      packets.length ≤ offset + 6 * fuel →
      frameLoop (dispatch env (processPacket env d')) fuel packets offset s ≠ none := by
  induction h with
  | stop packets offset hstop =>
    refine ⟨0, fun d' _ fuel s h1 _ => ?_⟩
    obtain ⟨k, rfl⟩ : ∃ k, fuel = k + 1 := ⟨fuel - 1, by omega⟩
    apply frameLoop_step_ne_none
    · intro L L' packetType hL h6 _
      have := hstop L hL
      omega
    · intro L s' hL h6 _
      have := hstop L hL
      omega
  | frame packets offset L hL h6 hnested hrest ihn ihr =>
    have hn : ∃ dn, ∀ packetType nested,
        Buffer.readUInt16BE (packets.subarray offset (offset + L)) 4 = some packetType →
        packetType &&& 0x7fff = MessageType.FrameDown →
        10 < (packets.subarray offset (offset + L)).length →
        (if packetType &&& 0x8000 ≠ 0 then
            decompressPayload env ((packets.subarray offset (offset + L)).drop 10)
          else some (some ((packets.subarray offset (offset + L)).drop 10))) =
          some (some nested) →
        ∀ d', dn ≤ d' → ∀ (fuel : Nat) (s : State), 1 ≤ fuel →
          nested.length ≤ 0 + 6 * fuel →
          frameLoop (dispatch env (processPacket env d')) fuel nested 0 s ≠ none := by
      by_cases hex : ∃ packetType nested,
          Buffer.readUInt16BE (packets.subarray offset (offset + L)) 4 = some packetType ∧
          packetType &&& 0x7fff = MessageType.FrameDown ∧
          10 < (packets.subarray offset (offset + L)).length ∧
          (if packetType &&& 0x8000 ≠ 0 then
              decompressPayload env ((packets.subarray offset (offset + L)).drop 10)
            else some (some ((packets.subarray offset (offset + L)).drop 10))) =
            some (some nested)
      · obtain ⟨pt0, nested0, h16, hk, hlen, hdec⟩ := hex
        obtain ⟨dn, hdn⟩ := ihn pt0 nested0 h16 hk hlen hdec
        refine ⟨dn, fun pt nested h16' _ _ hdec' => ?_⟩
        have hpt : pt = pt0 := Option.some.inj (h16'.symm.trans h16)
        subst hpt
        have hne : nested = nested0 :=
          Option.some.inj (Option.some.inj (hdec'.symm.trans hdec))
        subst hne
        exact hdn
      · exact ⟨0, fun pt nested h16 hk hlen hdec =>
          absurd ⟨pt, nested, h16, hk, hlen, hdec⟩ hex⟩
    have hr : ∃ dr, offset + L < packets.length → ∀ d', dr ≤ d' →
        ∀ (fuel : Nat) (s : State), 1 ≤ fuel → packets.length ≤ offset + L + 6 * fuel →
          frameLoop (dispatch env (processPacket env d')) fuel packets (offset + L) s ≠
            none := by
      by_cases hlt : offset + L < packets.length
      · obtain ⟨dr, hdr⟩ := ihr hlt
        exact ⟨dr, fun _ => hdr⟩
      · exact ⟨0, fun h => absurd h hlt⟩
    obtain ⟨dn, hdn⟩ := hn
    obtain ⟨dr, hdr⟩ := hr
    refine ⟨max (dn + 1) dr, fun d' hd' fuel s h1 hlen => ?_⟩
    obtain ⟨k, rfl⟩ : ∃ k, fuel = k + 1 := ⟨fuel - 1, by omega⟩
    obtain ⟨e, rfl⟩ : ∃ e, d' = e + 1 := ⟨d' - 1, by omega⟩
    apply frameLoop_step_ne_none
    · intro L2 L' packetType hL2 _ h16
      apply dispatch_ne_none_of_nested env _ L' _ _ _ s rfl
      intro hmt hlen10 nested hdec
      cases nested with
      | none => simp [processPacket]
      | some nb =>
        have hL2' : L2 = L := Option.some.inj (hL2.symm.trans hL)
        subst hL2'
        have hloop := hdn packetType nb h16 hmt hlen10 hdec e (by omega) (nb.length + 1) s
          (by omega) (by omega)
        rw [processPacket_succ_some]
        cases hl : frameLoop (dispatch env (processPacket env e)) (nb.length + 1) nb 0 s with
        | none => exact absurd hl hloop
        | some out => simp
    · intro L2 s' hL2 _ hlt
      have hL2' : L2 = L := Option.some.inj (hL2.symm.trans hL)
      subst hL2'
      exact hdr hlt (e + 1) (by omega) k s' (by omega) (by omega)

/-- A buffer of encoded frames is finitely nested when the bytes handed on by each of its
FrameDown frames are. -/
theorem finiteNesting_encodeFrames (env : Env) (fs : List Frame) (hv : ∀ f ∈ fs, f.Valid)
    (hf : ∀ f ∈ fs, f.kind = MessageType.FrameDown → 4 < f.body.length → ∀ nested,
      (if f.flagBits ≠ 0 then decompressPayload env (f.body.drop 4)
        else some (some (f.body.drop 4))) = some (some nested) →
      FiniteNesting env nested 0) :
    ∀ pre : Buffer, FiniteNesting env (pre ++ encodeFrames fs) pre.length := by
  induction fs with
  | nil =>
    intro pre
    apply FiniteNesting.stop
    intro L hL
    simp [encodeFrames, Buffer.readUInt32BE, Buffer.readBE] at hL
  | cons f fs ih =>
    intro pre
    have hvf := hv f (List.mem_cons_self _ _)
    have hread := readUInt32BE_encodeFrame pre (encodeFrames fs) f hvf
    have hsub := subarray_append pre (encodeFrame f) (encodeFrames fs)
    rw [encodeFrame_length] at hsub
    have h16f := readUInt16BE_encodeFrame [] f hvf
    simp only [List.nil_append, List.append_nil, List.length_nil] at h16f
    obtain ⟨hk1, hk2, -⟩ := f.kindField_land hvf.1
    rw [encodeFrames_cons]
    refine .frame _ _ (6 + f.body.length) hread (by omega) ?_ ?_
    · intro pt nested h16 hkind hlen hdec
      rw [hsub] at h16 hlen hdec
      rw [h16f] at h16
      obtain rfl := Option.some.inj h16
      rw [hk1] at hkind
      rw [hk2, encodeFrame_drop] at hdec
      rw [encodeFrame_length] at hlen
      exact hf f (List.mem_cons_self _ _) hkind (by omega) nested hdec
    · intro _
      have hih := ih (fun g hg => hv g (List.mem_cons_of_mem _ hg))
        (fun g hg => hf g (List.mem_cons_of_mem _ hg)) (pre ++ encodeFrame f)
      rw [List.length_append, encodeFrame_length, List.append_assoc] at hih
      exact hih

/-- With a zstd routine that never gives back more bytes than it took (one that is missing
or always raises among them), every buffer is finitely nested. -/
theorem finiteNesting_of_nonexpanding (env : Env)
    (hz : ∀ b out, env.zstdDecompressSync b = some out → out.length ≤ b.length) :
    ∀ (n : Nat) (packets : Buffer), packets.length ≤ n → ∀ (m offset : Nat),
      packets.length ≤ offset + m → FiniteNesting env packets offset := by
  intro n
  induction n using Nat.strong_induction_on with
  | _ n ih =>
    intro packets hn m
    induction m with
    | zero =>
      intro offset hm
      apply FiniteNesting.stop
      intro L hL
      simp only [Buffer.readUInt32BE, Buffer.readBE] at hL
      rw [if_neg (by omega)] at hL
      exact Option.noConfusion hL
    | succ m ihm =>
      intro offset hm
      cases hL : Buffer.readUInt32BE packets offset with
      | none =>
        apply FiniteNesting.stop
        intro L hL'
        rw [hL] at hL'
        exact Option.noConfusion hL'
      | some L =>
        by_cases h6 : L < 6
        · apply FiniteNesting.stop
          intro L' hL'
          rw [hL] at hL'
          obtain rfl := Option.some.inj hL'
          exact h6
        · refine .frame _ _ L hL (by omega) ?_ ?_
          · intro pt nested _ _ hlen hdec
            have hsub := subarray_length packets offset L
            have hdrop : ((packets.subarray offset (offset + L)).drop 10).length + 10 ≤
                packets.length := by
              rw [List.length_drop]
              omega
            have hshort : nested.length + 10 ≤ packets.length := by
              by_cases hzc : pt &&& 0x8000 ≠ 0
              · rw [if_pos hzc] at hdec
                unfold decompressPayload at hdec
                cases hav : env.zstdAvailable with
                | false => simp [hav] at hdec
                | true =>
                  simp only [hav, Bool.not_true, Bool.false_eq_true, if_false] at hdec
                  cases hd : env.zstdDecompressSync
                      ((packets.subarray offset (offset + L)).drop 10) with
                  | none => simp [hd] at hdec
                  | some out =>
                    simp only [hd, Option.some.injEq] at hdec
                    subst hdec
                    have := hz _ _ hd
                    omega
              · rw [if_neg hzc] at hdec
                simp only [Option.some.injEq] at hdec
                subst hdec
                exact hdrop
            exact ih nested.length (by omega) nested (Nat.le_refl _) nested.length 0 (by omega)
          · intro _
            exact ihm (offset + L) (by omega)

/-- C4: `processPacket` returns normally on every finitely nested buffer, whatever its bytes
and whatever the decoders and the zstd routine do (raise, return, return more bytes than
they took): from some nesting budget on it gives one and the same state.  A raise inside
the frame loop is caught: it ends the call with the state reached, as does an `undefined`
buffer.  The model gives no result only when a nested `processPacket` call gives none, and
with a zstd routine that never returns more bytes than it took every buffer is finitely
nested and a budget above its length is enough. -/
theorem processPacket_returns_normally (env : Env) (buf : Buffer) (s : State)
    (h : FiniteNesting env buf 0) :
    (∃ d s', ∀ d', d ≤ d' → processPacket env d' (some buf) s = some s') ∧
    (∀ (e : Nat) (env' : Env) (st : State), processPacket env' (e + 1) none st = some st) ∧
    (∀ (e : Nat) (env' : Env) (b : Buffer) (st st' : State),
      frameLoop (dispatch env' (processPacket env' e)) (b.length + 1) b 0 st =
          some (.threw st') →
        processPacket env' (e + 1) (some b) st = some st') ∧
    (∀ (e : Nat) (env' : Env) (b : Buffer) (st : State),
      processPacket env' (e + 1) (some b) st = none →
        ∃ nested st', processPacket env' e nested st' = none) ∧
    (∀ env' : Env,
      (∀ b out, env'.zstdDecompressSync b = some out → out.length ≤ b.length) →
      ∀ (b : Buffer) (st : State), FiniteNesting env' b 0 ∧
        ∃ s', ∀ d', b.length < d' → processPacket env' d' (some b) st = some s') := by
  refine ⟨?_, ?_, ?_, ?_, ?_⟩
  · obtain ⟨d, hd⟩ := frameLoop_ne_none_of_finiteNesting env buf 0 h
    have hloop := hd d (Nat.le_refl _) (buf.length + 1) s (by omega) (by omega)
    cases hl : frameLoop (dispatch env (processPacket env d)) (buf.length + 1) buf 0 s with
    | none => exact absurd hl hloop
    | some out =>
      refine ⟨d + 1, out.state, fun d' hd' => ?_⟩
      apply processPacket_mono_le env (d + 1) d' hd'
      rw [processPacket_succ_some, hl]
  · intro e env' st
    simp [processPacket]
  · intro e env' b st st' hl
    rw [processPacket_succ_some, hl]
    rfl
  · intro e env' b st hnone
    by_contra hcon
    push_neg at hcon
    have hloop := frameLoop_ne_none (dispatch env' (processPacket env' e)) b
      (fun ps mt z r st0 _ _ => dispatch_ne_none env' _ ps mt z r st0 hcon)
      (b.length + 1) 0 st (by omega) (by omega)
    rw [processPacket_succ_some] at hnone
    cases hl : frameLoop (dispatch env' (processPacket env' e)) (b.length + 1) b 0 st with
    | none => exact hloop hl
    | some out => simp [hl] at hnone
  · intro env' hz b st
    refine ⟨finiteNesting_of_nonexpanding env' hz b.length b (Nat.le_refl _) b.length 0
      (by omega), ?_⟩
    cases hp : processPacket env' (b.length + 1) (some b) st with
    | none =>
      exact absurd hp (processPacket_ne_none env' hz b.length (some b) st
        (by intro b' hb'; cases hb'; exact Nat.le_refl _))
    | some s' => exact ⟨s', fun d' hd' => processPacket_mono_le env' _ d' hd' _ _ _ hp⟩

theorem processPacket_returns_normally_witness :
    (∃ d s', ∀ d', d ≤ d' →
      processPacket zstdSampleEnv d'
        (some (encodeFrames [compressedFrameDownOf rleStream, compressedFrameDownOf rawStream]))
        {} = some s') ∧
    processPacket zstdSampleEnv 2
        (some (encodeFrames [compressedFrameDownOf rleStream, compressedFrameDownOf rawStream]))
        {} = some { calls := [.addHealing 3 1000 false false, .getUser 3, .getUser 7] } ∧
    rleStream.length < (List.replicate 20 (0 : Byte)).length :=
  ⟨(processPacket_returns_normally zstdSampleEnv
      (encodeFrames [compressedFrameDownOf rleStream, compressedFrameDownOf rawStream]) {}
      (finiteNesting_encodeFrames zstdSampleEnv
        [compressedFrameDownOf rleStream, compressedFrameDownOf rawStream]
        (by
          intro f hf
          simp only [List.mem_cons, List.mem_singleton, List.not_mem_nil, or_false] at hf
          rcases hf with rfl | rfl <;> exact ⟨by decide, by decide⟩)
        (by
          intro f hf _ _ nested hdec
          simp only [List.mem_cons, List.mem_singleton, List.not_mem_nil, or_false] at hf
          rcases hf with rfl | rfl
          · have hval : (if (compressedFrameDownOf rleStream).flagBits ≠ 0 then
                decompressPayload zstdSampleEnv ((compressedFrameDownOf rleStream).body.drop 4)
                else some (some ((compressedFrameDownOf rleStream).body.drop 4))) =
                some (some (List.replicate 20 0)) := by rfl
            rw [hval] at hdec
            obtain rfl := Option.some.inj (Option.some.inj hdec)
            apply FiniteNesting.stop
            intro L hL
            have hread : Buffer.readUInt32BE (List.replicate 20 (0 : Byte)) 0 = some 0 := by rfl
            rw [hread] at hL
            obtain rfl := Option.some.inj hL
            decide
          · have hval : (if (compressedFrameDownOf rawStream).flagBits ≠ 0 then
                decompressPayload zstdSampleEnv ((compressedFrameDownOf rawStream).body.drop 4)
                else some (some ((compressedFrameDownOf rawStream).body.drop 4))) =
                some (some (encodeFrames [syncNearFrame])) := by rfl
            rw [hval] at hdec
            obtain rfl := Option.some.inj (Option.some.inj hdec)
            exact finiteNesting_encodeFrames zstdSampleEnv [syncNearFrame]
              (by
                intro g hg
                simp only [List.mem_singleton] at hg
                subst hg
                exact ⟨by decide, by decide⟩)
              (by
                intro g hg hk
                simp only [List.mem_singleton] at hg
                subst hg
                exact absurd hk (by decide)) [])
        [])).1,
    by rfl, by decide⟩

end PacketJs
